import Mathlib

/-! # wifibear: EAPOL-Key codec, handshake tracker, key derivation, cracker and scanner

A shallow embedding of `pkg/wifi/eapol.go`, `pkg/wifi/crypto.go`, the
handshake tracking parts of `internal/scan/capture.go` and
`internal/handshake/capture.go`, `internal/attack/crack.go`,
`internal/scan/target.go`, and of `parseRSN` and `handleDataFrame` of
`internal/scan/scanner.go` and `SendBroadcastDeauth` of
`internal/attack/inject.go`, followed by the properties proved about them.

Conventions of the embedding:

* an octet (`byte`, `uint8`) is a `Fin 256`; wider unsigned integers are
  natural numbers, with their range stated where it matters;
* a Go slice `[]byte` is a `List Byte`; a Go array `[n]byte` is a
  `Mathlib.Vector Byte n`;
* a nil pointer is `none`, and so is a nil slice where the source tests it
  against `nil`;
* a run-time panic (index or slice bound out of range) is the value `none`
  of an `Option`-valued function;
* a Go `error` result is the `Except.error` case;
* a Go map with string keys is the list of its entries, one per key; the
  order in which a `range` visits it is an argument;
* a pointer to an object shared between two containers is an address into an
  explicit heap;
* goroutines are interleaved by a schedule, a list of events that each let
  one of them take its next step.
-/

namespace Wifi

/-- An octet. -/
abbrev Byte := Fin 256

/-- The Go slice expression `s[lo:hi]`, for `lo ≤ hi ≤ len(s)`. -/
def slice (s : List Byte) (lo hi : Nat) : List Byte :=
  (s.drop lo).take (hi - lo)

/-- Value of an octet string read as a big-endian unsigned integer:
`binary.BigEndian.Uint16` on two octets, `binary.BigEndian.Uint64` on eight. -/
def beUint (bs : List Byte) : Nat :=
  bs.foldl (fun acc b => acc * 256 + b.val) 0

/-- The Go builtin `copy(dst[:], src)` for an array destination: the first
`min n (len src)` octets of `dst` are overwritten with those of `src`. -/
def copyArr {n : Nat} (dst : Mathlib.Vector Byte n) (src : List Byte) :
    Mathlib.Vector Byte n :=
  ⟨src.take n ++ dst.toList.drop src.length, by
    have h := dst.toList_length
    simp only [List.length_append, List.length_take, List.length_drop, h]
    omega⟩

/-- The zero value of `[n]byte`. -/
def zeroArr (n : Nat) : Mathlib.Vector Byte n :=
  Mathlib.Vector.replicate n 0

/-! ## `pkg/wifi/eapol.go` -/

def EAPOLKeyInfoPairwise : Nat := 0x0008
def EAPOLKeyInfoInstall : Nat := 0x0040
def EAPOLKeyInfoACK : Nat := 0x0080
def EAPOLKeyInfoMIC : Nat := 0x0100
def EAPOLKeyInfoSecure : Nat := 0x0200

/-- The parsed EAPOL-Key frame (`type EAPOLKeyFrame struct`). -/
structure EAPOLKeyFrame where
  Version : Byte
  /-- The field `Type` of the source (a reserved word here). -/
  Type_ : Byte
  Length : Nat
  DescriptorType : Byte
  KeyInfo : Nat
  KeyLength : Nat
  ReplayCounter : Nat
  Nonce : Mathlib.Vector Byte 32
  IV : Mathlib.Vector Byte 16
  RSC : Mathlib.Vector Byte 8
  ID : Mathlib.Vector Byte 8
  MIC : Mathlib.Vector Byte 16
  DataLength : Nat
  Data : List Byte
  deriving DecidableEq

/-- The Go type `HandshakeMessage` is an `int`. -/
abbrev HandshakeMessage := Int

def HandshakeMsg1 : HandshakeMessage := 1
def HandshakeMsg2 : HandshakeMessage := 2
def HandshakeMsg3 : HandshakeMessage := 3
def HandshakeMsg4 : HandshakeMessage := 4
def HandshakeMsgUnknown : HandshakeMessage := 0

/-- The function `ParseEAPOLKeyFrame`. -/
def ParseEAPOLKeyFrame (data : List Byte) : Except String EAPOLKeyFrame :=
  if data.length < 99 then
    Except.error ("EAPOL key frame too short: " ++ toString data.length ++ " bytes")
  else
    let frame : EAPOLKeyFrame :=
      { Version := data.getD 0 0
        Type_ := data.getD 1 0
        Length := beUint (slice data 2 4)
        DescriptorType := data.getD 4 0
        KeyInfo := beUint (slice data 5 7)
        KeyLength := beUint (slice data 7 9)
        ReplayCounter := beUint (slice data 9 17)
        Nonce := zeroArr 32
        IV := zeroArr 16
        RSC := zeroArr 8
        ID := zeroArr 8
        MIC := zeroArr 16
        DataLength := 0
        Data := [] }
    let frame := { frame with Nonce := copyArr frame.Nonce (slice data 17 49) }
    let frame := { frame with IV := copyArr frame.IV (slice data 49 65) }
    let frame := { frame with RSC := copyArr frame.RSC (slice data 65 73) }
    let frame := { frame with ID := copyArr frame.ID (slice data 73 81) }
    let frame := { frame with MIC := copyArr frame.MIC (slice data 81 97) }
    let frame := { frame with DataLength := beUint (slice data 97 99) }
    let frame :=
      if data.length > 99 then { frame with Data := data.drop 99 } else frame
    Except.ok frame

/-- The loop of `MessageNumber` over the nonce: the flag starts `true` and is
cleared, with a `break`, at the first non-zero octet. -/
def isNonceZero : List Byte → Bool
  | [] => true
  | b :: rest => if b != 0 then false else isNonceZero rest

/-- The method `EAPOLKeyFrame.MessageNumber`. -/
def MessageNumber (f : EAPOLKeyFrame) : HandshakeMessage :=
  let hasACK := f.KeyInfo &&& EAPOLKeyInfoACK != 0
  let hasMIC := f.KeyInfo &&& EAPOLKeyInfoMIC != 0
  let hasInstall := f.KeyInfo &&& EAPOLKeyInfoInstall != 0
  let hasSecure := f.KeyInfo &&& EAPOLKeyInfoSecure != 0
  let nonceZero := isNonceZero f.Nonce.toList
  if hasACK && !hasMIC && !hasInstall then HandshakeMsg1
  else if !hasACK && hasMIC && !hasInstall && !nonceZero then HandshakeMsg2
  else if hasACK && hasMIC && hasInstall && hasSecure then HandshakeMsg3
  else if !hasACK && hasMIC && !hasInstall && hasSecure && nonceZero then HandshakeMsg4
  else HandshakeMsgUnknown

/-- The four-way handshake (`type FourWayHandshake struct`): the slot arrays
`[4]*EAPOLKeyFrame` and `[4][]byte` are functions on `Fin 4`; a raw frame that
is `nil` is `none`. -/
structure FourWayHandshake where
  BSSID : Mathlib.Vector Byte 6
  ClientMAC : Mathlib.Vector Byte 6
  Messages : Fin 4 → Option EAPOLKeyFrame
  RawFrames : Fin 4 → Option (List Byte)
  Complete : Bool

/-- The function `NewFourWayHandshake`: the zero value of the struct. -/
def NewFourWayHandshake : FourWayHandshake :=
  { BSSID := zeroArr 6
    ClientMAC := zeroArr 6
    Messages := fun _ => none
    RawFrames := fun _ => none
    Complete := false }

/-- The Go builtin `copy(dst, src)` on slices: returns the new content of
`dst`, whose first `min (len dst) (len src)` octets come from `src`. -/
def copySlice (dst src : List Byte) : List Byte :=
  src.take dst.length ++ dst.drop src.length

/-- The method `FourWayHandshake.checkComplete`. -/
def checkComplete (h : FourWayHandshake) : FourWayHandshake :=
  if (h.Messages 0).isSome && (h.Messages 1).isSome then { h with Complete := true }
  else h

/-- The method `FourWayHandshake.AddMessage`. -/
def AddMessage (h : FourWayHandshake) (msg : HandshakeMessage)
    (frame : Option EAPOLKeyFrame) (raw : List Byte) : FourWayHandshake :=
  let idx : Int := msg - 1
  if idx < 0 ∨ idx > 3 then h
  else
    let h := { h with Messages := fun j => if (j.val : Int) = idx then frame else h.Messages j }
    let h := { h with RawFrames := fun j =>
                if (j.val : Int) = idx then some (List.replicate raw.length 0)
                else h.RawFrames j }
    let h := { h with RawFrames := fun j =>
                if (j.val : Int) = idx then (h.RawFrames j).map (fun dst => copySlice dst raw)
                else h.RawFrames j }
    checkComplete h

/-- The method `FourWayHandshake.HasMinimumFrames`. -/
def HasMinimumFrames (h : FourWayHandshake) : Bool :=
  (h.Messages 0).isSome && (h.Messages 1).isSome

/-! ## SHA-1 and HMAC

`crypto/sha1` and `crypto/hmac` belong to the Go standard library, not to the
repository; they are embedded from their standards (FIPS 180-4, RFC 2104) so
that the key derivation below can be evaluated. -/

/-- The `n` octets of the big-endian representation of `v` modulo `256 ^ n`. -/
def beBytes : Nat → Nat → List Byte
  | 0, _ => []
  | n + 1, v => beBytes n (v / 256) ++ [Fin.ofNat v]

/-- Rotation to the left of a 32-bit word. -/
def rotl32 (x n : Nat) : Nat :=
  ((x <<< n) ||| (x >>> (32 - n))) % 2 ^ 32

/-- The padding of SHA-1 (FIPS 180-4, 5.1.1): one octet `0x80`, zeros up to 56
modulo 64, then the length in bits as a 64-bit big-endian integer. -/
def sha1Pad (msg : List Byte) : List Byte :=
  let r := (msg.length + 1) % 64
  let zeros := if r ≤ 56 then 56 - r else 120 - r
  msg ++ [0x80] ++ List.replicate zeros 0 ++ beBytes 8 (8 * msg.length)

/-- The message schedule of one 64-octet block: 80 words. -/
def sha1Schedule (block : List Byte) : Array Nat :=
  let w : Array Nat := (Array.range 16).map (fun i => beUint (slice block (4 * i) (4 * i + 4)))
  (List.range 64).foldl
    (fun w j =>
      let i := j + 16
      w.push (rotl32 (w.getD (i - 3) 0 ^^^ w.getD (i - 8) 0 ^^^ w.getD (i - 14) 0
        ^^^ w.getD (i - 16) 0) 1))
    w

/-- The five chaining words of SHA-1. -/
structure Sha1State where
  h0 : Nat
  h1 : Nat
  h2 : Nat
  h3 : Nat
  h4 : Nat

/-- The initial hash value. -/
def sha1Init : Sha1State :=
  { h0 := 0x67452301, h1 := 0xEFCDAB89, h2 := 0x98BADCFE, h3 := 0x10325476, h4 := 0xC3D2E1F0 }

/-- One of the 80 rounds of the compression function. -/
def sha1Round (w : Array Nat) (s : Sha1State) (i : Nat) : Sha1State :=
  let a := s.h0
  let b := s.h1
  let c := s.h2
  let d := s.h3
  let e := s.h4
  let fk : Nat × Nat :=
    if i < 20 then ((b &&& c) ||| ((b ^^^ 0xFFFFFFFF) &&& d), 0x5A827999)
    else if i < 40 then (b ^^^ c ^^^ d, 0x6ED9EBA1)
    else if i < 60 then ((b &&& c) ||| (b &&& d) ||| (c &&& d), 0x8F1BBCDC)
    else (b ^^^ c ^^^ d, 0xCA62C1D6)
  let t := (rotl32 a 5 + fk.1 + e + fk.2 + w.getD i 0) % 2 ^ 32
  { h0 := t, h1 := a, h2 := rotl32 b 30, h3 := c, h4 := d }

/-- The compression function on one block. -/
def sha1Block (s : Sha1State) (block : List Byte) : Sha1State :=
  let w := sha1Schedule block
  let r := (List.range 80).foldl (sha1Round w) s
  { h0 := (s.h0 + r.h0) % 2 ^ 32
    h1 := (s.h1 + r.h1) % 2 ^ 32
    h2 := (s.h2 + r.h2) % 2 ^ 32
    h3 := (s.h3 + r.h3) % 2 ^ 32
    h4 := (s.h4 + r.h4) % 2 ^ 32 }

/-- The digest `sha1.Sum`: 20 octets. -/
def sha1Sum (msg : List Byte) : List Byte :=
  let p := sha1Pad msg
  let s := (List.range (p.length / 64)).foldl
    (fun s k => sha1Block s (slice p (64 * k) (64 * k + 64))) sha1Init
  beBytes 4 s.h0 ++ beBytes 4 s.h1 ++ beBytes 4 s.h2 ++ beBytes 4 s.h3 ++ beBytes 4 s.h4

/-- The constant `sha1.BlockSize`. -/
def sha1BlockSize : Nat := 64

/-- HMAC-SHA1 (RFC 2104): what `hmac.New(sha1.New, key)`, `Write(msg)` and
`Sum(nil)` compute. -/
def hmacSHA1 (key msg : List Byte) : List Byte :=
  let key := if key.length > sha1BlockSize then sha1Sum key else key
  let key := key ++ List.replicate (sha1BlockSize - key.length) 0
  let ipad := key.map (fun b => Fin.ofNat (b.val ^^^ 0x36))
  let opad := key.map (fun b => Fin.ofNat (b.val ^^^ 0x5c))
  sha1Sum (opad ++ sha1Sum (ipad ++ msg))


/-! ## `pkg/wifi/crypto.go` -/

def PMKLength : Nat := 32
def PTKLength : Nat := 64
def MICLength : Nat := 16

/-- The constant `sha1.Size`. -/
def sha1Size : Nat := 20

/-- The octets of a Go string constant (`[]byte(label)`). -/
def stringBytes (s : String) : List Byte :=
  s.toUTF8.toList.map (fun b => Fin.ofNat b.toNat)

/-- The iteration count of `prf512`:
`int(math.Ceil(float64(PTKLength) / float64(sha1.Size)))`. -/
def prf512Iterations : Nat :=
  ⌈(PTKLength : ℚ) / (sha1Size : ℚ)⌉₊

/-- The body of the loop of `prf512` at counter `i`: the message is built in
a fresh buffer from the prefix, the data and the one-octet counter, and its
HMAC is appended to the result. -/
def prf512Step (key pfx data : List Byte) (i : Nat) (result : List Byte) : List Byte :=
  let msg : List Byte := []
  let msg := msg ++ pfx
  let msg := msg ++ data
  let counter : Byte := Fin.ofNat i
  let msg := msg ++ [counter]
  result ++ hmacSHA1 key msg

/-- The loop `for i := 0; i < nIter; i++` of `prf512`, from the state
`(i, result)`; it returns the state at exit. -/
def prf512Loop (key pfx data : List Byte) (nIter : Nat) (i : Nat) (result : List Byte) :
    Nat × List Byte :=
  if i < nIter then
    prf512Loop key pfx data nIter (i + 1) (prf512Step key pfx data i result)
  else (i, result)
termination_by nIter - i

/-- The function `prf512`; the label is given by its octets. -/
def prf512 (key label data : List Byte) : List Byte :=
  let nIter := prf512Iterations
  let result : List Byte := []
  let pfx := label ++ [0]
  let result := (prf512Loop key pfx data nIter 0 result).2
  slice result 0 PTKLength

/-- The function `macLess`; `none` when `a[:6]` or `b[:6]` is out of range. -/
def macLess (a b : List Byte) : Option Bool :=
  if a.length < 6 ∨ b.length < 6 then none
  else
    let aa := beUint (([0, 0] ++ slice a 0 6).take 8)
    let bb := beUint (([0, 0] ++ slice b 0 6).take 8)
    some (decide (aa < bb))

/-- The function `bytesLess`; `none` when `b[i]` is out of range. -/
def bytesLess : List Byte → List Byte → Option Bool
  | [], _ => some false
  | _ :: _, [] => none
  | x :: a, y :: b =>
    if x < y then some true
    else if x > y then some false
    else bytesLess a b

/-- The Go statement `copy(dst[lo:hi], src)`: returns the new content of `dst`. -/
def copyInto (dst : List Byte) (lo hi : Nat) (src : List Byte) : List Byte :=
  dst.take lo ++ copySlice (slice dst lo hi) src ++ dst.drop hi

/-- The 76-octet block `data` that `DerivePTK` builds and passes to `prf512`. -/
def DerivePTKData (aa spa : Mathlib.Vector Byte 6) (aNonce sNonce : Mathlib.Vector Byte 32) :
    Option (List Byte) :=
  let data := (zeroArr 76).toList
  match macLess aa.toList spa.toList with
  | none => none
  | some macLt =>
    let data :=
      if macLt then copyInto (copyInto data 0 6 aa.toList) 6 12 spa.toList
      else copyInto (copyInto data 0 6 spa.toList) 6 12 aa.toList
    match bytesLess aNonce.toList sNonce.toList with
    | none => none
    | some nonceLt =>
      let data :=
        if nonceLt then copyInto (copyInto data 12 44 aNonce.toList) 44 76 sNonce.toList
        else copyInto (copyInto data 12 44 sNonce.toList) 44 76 aNonce.toList
      some data

/-- The label of the pairwise key expansion. -/
def pairwiseKeyExpansion : List Byte := stringBytes "Pairwise key expansion"

/-- The function `DerivePTK`. -/
def DerivePTK (pmk : List Byte) (aa spa : Mathlib.Vector Byte 6)
    (aNonce sNonce : Mathlib.Vector Byte 32) : Option (List Byte) :=
  match DerivePTKData aa spa aNonce sNonce with
  | none => none
  | some data => some (prf512 pmk pairwiseKeyExpansion data)

/-! ## `internal/scan/capture.go`: the handshake tracker -/

/-- The method `net.HardwareAddr.String` of the Go standard library: the
octets in lower-case hexadecimal, separated by colons. -/
def hardwareAddrString (a : List Byte) : String :=
  String.intercalate ":"
    (a.map (fun b => String.mk [Nat.digitChar (b.val / 16), Nat.digitChar (b.val % 16)]))

/-- What the trackers read of the 802.11 layer of a packet (`layers.Dot11`). -/
structure Dot11 where
  ToDS : Bool
  FromDS : Bool
  Address1 : List Byte
  Address2 : List Byte
  Address3 : List Byte

/-- What `checkEAPOL` reads of the EAPOL layer: `LayerContents()` and
`LayerPayload()`. -/
structure EAPOLLayer where
  Contents : List Byte
  Payload : List Byte

/-- What `checkEAPOL` reads of a decoded packet (`gopacket.Packet`): the
contents of its EAPOL-Key layer, its 802.11 layer and its EAPOL layer, each
absent (`nil`) or present. The type keeps the layers apart; the packets that a
capture yields are those of the form `decodePacket` below, in which the
EAPOL-Key layer lies in the payload of the EAPOL layer. -/
structure Packet where
  eapolKeyLayer : Option (List Byte)
  dot11Layer : Option Dot11
  eapolLayer : Option EAPOLLayer

/-- The handshake tracking state of a `CaptureWriter`. The map
`handshakes` holds pointers in the source, here the handshakes they point to;
`onHandshake` records whether a callback is registered (is not `nil`). -/
structure CaptureWriter where
  handshakes : String → Option FourWayHandshake
  eapolCount : Int
  onHandshake : Bool

/-- The switch of `checkEAPOL` that determines the client MAC; `none` is its
`default: return` branch. -/
def clientMACOf (dot11 : Dot11) : Option String :=
  if dot11.ToDS && !dot11.FromDS then some (hardwareAddrString dot11.Address2)
  else if !dot11.ToDS && dot11.FromDS then some (hardwareAddrString dot11.Address1)
  else if !dot11.ToDS && !dot11.FromDS then some (hardwareAddrString dot11.Address2)
  else none

/-- The method `CaptureWriter.checkEAPOL`. The second component is the
argument of the goroutine `go cw.onHandshake(hs)` when the call launches it. -/
def checkEAPOL (cw : CaptureWriter) (packet : Packet) :
    CaptureWriter × Option FourWayHandshake :=
  match packet.eapolKeyLayer with
  | none => (cw, none)
  | some eapolData =>
    match packet.dot11Layer with
    | none => (cw, none)
    | some dot11 =>
      match clientMACOf dot11 with
      | none => (cw, none)
      | some clientMAC =>
        if eapolData.length < 99 then (cw, none)
        else
          match ParseEAPOLKeyFrame eapolData with
          | Except.error _ => (cw, none)
          | Except.ok keyFrame =>
            let msgNum := MessageNumber keyFrame
            if msgNum = HandshakeMsgUnknown then (cw, none)
            else
              let cw := { cw with eapolCount := cw.eapolCount + 1 }
              let hs :=
                match cw.handshakes clientMAC with
                | some hs => hs
                | none => NewFourWayHandshake
              let rawFrame : List Byte :=
                match packet.eapolLayer with
                | some eapol => eapol.Contents ++ eapol.Payload
                | none => []
              let wasComplete := hs.Complete
              let hs := AddMessage hs msgNum (some keyFrame) rawFrame
              let cw := { cw with handshakes := fun k =>
                            if k = clientMAC then some hs else cw.handshakes k }
              if hs.Complete && !wasComplete && cw.onHandshake then (cw, some hs)
              else (cw, none)

/-- The successive calls of `checkEAPOL` that `captureLoop` makes on the
packets it reads, in arrival order; the list records, call by call, the
goroutine launched. -/
def feedPackets (cw : CaptureWriter) : List Packet → CaptureWriter × List (Option FourWayHandshake)
  | [] => (cw, [])
  | p :: ps =>
    let r := checkEAPOL cw p
    let rest := feedPackets r.1 ps
    (rest.1, r.2 :: rest.2)

/-! ## Reference serialization of the round-trip property -/

/-- The serialization that the round-trip property of the specification
speaks of: the fields of the parsed frame in declared order, multi-octet
integers big-endian, followed by `Data`. The repository contains no serializer
of EAPOL-Key frames; this definition follows the words of the specification
and is compared with `ParseEAPOLKeyFrame`. -/
def serializeEAPOLKeyFrame (f : EAPOLKeyFrame) : List Byte :=
  [f.Version, f.Type_] ++ beBytes 2 f.Length ++ [f.DescriptorType] ++ beBytes 2 f.KeyInfo ++
    beBytes 2 f.KeyLength ++ beBytes 8 f.ReplayCounter ++ f.Nonce.toList ++ f.IV.toList ++
    f.RSC.toList ++ f.ID.toList ++ f.MIC.toList ++ beBytes 2 f.DataLength ++ f.Data

/-! ## Sample inputs -/

/-- A message 1 of the handshake: key information `0x008a` (ACK, pairwise),
a non-zero nonce, no key data; 99 octets. -/
def sampleM1 : List Byte :=
  [1, 3, 0, 95, 2, 0x00, 0x8a, 0, 16, 0, 0, 0, 0, 0, 0, 0, 1] ++ List.replicate 32 0x11 ++
    List.replicate 16 0 ++ List.replicate 8 0 ++ List.replicate 8 0 ++ List.replicate 16 0 ++
    [0, 0]

/-- A message 2 of the handshake: key information `0x010a` (MIC, pairwise),
a non-zero nonce, a MIC and 4 octets of key data; 103 octets. -/
def sampleM2 : List Byte :=
  [1, 3, 0, 99, 2, 0x01, 0x0a, 0, 16, 0, 0, 0, 0, 0, 0, 0, 1] ++ List.replicate 32 0x22 ++
    List.replicate 16 0 ++ List.replicate 8 0 ++ List.replicate 8 0 ++ List.replicate 16 0x33 ++
    [0, 4, 0x30, 0x14, 0x01, 0x00]

/-! ## Sequences of calls -/

/-- A finite sequence of `AddMessage` calls on a handshake, each call given by
its arguments `(msg, frame, raw)`. -/
def addMessages (h : FourWayHandshake) :
    List (HandshakeMessage × Option EAPOLKeyFrame × List Byte) → FourWayHandshake
  | [] => h
  | c :: cs => addMessages (AddMessage h c.1 c.2.1 c.2.2) cs

/-- The zero value of `EAPOLKeyFrame`. -/
def zeroFrame : EAPOLKeyFrame :=
  { Version := 0
    Type_ := 0
    Length := 0
    DescriptorType := 0
    KeyInfo := 0
    KeyLength := 0
    ReplayCounter := 0
    Nonce := zeroArr 32
    IV := zeroArr 16
    RSC := zeroArr 8
    ID := zeroArr 8
    MIC := zeroArr 16
    DataLength := 0
    Data := [] }

/-! ## Vocabulary of the tracker properties -/

/-- The handshake that `checkEAPOL` works on for a client: the one of the map,
or a new one when the map has none (`if !ok { hs = NewFourWayHandshake() }`). -/
def trackedHandshake (cw : CaptureWriter) (clientMAC : String) : FourWayHandshake :=
  match cw.handshakes clientMAC with
  | some hs => hs
  | none => NewFourWayHandshake

/-- The client that `checkEAPOL` attributes a packet to: defined when the
packet has an EAPOL-Key layer and an 802.11 layer that is not a WDS frame. -/
def packetClient (p : Packet) : Option String :=
  match p.eapolKeyLayer, p.dot11Layer with
  | some _, some dot11 => clientMACOf dot11
  | _, _ => none

/-- The message number of the EAPOL-Key bytes of a packet; `Unknown` when they
are absent or do not parse. -/
def packetMessage (p : Packet) : HandshakeMessage :=
  match p.eapolKeyLayer with
  | none => HandshakeMsgUnknown
  | some data =>
    match ParseEAPOLKeyFrame data with
    | Except.error _ => HandshakeMsgUnknown
    | Except.ok f => MessageNumber f

/-- The tracker takes a packet of the sequence for a message 1 and one for a
message 2: its own parse of the EAPOL-Key layer bytes classifies them so. -/
def trackerSeesM1AndM2 (ps : List Packet) : Prop :=
  (∃ p ∈ ps, packetMessage p = HandshakeMsg1) ∧ (∃ p ∈ ps, packetMessage p = HandshakeMsg2)

/-- The number of goroutines launched in a run of `feedPackets`. -/
def launchCount (launches : List (Option FourWayHandshake)) : Nat :=
  (launches.filter Option.isSome).length

/-- The tracking state that `NewCaptureWriter` creates: an empty map, no
packet counted, no callback. -/
def NewCaptureWriter : CaptureWriter :=
  { handshakes := fun _ => none
    eapolCount := 0
    onHandshake := false }

/-- The method `CaptureWriter.OnHandshake`; `fn` tells whether the function
given is non-nil. -/
def OnHandshake (cw : CaptureWriter) (fn : Bool) : CaptureWriter :=
  { cw with onHandshake := fn }

/-- A client address and an access point address. -/
def sampleClient : List Byte := [0x00, 0x0f, 0xb5, 0xfd, 0xfb, 0xc2]

def sampleBSSID : List Byte := [0x00, 0x14, 0x6c, 0x7e, 0x40, 0x80]

/-- The message 1 above, sent by the access point to the client, in a packet
whose EAPOL-Key layer holds the whole frame, header included: the layout that
`ParseEAPOLKeyFrame` reads, not the one of the decoder (see `decodePacket`). -/
def samplePacketM1 : Packet :=
  { eapolKeyLayer := some sampleM1
    dot11Layer := some { ToDS := false, FromDS := true, Address1 := sampleClient,
                         Address2 := sampleBSSID, Address3 := sampleBSSID }
    eapolLayer := some { Contents := sampleM1.take 4, Payload := sampleM1.drop 4 } }

/-- The message 2 above, sent by the client to the access point, in a packet
of the same kind. -/
def samplePacketM2 : Packet :=
  { eapolKeyLayer := some sampleM2
    dot11Layer := some { ToDS := true, FromDS := false, Address1 := sampleBSSID,
                         Address2 := sampleClient, Address3 := sampleBSSID }
    eapolLayer := some { Contents := sampleM2.take 4, Payload := sampleM2.drop 4 } }

/-- The sample addresses as arrays `[6]byte`. -/
def sampleSPA : Mathlib.Vector Byte 6 := ⟨sampleClient, rfl⟩

def sampleAA : Mathlib.Vector Byte 6 := ⟨sampleBSSID, rfl⟩

/-! ## PBKDF2 and MIC verification (`pkg/wifi/crypto.go`) -/

/-- Octet-wise exclusive or of two octet strings of equal length. -/
def xorBytes (a b : List Byte) : List Byte :=
  List.zipWith (fun x y => (Fin.ofNat (x.val ^^^ y.val) : Byte)) a b

/-- The inner loop `for n := 2; n <= iter; n++` of `pbkdf2.Key` on the state
`(T, U)`, run `count` times. -/
def pbkdf2Inner (password : List Byte) : Nat → List Byte × List Byte → List Byte × List Byte
  | 0, s => s
  | count + 1, (t, u) =>
    let u := hmacSHA1 password u
    pbkdf2Inner password count (xorBytes t u, u)

/-- The block `T_block = U_1 ^ U_2 ^ ... ^ U_iter` of PBKDF2 (RFC 2898), with
`U_1 = HMAC(password, salt || INT_32_BE(block))` and
`U_n = HMAC(password, U_(n-1))`. -/
def pbkdf2Block (password salt : List Byte) (iter block : Nat) : List Byte :=
  let u := hmacSHA1 password (salt ++ beBytes 4 block)
  (pbkdf2Inner password (iter - 1) (u, u)).1

/-- The function `pbkdf2.Key(password, salt, iter, keyLen, sha1.New)` of
`golang.org/x/crypto/pbkdf2`, a library outside the repository, embedded from
its standard. -/
def pbkdf2Key (password salt : List Byte) (iter keyLen : Nat) : List Byte :=
  let numBlocks := (keyLen + sha1Size - 1) / sha1Size
  let dk := (List.range numBlocks).foldl
    (fun dk b => dk ++ pbkdf2Block password salt iter (b + 1)) []
  slice dk 0 keyLen

/-- The function `DerivePMK`; the two strings are given by their octets. -/
def DerivePMK (passphrase ssid : List Byte) : List Byte :=
  pbkdf2Key passphrase ssid 4096 PMKLength

/-- The function `ComputeMIC`. -/
def ComputeMIC (kck eapolFrame : List Byte) : List Byte :=
  slice (hmacSHA1 kck eapolFrame) 0 MICLength

/-- The function `subtle.ConstantTimeCompare` of the Go standard library: 0 on
different lengths, otherwise the exclusive ors of all pairs of octets are
accumulated with `|` and the result is 1 exactly when the accumulator is 0. -/
def constantTimeCompare (x y : List Byte) : Int :=
  if x.length ≠ y.length then 0
  else
    let v := (List.zip x y).foldl (fun v p => v ||| (p.1.val ^^^ p.2.val)) 0
    if v = 0 then 1 else 0

/-- The function `hmac.Equal`. -/
def hmacEqual (mac1 mac2 : List Byte) : Bool :=
  constantTimeCompare mac1 mac2 == 1

/-- The function `VerifyMIC`; `none` is a panic of `DerivePTK`. -/
def VerifyMIC (pmk : List Byte) (aa spa : Mathlib.Vector Byte 6)
    (aNonce sNonce : Mathlib.Vector Byte 32) (eapolFrame expectedMIC : List Byte) :
    Option Bool :=
  match DerivePTK pmk aa spa aNonce sNonce with
  | none => none
  | some ptk =>
    let kck := slice ptk 0 16
    let computedMIC := ComputeMIC kck eapolFrame
    some (hmacEqual computedMIC expectedMIC)

/-- The function `VerifyPassphrase`. -/
def VerifyPassphrase (passphrase ssid : List Byte) (aa spa : Mathlib.Vector Byte 6)
    (aNonce sNonce : Mathlib.Vector Byte 32) (eapolFrame expectedMIC : List Byte) :
    Option Bool :=
  let pmk := DerivePMK passphrase ssid
  VerifyMIC pmk aa spa aNonce sNonce eapolFrame expectedMIC

/-! ## `internal/handshake/capture.go` -/

/-- The method `FourWayHandshake.ANonce` (`pkg/wifi/eapol.go`). -/
def ANonce (h : FourWayHandshake) : Mathlib.Vector Byte 32 :=
  match h.Messages 0 with
  | some m => m.Nonce
  | none => zeroArr 32

/-- The method `FourWayHandshake.SNonce` (`pkg/wifi/eapol.go`). -/
def SNonce (h : FourWayHandshake) : Mathlib.Vector Byte 32 :=
  match h.Messages 1 with
  | some m => m.Nonce
  | none => zeroArr 32

/-- The capture state (`type CaptureState struct`). The map `Handshakes`,
keyed by client MAC, is the list of its entries, one per key, in the order in
which the keys were first stored. -/
structure CaptureState where
  Handshakes : List (String × FourWayHandshake)

/-- The function `NewCaptureState`. -/
def NewCaptureState : CaptureState :=
  { Handshakes := [] }

/-- The map read `m[key]`. -/
def mapGet {α : Type} (m : List (String × α)) (key : String) : Option α :=
  List.lookup key m

/-- The map write `m[key] = v`, or the update through the pointer stored
under `key`: the entry of `key` is replaced, or added when there is none. -/
def mapSet {α : Type} (m : List (String × α)) (key : String) (v : α) : List (String × α) :=
  match List.lookup key m with
  | some _ => m.map (fun e => if e.1 = key then (key, v) else e)
  | none => m ++ [(key, v)]

/-- The function `extractAddresses`: the pair `(bssid, client)`. -/
def extractAddresses (dot11 : Dot11) : String × String :=
  if dot11.ToDS && !dot11.FromDS then
    (hardwareAddrString dot11.Address1, hardwareAddrString dot11.Address2)
  else if !dot11.ToDS && dot11.FromDS then
    (hardwareAddrString dot11.Address2, hardwareAddrString dot11.Address1)
  else if !dot11.ToDS && !dot11.FromDS then
    (hardwareAddrString dot11.Address3, hardwareAddrString dot11.Address2)
  else ("", "")

/-- The body of the loop of `ScanCapFile` on one packet. -/
def scanCapPacket (targetBSSID : String) (state : CaptureState) (packet : Packet) :
    CaptureState :=
  match packet.dot11Layer with
  | none => state
  | some dot11 =>
    match packet.eapolKeyLayer with
    | none => state
    | some eapolData =>
      let addrs := extractAddresses dot11
      let bssid := addrs.1
      let clientMAC := addrs.2
      if bssid = "" then state
      else if targetBSSID ≠ "" ∧ bssid ≠ targetBSSID then state
      else if eapolData.length < 99 then state
      else
        let fullEAPOL : List Byte :=
          match packet.eapolLayer with
          | some eapol => eapol.Contents ++ eapol.Payload
          | none => []
        match ParseEAPOLKeyFrame eapolData with
        | Except.error _ => state
        | Except.ok keyFrame =>
          let msgNum := MessageNumber keyFrame
          if msgNum = HandshakeMsgUnknown then state
          else
            let hs :=
              match mapGet state.Handshakes clientMAC with
              | some hs => hs
              | none => NewFourWayHandshake
            let hs := AddMessage hs msgNum (some keyFrame) fullEAPOL
            { state with Handshakes := mapSet state.Handshakes clientMAC hs }

/-- The function `ScanCapFile`. The capture file is given by what
`pcap.OpenOffline` and the packet source make of it: an error, or the packets
in file order. -/
def ScanCapFile (capture : Except String (List Packet)) (targetBSSID : String) :
    Except String CaptureState :=
  match capture with
  | Except.error err => Except.error ("open cap file: " ++ err)
  | Except.ok packets => Except.ok (packets.foldl (scanCapPacket targetBSSID) NewCaptureState)

/-- The method `CaptureState.CompleteHandshakes`. A `range` over a Go map
visits each entry once in an order chosen by the runtime; `order` lists the
keys in the order of the visit. -/
def CompleteHandshakes (cs : CaptureState) (order : List String) : List FourWayHandshake :=
  (order.filterMap (fun key => mapGet cs.Handshakes key)).filter (fun hs => hs.Complete)

/-! ## `internal/attack/crack.go` -/

/-- The fields of `NativeCracker`. -/
structure NativeCracker where
  essid : List Byte
  capFile : String
  bssid : String

/-- The values that the worker closures of `CrackWithWordlist` capture. -/
structure CrackParams where
  essid : List Byte
  aa : Mathlib.Vector Byte 6
  spa : Mathlib.Vector Byte 6
  aNonce : Mathlib.Vector Byte 32
  sNonce : Mathlib.Vector Byte 32
  eapolForMIC : List Byte
  expectedMIC : Mathlib.Vector Byte 16

/-- The loop `for i := 81; i < 97 && i < len(eapolForMIC); i++` that zeroes
`eapolForMIC[i]`, from counter `i`. -/
def zeroMICLoop (eapolForMIC : List Byte) (i : Nat) : List Byte :=
  if i < 97 ∧ i < eapolForMIC.length then zeroMICLoop (eapolForMIC.set i 0) (i + 1)
  else eapolForMIC
termination_by 97 - i

/-- The preparation in `CrackWithWordlist`, from the selected handshake to the
values handed to the workers; the handshake itself is only read. -/
def crackPrepare (essid : List Byte) (hs : FourWayHandshake) : Except String CrackParams :=
  let aNonce := ANonce hs
  let sNonce := SNonce hs
  let aa := copyArr (zeroArr 6) hs.BSSID.toList
  let spa := copyArr (zeroArr 6) hs.ClientMAC.toList
  match hs.Messages 1, hs.RawFrames 1 with
  | some m2, some raw =>
    let expectedMIC := m2.MIC
    let eapolFrame := copySlice (List.replicate raw.length 0) raw
    let eapolForMIC := copySlice (List.replicate eapolFrame.length 0) eapolFrame
    let eapolForMIC :=
      if eapolForMIC.length ≥ 81 + 16 then zeroMICLoop eapolForMIC 81 else eapolForMIC
    Except.ok
      { essid := essid
        aa := aa
        spa := spa
        aNonce := aNonce
        sNonce := sNonce
        eapolForMIC := eapolForMIC
        expectedMIC := expectedMIC }
  | _, _ => Except.error ("incomplete handshake: missing M2")

/-- The test that a worker applies to a word:
`wifi.VerifyPassphrase(word, nc.essid, aa, spa, aNonce, sNonce, eapolForMIC, expectedMIC[:])`. -/
def crackVerify (params : CrackParams) (word : List Byte) : Bool :=
  VerifyPassphrase word params.essid params.aa params.spa params.aNonce params.sNonce
    params.eapolForMIC params.expectedMIC.toList == some true

/-! ### The concurrent phase of `CrackWithWordlist`

The producer (the calling goroutine), the workers and the cancellation of the
context are interleaved by a schedule: a list of events, each letting one of
them take its next step. A step that is blocked (a send on a full channel, a
receive on an empty open channel, `wg.Wait()` before all workers have left)
leaves the state unchanged. -/

/-- Where a worker goroutine stands: at the receive of `for word := range
wordCh`, holding a word before `found.Load()`, holding it before
`VerifyPassphrase`, or returned. -/
inductive WorkerState where
  | receiving : WorkerState
  | loaded (word : List Byte) : WorkerState
  | verifying (word : List Byte) : WorkerState
  | exited : WorkerState
  deriving DecidableEq

/-- Where the producer stands: at `scanner.Scan()`, at the send `wordCh <-
word`, at `close(wordCh)` after the loop, at `wg.Wait()` after the loop, at
`wg.Wait()` after a cancellation, or returned with its result. -/
inductive ProducerState where
  | scanning : ProducerState
  | sending (word : List Byte) : ProducerState
  | closing : ProducerState
  | waiting : ProducerState
  | waitingCancelled : ProducerState
  | returned (result : Except String (List Byte)) : ProducerState

/-- The state of the concurrent phase. `lines` are the lines that the scanner
has still to yield; `sent`, `tested` and `received` record, in order, every
word put into the channel, every word passed to `VerifyPassphrase` and every
word that a worker has taken from the channel. -/
structure CrackState where
  lines : List (List Byte)
  producer : ProducerState
  wordCh : List (List Byte)
  capacity : Nat
  closed : Bool
  found : Option (List Byte)
  workers : List WorkerState
  ctxDone : Bool
  sent : List (List Byte)
  tested : List (List Byte)
  received : List (List Byte)

/-- An event of a schedule. -/
inductive CrackEvent where
  | cancel : CrackEvent
  | producer : CrackEvent
  | worker (i : Nat) : CrackEvent

/-- All worker goroutines have returned (`wg.Wait()` does not block). -/
def allExited (workers : List WorkerState) : Bool :=
  workers.all (fun w => decide (w = WorkerState.exited))

/-- The error of the exhausted wordlist. -/
def keyNotFound : String := "key not found (wordlist exhausted)"

/-- The error `ctx.Err()` of a cancelled context. -/
def contextCanceled : String := "context canceled"

/-- The next step of the producer. -/
def producerStep (s : CrackState) : CrackState :=
  match s.producer with
  | ProducerState.scanning =>
    match s.lines with
    | [] => { s with producer := ProducerState.closing }
    | word :: rest =>
      let s := { s with lines := rest }
      if s.ctxDone then { s with closed := true, producer := ProducerState.waitingCancelled }
      else if s.found.isSome then { s with producer := ProducerState.closing }
      else if word.length < 8 ∨ word.length > 63 then s
      else { s with producer := ProducerState.sending word }
  | ProducerState.sending word =>
    if s.wordCh.length < s.capacity then
      { s with wordCh := s.wordCh ++ [word], sent := s.sent ++ [word],
               producer := ProducerState.scanning }
    else s
  | ProducerState.closing => { s with closed := true, producer := ProducerState.waiting }
  | ProducerState.waiting =>
    if allExited s.workers then
      match s.found with
      | some word => { s with producer := ProducerState.returned (Except.ok word) }
      | none => { s with producer := ProducerState.returned (Except.error keyNotFound) }
    else s
  | ProducerState.waitingCancelled =>
    if allExited s.workers then
      { s with producer := ProducerState.returned (Except.error contextCanceled) }
    else s
  | ProducerState.returned _ => s

/-- The next step of worker `i`; `verify` is the test of a word. -/
def workerStep (verify : List Byte → Bool) (s : CrackState) (i : Nat) : CrackState :=
  match s.workers.get? i with
  | none => s
  | some WorkerState.receiving =>
    match s.wordCh with
    | word :: rest =>
      { s with wordCh := rest, received := s.received ++ [word],
               workers := s.workers.set i (WorkerState.loaded word) }
    | [] =>
      if s.closed then { s with workers := s.workers.set i WorkerState.exited } else s
  | some (WorkerState.loaded word) =>
    if s.found.isSome then { s with workers := s.workers.set i WorkerState.exited }
    else { s with workers := s.workers.set i (WorkerState.verifying word) }
  | some (WorkerState.verifying word) =>
    let s := { s with tested := s.tested ++ [word] }
    if verify word then
      { s with found := some word, workers := s.workers.set i WorkerState.exited }
    else { s with workers := s.workers.set i WorkerState.receiving }
  | some WorkerState.exited => s

/-- One event of a schedule. -/
def crackStep (verify : List Byte → Bool) (s : CrackState) : CrackEvent → CrackState
  | CrackEvent.cancel => { s with ctxDone := true }
  | CrackEvent.producer => producerStep s
  | CrackEvent.worker i => workerStep verify s i

/-- A run of the concurrent phase along a schedule. -/
def crackRun (verify : List Byte → Bool) (s : CrackState) (schedule : List CrackEvent) :
    CrackState :=
  schedule.foldl (crackStep verify) s

/-- The state in which the concurrent phase starts: `workers` goroutines at
their receive, an empty channel of capacity `workers * 4`, nothing found. -/
def crackInit (lines : List (List Byte)) (workers : Nat) : CrackState :=
  { lines := lines
    producer := ProducerState.scanning
    wordCh := []
    capacity := workers * 4
    closed := false
    found := none
    workers := List.replicate workers WorkerState.receiving
    ctxDone := false
    sent := []
    tested := []
    received := [] }

/-- The state of a call that returns before the concurrent phase. -/
def crackReturned (result : Except String (List Byte)) : CrackState :=
  { lines := []
    producer := ProducerState.returned result
    wordCh := []
    capacity := 0
    closed := false
    found := none
    workers := []
    ctxDone := false
    sent := []
    tested := []
    received := [] }

/-- The method `CrackWithWordlist` from the selection `hs := complete[0]` on.
The wordlist is given by what `os.Open` and the scanner make of it: an error,
or the lines in file order; `workers` is `runtime.NumCPU()`. -/
def crackWithHandshake (nc : NativeCracker) (hs : FourWayHandshake)
    (wordlist : Except String (List (List Byte))) (workers : Nat)
    (schedule : List CrackEvent) : CrackState :=
  match crackPrepare nc.essid hs with
  | Except.error err => crackReturned (Except.error err)
  | Except.ok params =>
    match wordlist with
    | Except.error err => crackReturned (Except.error ("open wordlist: " ++ err))
    | Except.ok lines => crackRun (crackVerify params) (crackInit lines workers) schedule

/-- The method `NativeCracker.CrackWithWordlist`, as the state that a run
along `schedule` reaches; `order` is the order in which the map of the capture
state is visited. -/
def CrackWithWordlist (nc : NativeCracker) (capture : Except String (List Packet))
    (order : List String) (wordlist : Except String (List (List Byte))) (workers : Nat)
    (schedule : List CrackEvent) : CrackState :=
  match ScanCapFile capture nc.bssid with
  | Except.error err => crackReturned (Except.error ("read capture: " ++ err))
  | Except.ok state =>
    match CompleteHandshakes state order with
    | [] => crackReturned (Except.error ("no complete handshake found in " ++ nc.capFile))
    | hs :: _ => crackWithHandshake nc hs wordlist workers schedule

/-! ## Sample captures -/

/-- The message 2 above as a decoder that puts the EAPOL-Key layer after the
4-octet EAPOL header presents it: the EAPOL-Key bytes are the payload of the
EAPOL layer, so the full EAPOL frame is the header followed by them. -/
def samplePacketM2Shifted : Packet :=
  { eapolKeyLayer := some sampleM2
    dot11Layer := some { ToDS := true, FromDS := false, Address1 := sampleBSSID,
                         Address2 := sampleClient, Address3 := sampleBSSID }
    eapolLayer := some { Contents := [1, 3, 0, 103], Payload := sampleM2 } }

/-- A cracker for the sample access point. -/
def sampleCracker : NativeCracker :=
  { essid := stringBytes "Network"
    capFile := "hs.cap"
    bssid := hardwareAddrString sampleBSSID }

/-- The length test of the producer: a WPA passphrase has 8 to 63 octets. -/
def validLength (word : List Byte) : Bool :=
  decide (8 ≤ word.length ∧ word.length ≤ 63)

/-- The word that the producer holds at its send, if it stands there: read
and found of valid length, not yet put into the channel. -/
def pendingWord : ProducerState → List (List Byte)
  | ProducerState.sending word => [word]
  | _ => []

/-- The invariant of the producer along a run on the wordlist `lines`, with
`k` the number of lines read and kept or handed over: the words handed over
(the last one possibly still at the send) are the lines of valid length among
the first `k`; while the loop runs the scanner has the other lines still to
yield; the loop is left with lines unread only after a worker has published a
word, and the result "key not found" is returned only with no line unread. -/
def ProducerInv (lines : List (List Byte)) (s : CrackState) (k : Nat) : Prop :=
  k ≤ lines.length ∧
  s.sent ++ pendingWord s.producer = (lines.take k).filter validLength ∧
  (match s.producer with
    | ProducerState.scanning => s.lines = lines.drop k
    | ProducerState.sending _ => s.lines = lines.drop k
    | ProducerState.closing => k = lines.length ∨ s.found.isSome = true
    | ProducerState.waiting => k = lines.length ∨ s.found.isSome = true
    | ProducerState.waitingCancelled => True
    | ProducerState.returned (Except.ok _) => True
    | ProducerState.returned (Except.error err) => err = keyNotFound → k = lines.length)

/-- A candidate word of 8 octets, "password", and a line of 5 octets, "short". -/
def samplePassword : List Byte := [0x70, 0x61, 0x73, 0x73, 0x77, 0x6f, 0x72, 0x64]

def sampleShortLine : List Byte := [0x73, 0x68, 0x6f, 0x72, 0x74]

/-- A schedule for one worker and the wordlist "short", "password": the
producer skips the first line, reads and sends the second and finds the end of
the list; the worker receives, loads and tests the word; the producer closes
the channel, the worker leaves and the producer returns. -/
def sampleSchedule : List CrackEvent :=
  [CrackEvent.producer, CrackEvent.producer, CrackEvent.producer, CrackEvent.worker 0,
    CrackEvent.worker 0, CrackEvent.worker 0, CrackEvent.producer, CrackEvent.producer,
    CrackEvent.worker 0, CrackEvent.producer]

/-! ## `pkg/wifi/types.go` and `internal/scan/target.go` -/

/-- The Go type `EncryptionType` is an `int`. -/
abbrev EncryptionType := Int

def EncOpen : EncryptionType := 0
def EncWEP : EncryptionType := 1
def EncWPA : EncryptionType := 2
def EncWPA2 : EncryptionType := 3
def EncWPA3 : EncryptionType := 4

/-- The Go type `CipherType` is an `int`. -/
abbrev CipherType := Int

def CipherNone : CipherType := 0
def CipherWEP : CipherType := 1
def CipherTKIP : CipherType := 2
def CipherCCMP : CipherType := 3
def CipherWRAP : CipherType := 4

/-- The Go type `AuthType` is an `int`. -/
abbrev AuthType := Int

/-- A reading of the clock (`time.Time`). -/
abbrev Time := Nat

/-- The client record (`type Client struct`). Values of type `int` are
integers; the counters are taken to stay within the range of the machine
integer. -/
structure Client where
  MAC : List Byte
  BSSID : List Byte
  Power : Int
  Packets : Int
  FirstSeen : Time
  LastSeen : Time
  deriving DecidableEq

/-- The access point record (`type Target struct`). The slice `Clients` of
pointers `*Client` is the list of the addresses of the client objects. -/
structure Target where
  BSSID : List Byte
  ESSID : List Byte
  Channel : Int
  Frequency : Int
  Encryption : EncryptionType
  Cipher : CipherType
  Auth : AuthType
  WPS : Bool
  Power : Int
  Clients : List Nat
  FirstSeen : Time
  LastSeen : Time
  Hidden : Bool
  BeaconCount : Int
  DataCount : Int
  deriving DecidableEq

/-- The target database (`type TargetDB struct`). The access point objects are
reached through the map `targets` only and are kept in it; the client objects
are shared between the map `clients` and the lists `Clients`, so they live in
`heap`, where the address of an object is its index, and both hold
addresses. The callback fields record whether a callback is registered. -/
structure TargetDB where
  targets : List (String × Target)
  clients : List (String × Nat)
  heap : List Client
  onNewTarget : Bool
  onTargetUpdate : Bool

/-- The goroutine that a call of `UpdateTarget` launches, with the key of the
record it is given. -/
inductive TargetEvent where
  | newTarget (key : String) : TargetEvent
  | targetUpdate (key : String) : TargetEvent
  deriving DecidableEq

/-- The function `NewTargetDB`. -/
def NewTargetDB : TargetDB :=
  { targets := []
    clients := []
    heap := []
    onNewTarget := false
    onTargetUpdate := false }

/-- The zero value of `Client`. -/
def zeroClient : Client :=
  { MAC := [], BSSID := [], Power := 0, Packets := 0, FirstSeen := 0, LastSeen := 0 }

/-- The client object at an address. -/
def heapGet (heap : List Client) (p : Nat) : Client :=
  heap.getD p zeroClient

/-- An assignment to fields of the client object at an address. -/
def heapModify (heap : List Client) (p : Nat) (f : Client → Client) : List Client :=
  heap.set p (f (heapGet heap p))

/-- The method `TargetDB.UpdateTarget`. The argument `now` gives the readings
of the clock of the call, numbered in the order of the source text; the second
component is the goroutine launched. -/
def UpdateTarget (db : TargetDB) (bssid essid : List Byte) (channel power : Int)
    (enc : EncryptionType) (cipher : CipherType) (wps : Bool) (now : Nat → Time) :
    TargetDB × Option TargetEvent :=
  let key := hardwareAddrString bssid
  match mapGet db.targets key with
  | none =>
    let t : Target :=
      { BSSID := bssid
        ESSID := essid
        Channel := channel
        Frequency := 0
        Encryption := enc
        Cipher := cipher
        Auth := 0
        WPS := wps
        Power := power
        Clients := []
        FirstSeen := now 0
        LastSeen := now 1
        Hidden := decide (essid = [])
        BeaconCount := 0
        DataCount := 0 }
    ({ db with targets := mapSet db.targets key t },
      if db.onNewTarget then some (TargetEvent.newTarget key) else none)
  | some t =>
    let t := if essid ≠ [] ∧ t.ESSID = [] then { t with ESSID := essid, Hidden := false } else t
    let t := if channel ≠ 0 then { t with Channel := channel } else t
    let t := if power ≠ 0 then { t with Power := power } else t
    let t := if enc ≠ EncOpen then { t with Encryption := enc } else t
    let t := if cipher ≠ CipherNone then { t with Cipher := cipher } else t
    let t := if wps then { t with WPS := true } else t
    let t := { t with BeaconCount := t.BeaconCount + 1 }
    let t := { t with LastSeen := now 2 }
    ({ db with targets := mapSet db.targets key t },
      if db.onTargetUpdate then some (TargetEvent.targetUpdate key) else none)

/-- The loop of `UpdateClient` over `t.Clients`: at the first entry whose MAC
prints as `clientKey` the object is updated and the loop is left; the result is
the new heap, or `none` when no entry matches (`found` stays false). -/
def updateListed (heap : List Client) (clientKey : String) (power : Int) (now : Time) :
    List Nat → Option (List Client)
  | [] => none
  | existing :: rest =>
    if hardwareAddrString (heapGet heap existing).MAC = clientKey then
      some (heapModify heap existing
        (fun r => { r with Power := power, Packets := r.Packets + 1, LastSeen := now }))
    else updateListed heap clientKey power now rest

/-- The first part of `UpdateClient`: the client object is created and stored
under its key, or updated; the result is the database and the pointer `c`. -/
def registerClient (db : TargetDB) (clientMAC bssid : List Byte) (power : Int)
    (now : Nat → Time) : TargetDB × Nat :=
  let clientKey := hardwareAddrString clientMAC
  match mapGet db.clients clientKey with
  | none =>
    let c := db.heap.length
    ({ db with
        heap := db.heap ++ [{ MAC := clientMAC, BSSID := bssid, Power := power, Packets := 1,
                              FirstSeen := now 0, LastSeen := now 1 }]
        clients := mapSet db.clients clientKey c }, c)
  | some c =>
    ({ db with
        heap := heapModify db.heap c
          (fun r => { r with Power := power, Packets := r.Packets + 1, LastSeen := now 2 }) },
      c)

/-- The second part of `UpdateClient`, "associate client with target". -/
def associateClient (db : TargetDB) (c : Nat) (clientKey : String) (bssid : List Byte)
    (power : Int) (now : Nat → Time) : TargetDB :=
  let bssidKey := hardwareAddrString bssid
  match mapGet db.targets bssidKey with
  | none => db
  | some t =>
    match updateListed db.heap clientKey power (now 3) t.Clients with
    | some heap => { db with heap := heap }
    | none =>
      { db with targets := mapSet db.targets bssidKey { t with Clients := t.Clients ++ [c] } }

/-- The method `TargetDB.UpdateClient`. -/
def UpdateClient (db : TargetDB) (clientMAC bssid : List Byte) (power : Int)
    (now : Nat → Time) : TargetDB :=
  let clientKey := hardwareAddrString clientMAC
  let r := registerClient db clientMAC bssid power now
  associateClient r.1 r.2 clientKey bssid power now

/-- The method `TargetDB.IncrementData`. -/
def IncrementData (db : TargetDB) (bssid : List Byte) : TargetDB :=
  let key := hardwareAddrString bssid
  match mapGet db.targets key with
  | some t => { db with targets := mapSet db.targets key { t with DataCount := t.DataCount + 1 } }
  | none => db

/-- The method `TargetDB.Targets`. The `range` over the map visits the keys in
the order `order`; `sort.Slice`, which is not stable, is a sort by the
comparison "higher power first", and with the order of the visit free every
result it can give is covered. -/
def Targets (db : TargetDB) (order : List String) : List Target :=
  let targets := order.filterMap (fun key => mapGet db.targets key)
  List.insertionSort (fun a b => b.Power ≤ a.Power) targets

/-- The method `TargetDB.Count`. -/
def Count (db : TargetDB) : Int :=
  db.targets.length

/-- A call of one of the three mutators of the database. -/
inductive TargetOp where
  | updateTarget (bssid essid : List Byte) (channel power : Int) (enc : EncryptionType)
      (cipher : CipherType) (wps : Bool) (now : Nat → Time) : TargetOp
  | updateClient (clientMAC bssid : List Byte) (power : Int) (now : Nat → Time) : TargetOp
  | incrementData (bssid : List Byte) : TargetOp

/-- The database after a call. -/
def applyTargetOp (db : TargetDB) : TargetOp → TargetDB
  | TargetOp.updateTarget bssid essid channel power enc cipher wps now =>
    (UpdateTarget db bssid essid channel power enc cipher wps now).1
  | TargetOp.updateClient clientMAC bssid power now => UpdateClient db clientMAC bssid power now
  | TargetOp.incrementData bssid => IncrementData db bssid

/-- The database after a sequence of calls. -/
def applyTargetOps (db : TargetDB) (ops : List TargetOp) : TargetDB :=
  ops.foldl applyTargetOp db

/-- Sample databases: the sample access point recorded at WPA2 with CCMP, on
channel 6 at -50 dBm; and the same after a second access point, then the sample
client seen under the first and then under the second. -/
def sampleTargetOps : List TargetOp :=
  [TargetOp.updateTarget sampleBSSID [0x68, 0x6f, 0x6d, 0x65] 6 (-50) EncWPA2 CipherCCMP false
    (fun _ => 0)]

def sampleTargetDB : TargetDB :=
  applyTargetOps NewTargetDB sampleTargetOps

/-- The record of the sample access point in `sampleTargetDB`. -/
def sampleTarget : Target :=
  { BSSID := sampleBSSID
    ESSID := [0x68, 0x6f, 0x6d, 0x65]
    Channel := 6
    Frequency := 0
    Encryption := EncWPA2
    Cipher := CipherCCMP
    Auth := 0
    WPS := false
    Power := -50
    Clients := []
    FirstSeen := 0
    LastSeen := 0
    Hidden := false
    BeaconCount := 0
    DataCount := 0 }

def sampleBSSID2 : List Byte := [0x00, 0x14, 0x6c, 0x7e, 0x40, 0x81]

def sampleAssociatedOps : List TargetOp :=
  sampleTargetOps ++
    [TargetOp.updateTarget sampleBSSID2 [] 11 (-70) EncWPA2 CipherCCMP false (fun _ => 1),
      TargetOp.updateClient sampleClient sampleBSSID (-60) (fun _ => 2)]

def sampleAssociatedDB : TargetDB :=
  applyTargetOps NewTargetDB sampleAssociatedOps

/-- The records of the two access points in `sampleAssociatedDB`. -/
def sampleTargetAssociated : Target :=
  { sampleTarget with Clients := [0] }

def sampleTarget2 : Target :=
  { BSSID := sampleBSSID2
    ESSID := []
    Channel := 11
    Frequency := 0
    Encryption := EncWPA2
    Cipher := CipherCCMP
    Auth := 0
    WPS := false
    Power := -70
    Clients := []
    FirstSeen := 1
    LastSeen := 1
    Hidden := true
    BeaconCount := 0
    DataCount := 0 }

def sampleRoamingDB : TargetDB :=
  UpdateClient sampleAssociatedDB sampleClient sampleBSSID2 (-65) (fun _ => 3)

/-! ## `internal/scan/scanner.go` -/

/-- The function `isBroadcast`. -/
def isBroadcast (mac : List Byte) : Bool :=
  if mac.length ≠ 6 then true
  else
    mac.getD 0 0 == 0xff && mac.getD 1 0 == 0xff && mac.getD 2 0 == 0xff &&
      mac.getD 3 0 == 0xff && mac.getD 4 0 == 0xff && mac.getD 5 0 == 0xff

/-- The switch of `handleDataFrame` that determines `(bssid, client)`; `none`
is its `default: return` branch. -/
def dataFrameAddresses (dot11 : Dot11) : Option (List Byte × List Byte) :=
  if dot11.ToDS && !dot11.FromDS then some (dot11.Address1, dot11.Address2)
  else if !dot11.ToDS && dot11.FromDS then some (dot11.Address2, dot11.Address1)
  else none

/-- The method `Scanner.handleDataFrame`, on the database `s.db` of the
scanner; `now` gives the readings of the clock in `UpdateClient`. -/
def handleDataFrame (db : TargetDB) (dot11 : Dot11) (power : Int) (now : Nat → Time) :
    TargetDB :=
  match dataFrameAddresses dot11 with
  | none => db
  | some (bssid, client) =>
    if isBroadcast bssid || isBroadcast client then db
    else UpdateClient (IncrementData db bssid) client bssid power now

/-- The function `parseRSN`. -/
def parseRSN (data : List Byte) : EncryptionType × CipherType :=
  if data.length < 10 then (EncOpen, CipherNone)
  else
    let enc := EncWPA2
    let cipher := CipherCCMP
    let cipher :=
      if data.length ≥ 10 then
        let oui := slice data 6 10
        if oui.getD 3 0 = 2 then CipherTKIP
        else if oui.getD 3 0 = 4 then CipherCCMP
        else cipher
      else cipher
    let enc :=
      if data.length ≥ 18 then
        let akm := slice data 14 18
        if akm.getD 3 0 = 8 then EncWPA3 else enc
      else enc
    (enc, cipher)

/-! ## Reference layout of the RSN element

The body of a well-formed RSN element, as the specification describes it: a
2-octet version, the 4-octet group cipher suite, the 2-octet count of pairwise
suites and that many 4-octet suites, the 2-octet count of AKM suites and that
many 4-octet suites, then whatever follows (capabilities, PMKIDs). Counts and
version are little-endian; a suite is a 3-octet OUI and a type octet. -/

/-- A cipher suite or AKM suite selector. -/
structure RSNSuite where
  oui0 : Byte
  oui1 : Byte
  oui2 : Byte
  suiteType : Byte

/-- The four octets of a suite selector. -/
def suiteBytes (s : RSNSuite) : List Byte :=
  [s.oui0, s.oui1, s.oui2, s.suiteType]

/-- The two octets of a 16-bit little-endian number. -/
def leUint16Bytes (n : Nat) : List Byte :=
  [Fin.ofNat (n % 256), Fin.ofNat (n / 256 % 256)]

/-- The body of the RSN element with the given group suite, pairwise suites
and AKM suites. -/
def rsnBody (version : Nat) (group : RSNSuite) (pairwise akm : List RSNSuite)
    (rest : List Byte) : List Byte :=
  leUint16Bytes version ++ suiteBytes group ++
    leUint16Bytes pairwise.length ++ (pairwise.map suiteBytes).flatten ++
    leUint16Bytes akm.length ++ (akm.map suiteBytes).flatten ++ rest

/-- The suites of the OUI 00-0F-AC with the types of TKIP (2), CCMP (4), PSK
(2, as an AKM) and SAE (8, as an AKM). -/
def suiteTKIP : RSNSuite := { oui0 := 0x00, oui1 := 0x0f, oui2 := 0xac, suiteType := 2 }

def suiteCCMP : RSNSuite := { oui0 := 0x00, oui1 := 0x0f, oui2 := 0xac, suiteType := 4 }

def suitePSK : RSNSuite := { oui0 := 0x00, oui1 := 0x0f, oui2 := 0xac, suiteType := 2 }

def suiteSAE : RSNSuite := { oui0 := 0x00, oui1 := 0x0f, oui2 := 0xac, suiteType := 8 }

/-- An RSN body of a WPA2 network that uses TKIP for group and pairwise
traffic and PSK as its AKM. -/
def sampleRSNTKIP : List Byte :=
  rsnBody 1 suiteTKIP [suiteTKIP] [suitePSK] [0, 0]

/-- RSN bodies that offer SAE: with the pairwise suites CCMP and TKIP, and
with the pairwise suite CCMP and the AKM suites PSK and SAE. -/
def sampleRSNTwoPairwise : List Byte :=
  rsnBody 1 suiteTKIP [suiteCCMP, suiteTKIP] [suiteSAE] [0, 0]

def sampleRSNTransition : List Byte :=
  rsnBody 1 suiteCCMP [suiteCCMP] [suitePSK, suiteSAE] [0, 0]

/-! ## `internal/attack/inject.go` -/

/-- The values of `layers.Dot11Type` that the injector uses. -/
inductive Dot11Type where
  | MgmtDeauthentication : Dot11Type
  | MgmtDisassociation : Dot11Type
  deriving DecidableEq

/-- The layers that `buildDeauthFrame` hands to `gopacket.SerializeLayers`
after the empty `layers.RadioTap`: the fields it sets of `layers.Dot11` and of
`layers.Dot11MgmtDeauthentication`. -/
structure DeauthLayers where
  Address1 : List Byte
  Address2 : List Byte
  Address3 : List Byte
  Type_ : Dot11Type
  Reason : Nat
  deriving DecidableEq

/-- The function `buildDeauthFrame`; `serializeLayers` is the serialization of
the packet library, which gives the octets of the frame or an error. -/
def buildDeauthFrame (serializeLayers : DeauthLayers → Except String (List Byte))
    (addr1 addr2 addr3 : List Byte) (reason : Nat) : Except String (List Byte) :=
  match serializeLayers
      { Address1 := addr1
        Address2 := addr2
        Address3 := addr3
        Type_ := Dot11Type.MgmtDeauthentication
        Reason := reason } with
  | Except.error err => Except.error ("serialize deauth frame: " ++ err)
  | Except.ok bytes => Except.ok bytes

/-- The method `Injector.SendBroadcastDeauth`. The handle is given by what
`WritePacketData` answers on a frame (an error or nothing); the result is the
list of the frames handed to `WritePacketData` and the error returned. -/
def SendBroadcastDeauth (serializeLayers : DeauthLayers → Except String (List Byte))
    (writePacketData : List Byte → Option String) (bssid : List Byte) (reason : Nat) :
    List (List Byte) × Option String :=
  let broadcast : List Byte := [0xff, 0xff, 0xff, 0xff, 0xff, 0xff]
  match buildDeauthFrame serializeLayers bssid broadcast bssid reason with
  | Except.error err => ([], some err)
  | Except.ok frame => ([frame], writePacketData frame)

/-- The broadcast address. -/
def broadcastMAC : List Byte := [0xff, 0xff, 0xff, 0xff, 0xff, 0xff]

/-- A serialization for the samples: the three addresses and the reason. -/
def sampleSerialize (l : DeauthLayers) : Except String (List Byte) :=
  Except.ok (l.Address1 ++ l.Address2 ++ l.Address3 ++ leUint16Bytes l.Reason)

/-! ## The case conditions of `MessageNumber` -/

/-- The four flags that `MessageNumber` reads of the key information. -/
def hasACK (f : EAPOLKeyFrame) : Bool := f.KeyInfo &&& EAPOLKeyInfoACK != 0

def hasMIC (f : EAPOLKeyFrame) : Bool := f.KeyInfo &&& EAPOLKeyInfoMIC != 0

def hasInstall (f : EAPOLKeyFrame) : Bool := f.KeyInfo &&& EAPOLKeyInfoInstall != 0

def hasSecure (f : EAPOLKeyFrame) : Bool := f.KeyInfo &&& EAPOLKeyInfoSecure != 0

/-- The conditions of the four `case` clauses of the switch of
`MessageNumber`, in the order of the source. -/
def caseMsg1 (f : EAPOLKeyFrame) : Bool :=
  hasACK f && !hasMIC f && !hasInstall f

def caseMsg2 (f : EAPOLKeyFrame) : Bool :=
  !hasACK f && hasMIC f && !hasInstall f && !isNonceZero f.Nonce.toList

def caseMsg3 (f : EAPOLKeyFrame) : Bool :=
  hasACK f && hasMIC f && hasInstall f && hasSecure f

def caseMsg4 (f : EAPOLKeyFrame) : Bool :=
  !hasACK f && hasMIC f && !hasInstall f && hasSecure f && isNonceZero f.Nonce.toList

/-- The clauses of the switch: condition and value returned. -/
def messageCases : List ((EAPOLKeyFrame → Bool) × HandshakeMessage) :=
  [(caseMsg1, HandshakeMsg1), (caseMsg2, HandshakeMsg2), (caseMsg3, HandshakeMsg3),
    (caseMsg4, HandshakeMsg4)]

/-- A Go `switch` without tag over a list of clauses: the value of the first
clause whose condition holds, and `HandshakeMsgUnknown` (the `default`) when
none holds. -/
def switchCases (cases : List ((EAPOLKeyFrame → Bool) × HandshakeMessage))
    (f : EAPOLKeyFrame) : HandshakeMessage :=
  match cases.find? (fun c => c.1 f) with
  | some c => c.2
  | none => HandshakeMsgUnknown

/-! ## More samples -/

/-- A packet of the sample client with a garbled EAPOL-Key body of 50 octets. -/
def samplePacketGarbled : Packet :=
  { eapolKeyLayer := some (List.replicate 50 0)
    dot11Layer := some { ToDS := true, FromDS := false, Address1 := sampleBSSID,
                         Address2 := sampleClient, Address3 := sampleBSSID }
    eapolLayer := some { Contents := [1, 3, 0, 46], Payload := List.replicate 46 0 } }

/-- A data frame between stations without distribution system (ToDS = 0,
FromDS = 0) of the sample client in the network of the sample access point. -/
def sampleDataFrame : Dot11 :=
  { ToDS := false, FromDS := false, Address1 := sampleBSSID2, Address2 := sampleClient,
    Address3 := sampleBSSID }

/-- Another candidate word of 8 octets, "12345678". -/
def sampleOtherWord : List Byte := [0x31, 0x32, 0x33, 0x34, 0x35, 0x36, 0x37, 0x38]

/-- A wordlist whose first line is "password", followed by five other lines of
valid length. -/
def sampleLongWordlist : List (List Byte) :=
  samplePassword :: List.replicate 5 sampleOtherWord

/-- A schedule for one worker on `sampleLongWordlist`: the producer reads and
sends the first line; the worker receives it, finds nothing published and
starts the test; the producer reads and sends the next four lines, which fill
the channel, and reads the sixth; the worker ends the test. -/
def sampleBlockingSchedule : List CrackEvent :=
  [CrackEvent.producer, CrackEvent.producer, CrackEvent.worker 0, CrackEvent.worker 0] ++
    List.replicate 9 CrackEvent.producer ++ [CrackEvent.worker 0]

/-- The database of the sample access point after one, two and three frames of
the sample client under it. -/
def sampleFrameOps (k : Nat) : List TargetOp :=
  sampleTargetOps ++
    List.replicate k (TargetOp.updateClient sampleClient sampleBSSID (-60) (fun _ => 2))

def sampleFramesDB (k : Nat) : TargetDB :=
  applyTargetOps NewTargetDB (sampleFrameOps k)

/-! ## The packet decoder

What the packet library (gopacket, `layers.EAPOL` and `layers.EAPOLKey`) makes
of the octets of an EAPOL frame, header included, that a packet carries: the
EAPOL layer has the 4-octet header as its contents and the rest as its
payload; when the header says "key" (type 3) the EAPOL-Key layer is decoded
from that payload, and its contents are the 95 octets of the key descriptor,
followed by the key data only when the flag "encrypted key data" is set. Every
packet that a capture file or a live capture yields has this form. -/

/-- The constant `eapolKeyFrameLen` of the decoder: the length of a key
descriptor without key data. -/
def eapolKeyFrameLen : Nat := 95

/-- The flag "encrypted key data", bit 12 of the key information, as the
decoder reads it in the octets `body` that follow the EAPOL header. -/
def hasEncryptedKeyData (body : List Byte) : Bool :=
  beUint (slice body 1 3) &&& 0x1000 != 0

/-- The contents of the EAPOL-Key layer that the decoder makes of the octets
`body` that follow the EAPOL header (`EAPOLKey.DecodeFromBytes`); `none` when
the decoding fails and the packet has no such layer. -/
def decodeEAPOLKey (body : List Byte) : Option (List Byte) :=
  if body.length < eapolKeyFrameLen then none
  else
    let keyDataLength := beUint (slice body 93 95)
    let totalLength := eapolKeyFrameLen + keyDataLength
    if body.length < totalLength then none
    else if hasEncryptedKeyData body then some (slice body 0 totalLength)
    else some (slice body 0 eapolKeyFrameLen)

/-- The packet that the decoder yields: `dot11` is its 802.11 layer, if any,
and `eapol` the octets of the EAPOL frame it carries, if any. -/
def decodePacket (dot11 : Option Dot11) (eapol : Option (List Byte)) : Packet :=
  match eapol with
  | none => { eapolKeyLayer := none, dot11Layer := dot11, eapolLayer := none }
  | some data =>
    if data.length < 4 then { eapolKeyLayer := none, dot11Layer := dot11, eapolLayer := none }
    else
      { eapolKeyLayer := if data.getD 1 0 = 3 then decodeEAPOLKey (data.drop 4) else none
        dot11Layer := dot11
        eapolLayer := some { Contents := slice data 0 4, Payload := data.drop 4 } }

/-- The packets of a capture, each given by its 802.11 layer and the EAPOL
frame it carries. -/
def decodeCapture (raw : List (Option Dot11 × Option (List Byte))) : List Packet :=
  raw.map (fun r => decodePacket r.1 r.2)

/-- The message number of an EAPOL frame, header included: the layout that
`ParseEAPOLKeyFrame` describes. -/
def frameMessage (frame : List Byte) : HandshakeMessage :=
  match ParseEAPOLKeyFrame frame with
  | Except.error _ => HandshakeMsgUnknown
  | Except.ok f => MessageNumber f

/-- The 802.11 layers of a frame from the sample access point to the sample
client and of one from the client to the access point. -/
def sampleDot11FromAP : Dot11 :=
  { ToDS := false, FromDS := true, Address1 := sampleClient, Address2 := sampleBSSID,
    Address3 := sampleBSSID }

def sampleDot11ToAP : Dot11 :=
  { ToDS := true, FromDS := false, Address1 := sampleBSSID, Address2 := sampleClient,
    Address3 := sampleBSSID }

/-- The messages 1 and 2 above, as the access point and the client send them. -/
def sampleGenuineCapture : List (Option Dot11 × List Byte) :=
  [(some sampleDot11FromAP, sampleM1), (some sampleDot11ToAP, sampleM2)]

/-- An EAPOL frame that the tracker takes for a message 1: the flag "encrypted
key data" is set and there are 4 octets of key data, so that the EAPOL-Key
layer has 99 octets, and the replay counter starts with `00 80`, the two
octets that the parser, applied to the layer, reads as the key information. -/
def sampleShiftedM1 : List Byte :=
  [1, 3, 0, 99, 2, 0x10, 0x8a, 0, 16, 0x00, 0x80, 0, 0, 0, 0, 0, 1] ++
    List.replicate 32 0x11 ++ List.replicate 16 0 ++ List.replicate 8 0 ++
    List.replicate 8 0 ++ List.replicate 16 0 ++ [0, 4, 0xdd, 0x02, 0x00, 0x0f]

/-- An EAPOL frame that the tracker takes for a message 2: as above, with a
replay counter that starts with `01 00`. -/
def sampleShiftedM2 : List Byte :=
  [1, 3, 0, 99, 2, 0x11, 0x0a, 0, 16, 0x01, 0x00, 0, 0, 0, 0, 0, 1] ++
    List.replicate 32 0x22 ++ List.replicate 16 0 ++ List.replicate 8 0 ++
    List.replicate 8 0 ++ List.replicate 16 0x33 ++ [0, 4, 0x30, 0x14, 0x01, 0x00]

/-- A capture with the two frames above, and one with the first only. -/
def sampleShiftedCapture : List (Option Dot11 × Option (List Byte)) :=
  [(some sampleDot11FromAP, some sampleShiftedM1), (some sampleDot11ToAP, some sampleShiftedM2)]

def sampleShiftedCaptureM1 : List (Option Dot11 × Option (List Byte)) :=
  [(some sampleDot11FromAP, some sampleShiftedM1)]

/-! ## Invariants of the concurrent phase -/

/-- The channel and the workers along a run: the words put into the channel
are those that the workers have taken from it followed by those that wait in
it; the channel holds no more than its capacity, which is four times the
number of workers; a word that a worker holds or has tested was taken from the
channel. -/
def ChannelInv (s : CrackState) : Prop :=
  s.sent = s.received ++ s.wordCh ∧
  s.wordCh.length ≤ s.capacity ∧
  s.capacity = s.workers.length * 4 ∧
  (∀ w, WorkerState.loaded w ∈ s.workers → w ∈ s.received) ∧
  (∀ w, WorkerState.verifying w ∈ s.workers → w ∈ s.received) ∧
  (∀ w ∈ s.tested, w ∈ s.received)

/-- The producer has left its loop when the channel is closed. -/
def afterLoop : ProducerState → Prop
  | ProducerState.scanning => False
  | ProducerState.sending _ => False
  | ProducerState.closing => False
  | _ => True

/-- The end of a run: the channel is closed only after the loop of the
producer; a worker has returned only after a word was published or with the
channel closed and empty; and the result "key not found" is returned only
with the channel empty. -/
def DrainInv (s : CrackState) : Prop :=
  (s.closed = true → afterLoop s.producer) ∧
  (WorkerState.exited ∈ s.workers → s.found.isSome = true ∨ (s.closed = true ∧ s.wordCh = [])) ∧
  (s.producer = ProducerState.returned (Except.error keyNotFound) → s.wordCh = [])

/-- A wordlist of two lines of valid length, and a schedule for one worker on
it: the producer reads and sends the first line; the worker receives, loads
and tests it; the producer reads the second line, leaves its loop, closes the
channel and returns. -/
def sampleTwoWords : List (List Byte) := [samplePassword, sampleOtherWord]

def sampleFoundSchedule : List CrackEvent :=
  [CrackEvent.producer, CrackEvent.producer, CrackEvent.worker 0, CrackEvent.worker 0,
    CrackEvent.worker 0, CrackEvent.producer, CrackEvent.producer, CrackEvent.producer]

/-! ## Invariant of the capture-file tracker -/

/-- The handshakes that the tracker of a capture file builds from decoded
packets: the flag is set only with the slots of M1 and M2 filled, and a filled
slot has a raw body of at least 103 octets. -/
def HandshakeInv (hs : FourWayHandshake) : Prop :=
  (hs.Complete = true → (hs.Messages 0).isSome = true ∧ (hs.Messages 1).isSome = true) ∧
  ∀ j : Fin 4, (hs.Messages j).isSome = true →
    ∃ body, hs.RawFrames j = some body ∧ 103 ≤ body.length

/-- The state of the capture-file tracker after the capture with the first
frame only. -/
def sampleStateM1 : CaptureState :=
  (decodeCapture sampleShiftedCaptureM1).foldl (scanCapPacket sampleCracker.bssid)
    NewCaptureState

/-! # Properties -/

/-! ## The EAPOL-Key codec and the message classifier -/

theorem land_two_pow_bne_zero (n i : Nat) : (n &&& 2 ^ i != 0) = n.testBit i := by
  rw [Nat.and_two_pow]
  cases h : n.testBit i
  · simp
  · have : 2 ^ i ≠ 0 := (Nat.two_pow_pos i).ne'
    simp [this]

theorem isNonceZero_iff (l : List Byte) : isNonceZero l = true ↔ ∀ b ∈ l, b = 0 := by
  induction l with
  | nil => simp [isNonceZero]
  | cons x xs ih =>
    by_cases hx : x = 0
    · simp [isNonceZero, hx, ih]
    · simp [isNonceZero, hx]

theorem isNonceZero_vector {n : Nat} (v : Mathlib.Vector Byte n) :
    isNonceZero v.toList = true ↔ ∀ i : Fin n, v.get i = 0 := by
  rw [isNonceZero_iff]
  constructor
  · intro h i
    exact h _ (Mathlib.Vector.get_mem i v)
  · intro h b hb
    obtain ⟨i, rfl⟩ := (Mathlib.Vector.mem_iff_get b v).1 hb
    exact h i

theorem MessageNumber_eq (f : EAPOLKeyFrame) :
    MessageNumber f =
      if f.KeyInfo.testBit 7 && !f.KeyInfo.testBit 8 && !f.KeyInfo.testBit 6 then HandshakeMsg1
      else if !f.KeyInfo.testBit 7 && f.KeyInfo.testBit 8 && !f.KeyInfo.testBit 6
          && !isNonceZero f.Nonce.toList then HandshakeMsg2
      else if f.KeyInfo.testBit 7 && f.KeyInfo.testBit 8 && f.KeyInfo.testBit 6
          && f.KeyInfo.testBit 9 then HandshakeMsg3
      else if !f.KeyInfo.testBit 7 && f.KeyInfo.testBit 8 && !f.KeyInfo.testBit 6
          && f.KeyInfo.testBit 9 && isNonceZero f.Nonce.toList then HandshakeMsg4
      else HandshakeMsgUnknown := by
  have h7 := land_two_pow_bne_zero f.KeyInfo 7
  have h8 := land_two_pow_bne_zero f.KeyInfo 8
  have h6 := land_two_pow_bne_zero f.KeyInfo 6
  have h9 := land_two_pow_bne_zero f.KeyInfo 9
  norm_num at h7 h8 h6 h9
  simp only [MessageNumber, EAPOLKeyInfoACK, EAPOLKeyInfoMIC, EAPOLKeyInfoInstall,
    EAPOLKeyInfoSecure, h7, h8, h6, h9]

/-- C1. With ACK, MIC, Install and Secure the bits 7, 8, 6 and 9 (masks 0x0080,
0x0100, 0x0040, 0x0200) of the key information and Z the statement that all 32
nonce octets are zero, `MessageNumber` is M1 exactly when ACK, not MIC, not
Install; M2 exactly when not ACK, MIC, not Install, not Z; M3 exactly when ACK,
MIC, Install, Secure; M4 exactly when not ACK, MIC, not Install, Secure, Z; and
Unknown exactly when none of the four holds. -/
theorem MessageNumber_table (f : EAPOLKeyFrame) :
    (MessageNumber f = HandshakeMsg1 ↔
      f.KeyInfo.testBit 7 = true ∧ f.KeyInfo.testBit 8 = false ∧ f.KeyInfo.testBit 6 = false) ∧
    (MessageNumber f = HandshakeMsg2 ↔
      f.KeyInfo.testBit 7 = false ∧ f.KeyInfo.testBit 8 = true ∧ f.KeyInfo.testBit 6 = false ∧
        ¬ (∀ i : Fin 32, f.Nonce.get i = 0)) ∧
    (MessageNumber f = HandshakeMsg3 ↔
      f.KeyInfo.testBit 7 = true ∧ f.KeyInfo.testBit 8 = true ∧ f.KeyInfo.testBit 6 = true ∧
        f.KeyInfo.testBit 9 = true) ∧
    (MessageNumber f = HandshakeMsg4 ↔
      f.KeyInfo.testBit 7 = false ∧ f.KeyInfo.testBit 8 = true ∧ f.KeyInfo.testBit 6 = false ∧
        f.KeyInfo.testBit 9 = true ∧ (∀ i : Fin 32, f.Nonce.get i = 0)) ∧
    (MessageNumber f = HandshakeMsgUnknown ↔
      ¬ (f.KeyInfo.testBit 7 = true ∧ f.KeyInfo.testBit 8 = false ∧
          f.KeyInfo.testBit 6 = false) ∧
      ¬ (f.KeyInfo.testBit 7 = false ∧ f.KeyInfo.testBit 8 = true ∧
          f.KeyInfo.testBit 6 = false ∧ ¬ (∀ i : Fin 32, f.Nonce.get i = 0)) ∧
      ¬ (f.KeyInfo.testBit 7 = true ∧ f.KeyInfo.testBit 8 = true ∧
          f.KeyInfo.testBit 6 = true ∧ f.KeyInfo.testBit 9 = true) ∧
      ¬ (f.KeyInfo.testBit 7 = false ∧ f.KeyInfo.testBit 8 = true ∧
          f.KeyInfo.testBit 6 = false ∧ f.KeyInfo.testBit 9 = true ∧
          (∀ i : Fin 32, f.Nonce.get i = 0))) := by
  rw [MessageNumber_eq, ← isNonceZero_vector]
  simp only [HandshakeMsg1, HandshakeMsg2, HandshakeMsg3, HandshakeMsg4, HandshakeMsgUnknown]
  cases f.KeyInfo.testBit 7 <;> cases f.KeyInfo.testBit 8 <;> cases f.KeyInfo.testBit 6 <;>
    cases f.KeyInfo.testBit 9 <;> cases isNonceZero f.Nonce.toList <;> decide

theorem slice_length (s : List Byte) (lo hi : Nat) (h : hi ≤ s.length) :
    (slice s lo hi).length = hi - lo := by
  simp only [slice, List.length_take, List.length_drop]
  omega

theorem slice_cons (s : List Byte) (lo hi : Nat) (h1 : lo < hi) (h2 : hi ≤ s.length) :
    slice s lo hi = s.get ⟨lo, by omega⟩ :: slice s (lo + 1) hi := by
  have hlo : lo < s.length := by omega
  unfold slice
  rw [List.drop_eq_getElem_cons hlo]
  obtain ⟨k, hk⟩ : ∃ k, hi - lo = k + 1 := ⟨hi - lo - 1, by omega⟩
  rw [hk, List.take_succ_cons]
  have : hi - (lo + 1) = k := by omega
  rw [this]
  rfl

theorem slice_self (s : List Byte) (lo : Nat) : slice s lo lo = [] := by
  simp [slice]

theorem copyArr_zero_toList {n : Nat} (src : List Byte) (h : src.length = n) :
    (copyArr (zeroArr n) src).toList = src := by
  subst h
  simp [copyArr, Mathlib.Vector.toList, zeroArr, Mathlib.Vector.replicate]

theorem copyArr_zero_get {n : Nat} (src : List Byte) (h : src.length = n) (i : Fin n) :
    (copyArr (zeroArr n) src).get i = src.get ⟨i.val, by omega⟩ := by
  have := copyArr_zero_toList src h
  rw [Mathlib.Vector.get_eq_get]
  simp [this]

theorem slice_get (s : List Byte) (lo hi : Nat) (h : hi ≤ s.length) (i : Nat)
    (hi2 : i < (slice s lo hi).length) :
    (slice s lo hi).get ⟨i, hi2⟩ = s.get ⟨lo + i, by rw [slice_length s lo hi h] at hi2; omega⟩ := by
  simp [slice]


theorem beUint_two (a b : Byte) : beUint [a, b] = a.val * 256 + b.val := by
  simp [beUint]

theorem beUint_eight (a b c d e f g h : Byte) :
    beUint [a, b, c, d, e, f, g, h] =
      a.val * 256 ^ 7 + b.val * 256 ^ 6 + c.val * 256 ^ 5 + d.val * 256 ^ 4 +
        e.val * 256 ^ 3 + f.val * 256 ^ 2 + g.val * 256 + h.val := by
  simp only [beUint, List.foldl]
  ring

theorem getD_eq_get (s : List Byte) (i : Nat) (h : i < s.length) :
    s.getD i 0 = s.get ⟨i, h⟩ := by
  simp [List.getD, List.getElem?_eq_getElem h]


theorem ParseEAPOLKeyFrame_ok (d : List Byte) (h : 99 ≤ d.length) :
    ParseEAPOLKeyFrame d = Except.ok
      { Version := d.getD 0 0
        Type_ := d.getD 1 0
        Length := beUint (slice d 2 4)
        DescriptorType := d.getD 4 0
        KeyInfo := beUint (slice d 5 7)
        KeyLength := beUint (slice d 7 9)
        ReplayCounter := beUint (slice d 9 17)
        Nonce := copyArr (zeroArr 32) (slice d 17 49)
        IV := copyArr (zeroArr 16) (slice d 49 65)
        RSC := copyArr (zeroArr 8) (slice d 65 73)
        ID := copyArr (zeroArr 8) (slice d 73 81)
        MIC := copyArr (zeroArr 16) (slice d 81 97)
        DataLength := beUint (slice d 97 99)
        Data := d.drop 99 } := by
  have hlt : ¬ d.length < 99 := by omega
  by_cases hgt : d.length > 99
  · simp only [ParseEAPOLKeyFrame, hlt, hgt, if_false, if_true]
  · have hnil : d.drop 99 = [] := List.drop_eq_nil_of_le (by omega)
    simp only [ParseEAPOLKeyFrame, hlt, hgt, if_false, hnil]

theorem slice_two (d : List Byte) (lo : Nat) (h : lo + 2 ≤ d.length) :
    slice d lo (lo + 2) = [d.get ⟨lo, by omega⟩, d.get ⟨lo + 1, by omega⟩] := by
  rw [slice_cons d lo (lo + 2) (by omega) h, slice_cons d (lo + 1) (lo + 2) (by omega) h,
    slice_self]

theorem slice_eight (d : List Byte) (lo : Nat) (h : lo + 8 ≤ d.length) :
    slice d lo (lo + 8) =
      [d.get ⟨lo, by omega⟩, d.get ⟨lo + 1, by omega⟩, d.get ⟨lo + 2, by omega⟩,
        d.get ⟨lo + 3, by omega⟩, d.get ⟨lo + 4, by omega⟩, d.get ⟨lo + 5, by omega⟩,
        d.get ⟨lo + 6, by omega⟩, d.get ⟨lo + 7, by omega⟩] := by
  rw [slice_cons d lo (lo + 8) (by omega) h, slice_cons d (lo + 1) (lo + 8) (by omega) h,
    slice_cons d (lo + 2) (lo + 8) (by omega) h, slice_cons d (lo + 3) (lo + 8) (by omega) h,
    slice_cons d (lo + 4) (lo + 8) (by omega) h, slice_cons d (lo + 5) (lo + 8) (by omega) h,
    slice_cons d (lo + 6) (lo + 8) (by omega) h, slice_cons d (lo + 7) (lo + 8) (by omega) h,
    slice_self]

theorem copyArr_slice_get (d : List Byte) (lo n : Nat) (h : lo + n ≤ d.length) (i : Fin n) :
    (copyArr (zeroArr n) (slice d lo (lo + n))).get i = d.get ⟨lo + i.val, by omega⟩ := by
  have hl : (slice d lo (lo + n)).length = n := by
    rw [slice_length d lo (lo + n) h]; omega
  rw [copyArr_zero_get _ hl, slice_get d lo (lo + n) h]

/-- C4. `ParseEAPOLKeyFrame` returns an error exactly when the input has fewer
than 99 octets, and returns a frame (and no error) exactly when it has 99 or
more. -/
theorem ParseEAPOLKeyFrame_error_iff (data : List Byte) :
    ((∃ e, ParseEAPOLKeyFrame data = Except.error e) ↔ data.length < 99) ∧
    ((∃ f, ParseEAPOLKeyFrame data = Except.ok f) ↔ 99 ≤ data.length) := by
  by_cases h : data.length < 99
  · simp [ParseEAPOLKeyFrame, h]
  · simp only [ParseEAPOLKeyFrame, h, if_false]
    simp
    omega

/-- C5. On an input `d` of at least 99 octets `ParseEAPOLKeyFrame` succeeds and
the frame has Version `d[0]`, Type `d[1]`, Length the big-endian value of
`d[2..4)`, DescriptorType `d[4]`, KeyInfo, KeyLength, ReplayCounter the
big-endian values of `d[5..7)`, `d[7..9)`, `d[9..17)`, Nonce `d[17..49)`, IV
`d[49..65)`, RSC `d[65..73)`, ID `d[73..81)`, MIC `d[81..97)`, DataLength the
big-endian value of `d[97..99)` and Data all octets from offset 99 on (none
when `d` has 99 octets), whatever the value of DataLength. -/
theorem ParseEAPOLKeyFrame_fields (d : List Byte) (h : 99 ≤ d.length) :
    ∃ f, ParseEAPOLKeyFrame d = Except.ok f ∧
      f.Version = d[0] ∧ f.Type_ = d[1] ∧
      f.Length = d[2].val * 256 + d[3].val ∧
      f.DescriptorType = d[4] ∧
      f.KeyInfo = d[5].val * 256 + d[6].val ∧
      f.KeyLength = d[7].val * 256 + d[8].val ∧
      f.ReplayCounter =
        d[9].val * 256 ^ 7 + d[10].val * 256 ^ 6 + d[11].val * 256 ^ 5 +
          d[12].val * 256 ^ 4 + d[13].val * 256 ^ 3 + d[14].val * 256 ^ 2 +
          d[15].val * 256 + d[16].val ∧
      (∀ i : Fin 32, f.Nonce.get i = d[17 + i.val]) ∧
      (∀ i : Fin 16, f.IV.get i = d[49 + i.val]) ∧
      (∀ i : Fin 8, f.RSC.get i = d[65 + i.val]) ∧
      (∀ i : Fin 8, f.ID.get i = d[73 + i.val]) ∧
      (∀ i : Fin 16, f.MIC.get i = d[81 + i.val]) ∧
      f.DataLength = d[97].val * 256 + d[98].val ∧
      f.Data = d.drop 99 ∧ (d.length = 99 → f.Data = []) := by
  refine ⟨_, ParseEAPOLKeyFrame_ok d h, ?_⟩
  refine ⟨getD_eq_get d 0 (by omega), getD_eq_get d 1 (by omega), ?_, getD_eq_get d 4 (by omega),
    ?_, ?_, ?_, ?_, ?_, ?_, ?_, ?_, ?_, rfl, ?_⟩
  · show beUint (slice d 2 (2 + 2)) = _
    rw [slice_two d 2 (by omega), beUint_two]; rfl
  · show beUint (slice d 5 (5 + 2)) = _
    rw [slice_two d 5 (by omega), beUint_two]; rfl
  · show beUint (slice d 7 (7 + 2)) = _
    rw [slice_two d 7 (by omega), beUint_two]; rfl
  · show beUint (slice d 9 (9 + 8)) = _
    rw [slice_eight d 9 (by omega), beUint_eight]; rfl
  · exact fun i => copyArr_slice_get d 17 32 (by omega) i
  · exact fun i => copyArr_slice_get d 49 16 (by omega) i
  · exact fun i => copyArr_slice_get d 65 8 (by omega) i
  · exact fun i => copyArr_slice_get d 73 8 (by omega) i
  · exact fun i => copyArr_slice_get d 81 16 (by omega) i
  · show beUint (slice d 97 (97 + 2)) = _
    rw [slice_two d 97 (by omega), beUint_two]; rfl
  · intro h99
    exact List.drop_eq_nil_of_le (by omega)

theorem beUint_append_singleton (l : List Byte) (b : Byte) :
    beUint (l ++ [b]) = beUint l * 256 + b.val := by
  simp [beUint, List.foldl_append]

theorem beBytes_beUint (l : List Byte) : ∀ n, l.length = n → beBytes n (beUint l) = l := by
  induction l using List.reverseRecOn with
  | nil => intro n h; subst h; rfl
  | append_singleton l b ih =>
    intro n h
    rw [List.length_append, List.length_singleton] at h
    subst h
    rw [beUint_append_singleton, beBytes]
    have hb := b.isLt
    have h1 : (beUint l * 256 + b.val) / 256 = beUint l := by omega
    have h2 : (Fin.ofNat (beUint l * 256 + b.val) : Byte) = b := by
      apply Fin.ext
      show (beUint l * 256 + b.val) % 256 = b.val
      omega
    rw [h1, h2, ih _ rfl]

theorem slice_append_slice (d : List Byte) (a b c : Nat) (h1 : a ≤ b) (h2 : b ≤ c) :
    slice d a b ++ slice d b c = slice d a c := by
  unfold slice
  have hc : c - a = (b - a) + (c - b) := by omega
  rw [hc, List.take_add, List.drop_drop]
  have : a + (b - a) = b := by omega
  rw [this]

theorem singleton_getD_eq_slice (d : List Byte) (i : Nat) (h : i < d.length) :
    [d.getD i 0] = slice d i (i + 1) := by
  unfold slice
  rw [List.drop_eq_getElem_cons h, getD_eq_get d i h]
  have : i + 1 - i = 1 := by omega
  rw [this]
  rfl

theorem serialize_parse (d : List Byte) (h : 99 ≤ d.length) :
    ∃ f, ParseEAPOLKeyFrame d = Except.ok f ∧ serializeEAPOLKeyFrame f = d := by
  refine ⟨_, ParseEAPOLKeyFrame_ok d h, ?_⟩
  have hs : ∀ lo hi, hi ≤ d.length → (slice d lo hi).length = hi - lo :=
    fun lo hi hh => slice_length d lo hi hh
  simp only [serializeEAPOLKeyFrame]
  rw [beBytes_beUint _ 2 (hs 2 4 (by omega)), beBytes_beUint _ 2 (hs 5 7 (by omega)),
    beBytes_beUint _ 2 (hs 7 9 (by omega)), beBytes_beUint _ 8 (hs 9 17 (by omega)),
    beBytes_beUint _ 2 (hs 97 99 (by omega)),
    copyArr_zero_toList _ (hs 17 49 (by omega)), copyArr_zero_toList _ (hs 49 65 (by omega)),
    copyArr_zero_toList _ (hs 65 73 (by omega)), copyArr_zero_toList _ (hs 73 81 (by omega)),
    copyArr_zero_toList _ (hs 81 97 (by omega))]
  have e0 : [d.getD 0 0, d.getD 1 0] = slice d 0 2 := by
    have := slice_append_slice d 0 1 2 (by omega) (by omega)
    rw [← this, ← singleton_getD_eq_slice d 0 (by omega), ← singleton_getD_eq_slice d 1 (by omega)]
    rfl
  rw [e0, singleton_getD_eq_slice d 4 (by omega)]
  rw [slice_append_slice d 0 2 4 (by omega) (by omega),
    slice_append_slice d 0 4 5 (by omega) (by omega),
    slice_append_slice d 0 5 7 (by omega) (by omega),
    slice_append_slice d 0 7 9 (by omega) (by omega),
    slice_append_slice d 0 9 17 (by omega) (by omega),
    slice_append_slice d 0 17 49 (by omega) (by omega),
    slice_append_slice d 0 49 65 (by omega) (by omega),
    slice_append_slice d 0 65 73 (by omega) (by omega),
    slice_append_slice d 0 73 81 (by omega) (by omega),
    slice_append_slice d 0 81 97 (by omega) (by omega),
    slice_append_slice d 0 97 99 (by omega) (by omega)]
  exact List.take_append_drop 99 d

/-- C6. Parsing loses no information: for an input of at least 99 octets the
parsed frame, serialized field by field in declared order with big-endian
integers and followed by its Data, is the input again; hence an input of at
least 99 octets that parses to the same frame is the same input. -/
theorem ParseEAPOLKeyFrame_lossless (d : List Byte) (h : 99 ≤ d.length) :
    (∃ f, ParseEAPOLKeyFrame d = Except.ok f ∧ serializeEAPOLKeyFrame f = d) ∧
    (∀ d2 : List Byte, 99 ≤ d2.length → ParseEAPOLKeyFrame d2 = ParseEAPOLKeyFrame d →
      d2 = d) := by
  refine ⟨serialize_parse d h, ?_⟩
  intro d2 h2 heq
  obtain ⟨f, hf, hs⟩ := serialize_parse d h
  obtain ⟨f2, hf2, hs2⟩ := serialize_parse d2 h2
  rw [hf, hf2] at heq
  have hff : f2 = f := by injection heq
  rw [← hs, ← hs2, hff]

theorem ParseEAPOLKeyFrame_lossless_witness :
    99 ≤ sampleM2.length ∧
    (∃ f, ParseEAPOLKeyFrame sampleM2 = Except.ok f ∧ serializeEAPOLKeyFrame f = sampleM2) ∧
    (∀ d2 : List Byte, 99 ≤ d2.length →
      ParseEAPOLKeyFrame d2 = ParseEAPOLKeyFrame sampleM2 → d2 = sampleM2) :=
  ⟨by decide, ParseEAPOLKeyFrame_lossless sampleM2 (by decide)⟩

theorem ParseEAPOLKeyFrame_fields_witness :
    ∃ _ : 99 ≤ sampleM2.length,
    (∃ f, ParseEAPOLKeyFrame sampleM2 = Except.ok f ∧
      f.Version = sampleM2[0] ∧ f.Type_ = sampleM2[1] ∧
      f.Length = sampleM2[2].val * 256 + sampleM2[3].val ∧
      f.DescriptorType = sampleM2[4] ∧
      f.KeyInfo = sampleM2[5].val * 256 + sampleM2[6].val ∧
      f.KeyLength = sampleM2[7].val * 256 + sampleM2[8].val ∧
      f.ReplayCounter =
        sampleM2[9].val * 256 ^ 7 + sampleM2[10].val * 256 ^ 6 + sampleM2[11].val * 256 ^ 5 +
          sampleM2[12].val * 256 ^ 4 + sampleM2[13].val * 256 ^ 3 + sampleM2[14].val * 256 ^ 2 +
          sampleM2[15].val * 256 + sampleM2[16].val ∧
      (∀ i : Fin 32, f.Nonce.get i = sampleM2[17 + i.val]) ∧
      (∀ i : Fin 16, f.IV.get i = sampleM2[49 + i.val]) ∧
      (∀ i : Fin 8, f.RSC.get i = sampleM2[65 + i.val]) ∧
      (∀ i : Fin 8, f.ID.get i = sampleM2[73 + i.val]) ∧
      (∀ i : Fin 16, f.MIC.get i = sampleM2[81 + i.val]) ∧
      f.DataLength = sampleM2[97].val * 256 + sampleM2[98].val ∧
      f.Data = sampleM2.drop 99 ∧ (sampleM2.length = 99 → f.Data = [])) :=
  ⟨by decide, ParseEAPOLKeyFrame_fields sampleM2 (by decide)⟩

/-! ## The four-way handshake -/

theorem checkComplete_Messages (h : FourWayHandshake) :
    (checkComplete h).Messages = h.Messages := by
  unfold checkComplete
  split <;> rfl

theorem checkComplete_Complete (h : FourWayHandshake) :
    (checkComplete h).Complete =
      (h.Complete || ((h.Messages 0).isSome && (h.Messages 1).isSome)) := by
  unfold checkComplete
  split
  · rename_i hc
    simp [hc]
  · rename_i hc
    simp only [Bool.not_eq_true] at hc
    simp [hc]

theorem AddMessage_slots (h : FourWayHandshake) (msg : Int)
    (frame : Option EAPOLKeyFrame) (raw : List Byte) (j : Fin 4) :
    (AddMessage h msg frame raw).Messages j =
      if 1 ≤ msg ∧ msg ≤ 4 ∧ (j.val : Int) = msg - 1 then frame else h.Messages j := by
  unfold AddMessage
  by_cases hr : msg - 1 < 0 ∨ msg - 1 > 3
  · have : ¬ (1 ≤ msg ∧ msg ≤ 4 ∧ (j.val : Int) = msg - 1) := by omega
    simp only [hr, if_true, this, if_false]
  · simp only [hr, if_false, checkComplete_Messages]
    have h1 : 1 ≤ msg ∧ msg ≤ 4 := by omega
    simp only [h1, true_and]

theorem AddMessage_Complete (h : FourWayHandshake) (msg : Int)
    (frame : Option EAPOLKeyFrame) (raw : List Byte) :
    (AddMessage h msg frame raw).Complete =
      (h.Complete || (decide (1 ≤ msg ∧ msg ≤ 4) &&
        ((AddMessage h msg frame raw).Messages 0).isSome &&
        ((AddMessage h msg frame raw).Messages 1).isSome)) := by
  unfold AddMessage
  by_cases hr : msg - 1 < 0 ∨ msg - 1 > 3
  · have : ¬ (1 ≤ msg ∧ msg ≤ 4) := by omega
    simp only [hr, if_true, this, decide_False, Bool.false_and, Bool.or_false]
  · have h1 : (1 ≤ msg ∧ msg ≤ 4) := by omega
    simp only [hr, if_false, checkComplete_Complete, checkComplete_Messages, h1, and_self,
      decide_True, Bool.true_and]

/-- The invariant of the handshake: the flag is set exactly when the slots of M1
and M2 are filled. -/
theorem AddMessage_preserves (h : FourWayHandshake) (msg : Int)
    (frame : EAPOLKeyFrame) (raw : List Byte)
    (hinv : h.Complete = true ↔ (h.Messages 0).isSome = true ∧ (h.Messages 1).isSome = true) :
    (AddMessage h msg (some frame) raw).Complete = true ↔
      ((AddMessage h msg (some frame) raw).Messages 0).isSome = true ∧
      ((AddMessage h msg (some frame) raw).Messages 1).isSome = true := by
  rw [AddMessage_Complete]
  have s0 := AddMessage_slots h msg (some frame) raw 0
  have s1 := AddMessage_slots h msg (some frame) raw 1
  by_cases hr : 1 ≤ msg ∧ msg ≤ 4
  · simp only [hr, and_self, decide_True, Bool.true_and, Bool.or_eq_true, Bool.and_eq_true]
    constructor
    · rintro (hc | hc)
      · rw [hinv] at hc
        rw [s0, s1]
        constructor
        · split
          · rfl
          · exact hc.1
        · split
          · rfl
          · exact hc.2
      · exact hc
    · exact fun hc => Or.inr hc
  · have n0 : ¬ (1 ≤ msg ∧ msg ≤ 4 ∧ ((0 : Fin 4).val : Int) = msg - 1) := fun x => hr ⟨x.1, x.2.1⟩
    have n1 : ¬ (1 ≤ msg ∧ msg ≤ 4 ∧ ((1 : Fin 4).val : Int) = msg - 1) := fun x => hr ⟨x.1, x.2.1⟩
    rw [if_neg n0] at s0
    rw [if_neg n1] at s1
    rw [s0, s1]
    simp only [hr, decide_False, Bool.false_and, Bool.or_false]
    exact hinv

theorem addMessages_invariant (calls : List (HandshakeMessage × Option EAPOLKeyFrame × List Byte)) :
    ∀ h : FourWayHandshake,
      (h.Complete = true ↔ (h.Messages 0).isSome = true ∧ (h.Messages 1).isSome = true) →
      (∀ c ∈ calls, c.2.1 ≠ none) →
      ((addMessages h calls).Complete = true ↔
        ((addMessages h calls).Messages 0).isSome = true ∧
        ((addMessages h calls).Messages 1).isSome = true) := by
  induction calls with
  | nil => intro h hinv _; exact hinv
  | cons c cs ih =>
    intro h hinv hnn
    obtain ⟨msg, frame, raw⟩ := c
    have hf : frame ≠ none := hnn (msg, frame, raw) (List.mem_cons_self _ _)
    obtain ⟨f, rfl⟩ := Option.ne_none_iff_exists'.1 hf
    exact ih _ (AddMessage_preserves h msg f raw hinv)
      (fun c hc => hnn c (List.mem_cons_of_mem _ hc))

/-- C2. After any finite sequence of `AddMessage` calls with non-nil frames on a
new handshake, `Complete` is true exactly when the slots of M1 and M2 are both
filled; the slots of M3 and M4 play no part. -/
theorem Complete_iff_M1_and_M2
    (calls : List (HandshakeMessage × Option EAPOLKeyFrame × List Byte))
    (hframes : ∀ c ∈ calls, c.2.1 ≠ none) :
    (addMessages NewFourWayHandshake calls).Complete = true ↔
      ((addMessages NewFourWayHandshake calls).Messages 0).isSome = true ∧
      ((addMessages NewFourWayHandshake calls).Messages 1).isSome = true :=
  addMessages_invariant calls NewFourWayHandshake (by simp [NewFourWayHandshake]) hframes

theorem Complete_iff_M1_and_M2_witness :
    (∀ c ∈ [((2 : Int), some zeroFrame, ([] : List Byte)), (3, some zeroFrame, [1, 2]),
        (1, some zeroFrame, []), (7, some zeroFrame, [])], c.2.1 ≠ none) ∧
    ((addMessages NewFourWayHandshake
        [((2 : Int), some zeroFrame, ([] : List Byte)), (3, some zeroFrame, [1, 2]),
          (1, some zeroFrame, []), (7, some zeroFrame, [])]).Complete = true ↔
      ((addMessages NewFourWayHandshake
        [((2 : Int), some zeroFrame, ([] : List Byte)), (3, some zeroFrame, [1, 2]),
          (1, some zeroFrame, []), (7, some zeroFrame, [])]).Messages 0).isSome = true ∧
      ((addMessages NewFourWayHandshake
        [((2 : Int), some zeroFrame, ([] : List Byte)), (3, some zeroFrame, [1, 2]),
          (1, some zeroFrame, []), (7, some zeroFrame, [])]).Messages 1).isSome = true) :=
  ⟨by simp, Complete_iff_M1_and_M2 _ (by simp)⟩

/-! ## The handshake tracker -/

theorem MessageNumber_range (f : EAPOLKeyFrame) :
    MessageNumber f = 0 ∨ MessageNumber f = 1 ∨ MessageNumber f = 2 ∨ MessageNumber f = 3 ∨
      MessageNumber f = 4 := by
  rw [MessageNumber_eq]
  simp only [HandshakeMsg1, HandshakeMsg2, HandshakeMsg3, HandshakeMsg4, HandshakeMsgUnknown]
  split
  · simp
  · split
    · simp
    · split
      · simp
      · split <;> simp

/-- The raw frame that `checkEAPOL` stores: contents and payload of the EAPOL
layer, or nothing when the packet has no such layer. -/
theorem checkEAPOL_accepted (cw : CaptureWriter) (data : List Byte) (dot11 : Dot11)
    (el : Option EAPOLLayer) (c : String) (f : EAPOLKeyFrame)
    (hcl : clientMACOf dot11 = some c) (hf : ParseEAPOLKeyFrame data = Except.ok f)
    (hu : MessageNumber f ≠ HandshakeMsgUnknown) :
    ∃ raw : List Byte,
      checkEAPOL cw ⟨some data, some dot11, el⟩ =
        ({ handshakes := fun k =>
              if k = c then some (AddMessage (trackedHandshake cw c) (MessageNumber f) (some f) raw)
              else cw.handshakes k
           eapolCount := cw.eapolCount + 1
           onHandshake := cw.onHandshake },
         if (AddMessage (trackedHandshake cw c) (MessageNumber f) (some f) raw).Complete &&
            !(trackedHandshake cw c).Complete && cw.onHandshake
         then some (AddMessage (trackedHandshake cw c) (MessageNumber f) (some f) raw)
         else none) := by
  have hlen : ¬ data.length < 99 := by
    intro h
    simp [ParseEAPOLKeyFrame, h] at hf
  refine ⟨match el with
    | some eapol => eapol.Contents ++ eapol.Payload
    | none => [], ?_⟩
  simp only [checkEAPOL, hcl, hlen, hf, hu, if_false, trackedHandshake]
  split
  · rfl
  · rfl

/-- One call of `checkEAPOL` on a packet of client `c`, seen on the handshake of
`c`: the slots of M1 and M2 are filled by a message 1 and a message 2 and
never emptied, the flag stays equal to their conjunction, and the goroutine is
launched exactly when the flag flips while a callback is registered. -/
theorem checkEAPOL_step (cw : CaptureWriter) (p : Packet) (c : String)
    (hc : packetClient p = some c)
    (hinv : (trackedHandshake cw c).Complete =
      (((trackedHandshake cw c).Messages 0).isSome && ((trackedHandshake cw c).Messages 1).isSome)) :
    (checkEAPOL cw p).1.onHandshake = cw.onHandshake ∧
    ((trackedHandshake (checkEAPOL cw p).1 c).Messages 0).isSome =
      (((trackedHandshake cw c).Messages 0).isSome || decide (packetMessage p = 1)) ∧
    ((trackedHandshake (checkEAPOL cw p).1 c).Messages 1).isSome =
      (((trackedHandshake cw c).Messages 1).isSome || decide (packetMessage p = 2)) ∧
    (trackedHandshake (checkEAPOL cw p).1 c).Complete =
      (((trackedHandshake (checkEAPOL cw p).1 c).Messages 0).isSome &&
        ((trackedHandshake (checkEAPOL cw p).1 c).Messages 1).isSome) ∧
    (checkEAPOL cw p).2.isSome =
      ((trackedHandshake (checkEAPOL cw p).1 c).Complete && !(trackedHandshake cw c).Complete &&
        cw.onHandshake) := by
  obtain ⟨ek, d11, el⟩ := p
  cases ek with
  | none => simp [packetClient] at hc
  | some data =>
    cases d11 with
    | none => simp [packetClient] at hc
    | some dot11 =>
      have hcl : clientMACOf dot11 = some c := by simpa [packetClient] using hc
      by_cases hlen : data.length < 99
      · have hpm : packetMessage ⟨some data, some dot11, el⟩ = 0 := by
          simp [packetMessage, ParseEAPOLKeyFrame, hlen, HandshakeMsgUnknown]
        have hce : checkEAPOL cw ⟨some data, some dot11, el⟩ = (cw, none) := by
          simp [checkEAPOL, hcl, hlen]
        rw [hce, hpm]
        refine ⟨rfl, by simp, by simp, hinv, ?_⟩
        generalize (trackedHandshake cw c).Complete = b
        cases b <;> rfl
      · obtain ⟨f, hf⟩ := (ParseEAPOLKeyFrame_error_iff data).2.2 (by omega)
        have hpm : packetMessage ⟨some data, some dot11, el⟩ = MessageNumber f := by
          simp [packetMessage, hf]
        by_cases hu : MessageNumber f = HandshakeMsgUnknown
        · have hce : checkEAPOL cw ⟨some data, some dot11, el⟩ = (cw, none) := by
            simp [checkEAPOL, hcl, hlen, hf, hu]
          rw [hce, hpm, hu]
          refine ⟨rfl, by simp [HandshakeMsgUnknown], by simp [HandshakeMsgUnknown], hinv, ?_⟩
          generalize (trackedHandshake cw c).Complete = b
          cases b <;> rfl
        · obtain ⟨raw, hce⟩ := checkEAPOL_accepted cw data dot11 el c f hcl hf hu
          have hnew : trackedHandshake (checkEAPOL cw ⟨some data, some dot11, el⟩).1 c =
              AddMessage (trackedHandshake cw c) (MessageNumber f) (some f) raw := by
            rw [hce]
            simp [trackedHandshake]
          have hlaunch : (checkEAPOL cw ⟨some data, some dot11, el⟩).2.isSome =
              ((AddMessage (trackedHandshake cw c) (MessageNumber f) (some f) raw).Complete &&
                !(trackedHandshake cw c).Complete && cw.onHandshake) := by
            rw [hce]
            split
            · rename_i h
              rw [h]; rfl
            · rename_i h
              simp only [Bool.not_eq_true] at h
              rw [h]; rfl
          have hcb : (checkEAPOL cw ⟨some data, some dot11, el⟩).1.onHandshake = cw.onHandshake := by
            rw [hce]
          rw [hnew, hlaunch, hpm]
          have s0 := AddMessage_slots (trackedHandshake cw c) (MessageNumber f) (some f) raw 0
          have s1 := AddMessage_slots (trackedHandshake cw c) (MessageNumber f) (some f) raw 1
          have hC := AddMessage_Complete (trackedHandshake cw c) (MessageNumber f) (some f) raw
          rw [s0, s1] at hC
          rw [hC, s0, s1, hinv]
          have hr := MessageNumber_range f
          simp only [HandshakeMsgUnknown] at hu
          generalize ((trackedHandshake cw c).Messages 0) = m0
          generalize ((trackedHandshake cw c).Messages 1) = m1
          refine ⟨hcb, ?_⟩
          rcases hr with h | h | h | h | h
          · exact absurd h hu
          all_goals
            rw [h]
            cases m0 <;> cases m1 <;> cases cw.onHandshake <;> simp

theorem feedPackets_cons (cw : CaptureWriter) (p : Packet) (ps : List Packet) :
    feedPackets cw (p :: ps) =
      ((feedPackets (checkEAPOL cw p).1 ps).1,
        (checkEAPOL cw p).2 :: (feedPackets (checkEAPOL cw p).1 ps).2) := rfl

theorem launchCount_cons (l : Option FourWayHandshake) (ls : List (Option FourWayHandshake)) :
    launchCount (l :: ls) = l.isSome.toNat + launchCount ls := by
  unfold launchCount
  cases l <;> simp [List.filter_cons]; omega

/-- The launches of a run on packets of one client, from a state in which the
flag of the client's handshake is the conjunction of its M1 and M2 slots. -/
theorem feedPackets_launches (c : String) :
    ∀ (ps : List Packet) (cw : CaptureWriter),
      (∀ p ∈ ps, packetClient p = some c) →
      (trackedHandshake cw c).Complete =
        (((trackedHandshake cw c).Messages 0).isSome &&
          ((trackedHandshake cw c).Messages 1).isSome) →
      launchCount (feedPackets cw ps).2 =
        (!(trackedHandshake cw c).Complete &&
            (((trackedHandshake cw c).Messages 0).isSome ||
              ps.any (fun p => decide (packetMessage p = 1))) &&
            (((trackedHandshake cw c).Messages 1).isSome ||
              ps.any (fun p => decide (packetMessage p = 2))) &&
            cw.onHandshake).toNat ∧
      ∀ k, k < ps.length →
        ((feedPackets cw ps).2.getD k none).isSome =
          ((((trackedHandshake cw c).Messages 0).isSome ||
              (ps.take (k + 1)).any (fun p => decide (packetMessage p = 1))) &&
            (((trackedHandshake cw c).Messages 1).isSome ||
              (ps.take (k + 1)).any (fun p => decide (packetMessage p = 2))) &&
            !((((trackedHandshake cw c).Messages 0).isSome ||
                (ps.take k).any (fun p => decide (packetMessage p = 1))) &&
              (((trackedHandshake cw c).Messages 1).isSome ||
                (ps.take k).any (fun p => decide (packetMessage p = 2)))) &&
            cw.onHandshake) := by
  intro ps
  induction ps with
  | nil =>
    intro cw _ hinv
    refine ⟨?_, fun k hk => absurd hk (Nat.not_lt_zero k)⟩
    rw [hinv]
    simp only [feedPackets, launchCount, List.filter_nil, List.length_nil, List.any_nil,
      Bool.or_false]
    cases ((trackedHandshake cw c).Messages 0).isSome <;>
      cases ((trackedHandshake cw c).Messages 1).isSome <;> rfl
  | cons p ps ih =>
    intro cw hcl hinv
    obtain ⟨hcb, h0, h1, hinv2, hl⟩ :=
      checkEAPOL_step cw p c (hcl p (List.mem_cons_self _ _)) hinv
    obtain ⟨ihc, ihk⟩ := ih (checkEAPOL cw p).1 (fun q hq => hcl q (List.mem_cons_of_mem _ hq)) hinv2
    rw [feedPackets_cons]
    constructor
    · rw [launchCount_cons, ihc, hl, hinv2, h0, h1, hcb, hinv]
      simp only [List.any_cons]
      cases ((trackedHandshake cw c).Messages 0).isSome <;>
        cases ((trackedHandshake cw c).Messages 1).isSome <;>
        cases decide (packetMessage p = 1) <;> cases decide (packetMessage p = 2) <;>
        cases ps.any (fun p => decide (packetMessage p = 1)) <;>
        cases ps.any (fun p => decide (packetMessage p = 2)) <;>
        cases cw.onHandshake <;> rfl
    · intro k hk
      cases k with
      | zero =>
        show (checkEAPOL cw p).2.isSome = _
        rw [hl, hinv2, h0, h1, hinv]
        simp only [List.take_succ_cons, List.take_zero, List.any_cons, List.any_nil,
          Bool.or_false]
      | succ k =>
        have hk2 : k < ps.length := by simpa using hk
        show ((feedPackets (checkEAPOL cw p).1 ps).2.getD k none).isSome = _
        rw [ihk k hk2, h0, h1, hcb]
        simp only [List.take_succ_cons, List.any_cons, Bool.or_assoc]

theorem trackerSeesM1AndM2_iff (ps : List Packet) :
    trackerSeesM1AndM2 ps ↔
      (ps.any (fun p => decide (packetMessage p = 1)) &&
        ps.any (fun p => decide (packetMessage p = 2))) = true := by
  simp [trackerSeesM1AndM2, HandshakeMsg1, HandshakeMsg2]

/-- On a sequence of packets of one client, fed in order to `checkEAPOL` from a
state with a registered callback and no handshake yet for the client, the
callback is launched at most once; it is launched exactly once when the
tracker takes a packet of the sequence for a message 1 and one for a message
2, and then at the packet that first makes both present: the call on packet
`k` launches it exactly when the tracker has seen both in the first `k + 1`
packets and not in the first `k`. -/
theorem onHandshake_launched_once (cw : CaptureWriter) (c : String) (ps : List Packet)
    (hcallback : cw.onHandshake = true) (hnew : cw.handshakes c = none)
    (hclient : ∀ p ∈ ps, packetClient p = some c) :
    launchCount (feedPackets cw ps).2 ≤ 1 ∧
    (launchCount (feedPackets cw ps).2 = 1 ↔ trackerSeesM1AndM2 ps) ∧
    (∀ k, k < ps.length →
      (((feedPackets cw ps).2.getD k none).isSome = true ↔
        trackerSeesM1AndM2 (ps.take (k + 1)) ∧ ¬ trackerSeesM1AndM2 (ps.take k))) := by
  have hth : trackedHandshake cw c = NewFourWayHandshake := by
    simp [trackedHandshake, hnew]
  obtain ⟨hcount, hpos⟩ := feedPackets_launches c ps cw hclient (by rw [hth]; rfl)
  rw [hth, hcallback] at hcount hpos
  simp only [NewFourWayHandshake, Option.isSome_none, Bool.false_or, Bool.not_false,
    Bool.true_and, Bool.and_true] at hcount hpos
  refine ⟨?_, ?_, ?_⟩
  · rw [hcount]
    exact Bool.toNat_le _
  · rw [hcount, trackerSeesM1AndM2_iff]
    cases (ps.any (fun p => decide (packetMessage p = 1)) &&
      ps.any (fun p => decide (packetMessage p = 2))) <;> simp
  · intro k hk
    rw [hpos k hk, trackerSeesM1AndM2_iff, trackerSeesM1AndM2_iff]
    simp only [Bool.and_eq_true, Bool.not_eq_true', Bool.not_eq_true]
    constructor
    · rintro ⟨h1, h2⟩
      refine ⟨h1, ?_⟩
      rw [← Bool.and_eq_true, h2]
      exact Bool.false_ne_true
    · rintro ⟨h1, h2⟩
      refine ⟨h1, ?_⟩
      rw [← Bool.and_eq_true] at h2
      simpa using h2

/-! ## The order on addresses and nonces -/

theorem beUint_foldl (l : List Byte) (acc : Nat) :
    l.foldl (fun acc b => acc * 256 + b.val) acc = acc * 256 ^ l.length + beUint l := by
  induction l generalizing acc with
  | nil => simp [beUint]
  | cons x xs ih =>
    simp only [beUint, List.foldl_cons, List.length_cons]
    rw [ih, ih (0 * 256 + x.val)]
    ring

theorem beUint_cons (x : Byte) (l : List Byte) :
    beUint (x :: l) = x.val * 256 ^ l.length + beUint l := by
  show List.foldl _ (0 * 256 + x.val) l = _
  rw [beUint_foldl]
  simp

theorem beUint_lt (l : List Byte) : beUint l < 256 ^ l.length := by
  induction l with
  | nil => simp [beUint]
  | cons x xs ih =>
    rw [beUint_cons, List.length_cons, pow_succ]
    have hx := x.isLt
    have : x.val * 256 ^ xs.length + 256 ^ xs.length ≤ 256 * 256 ^ xs.length := by
      have := Nat.mul_le_mul_right (256 ^ xs.length) (show x.val + 1 ≤ 256 by omega)
      linarith
    linarith

theorem lex_cons_iff (x y : Byte) (a b : List Byte) :
    x :: a < y :: b ↔ x < y ∨ (x = y ∧ a < b) := by
  constructor
  · intro h
    cases h with
    | cons h => exact Or.inr ⟨rfl, h⟩
    | rel h => exact Or.inl h
  · rintro (h | ⟨rfl, h⟩)
    · exact List.Lex.rel h
    · exact List.Lex.cons h

theorem lex_iff_beUint : ∀ (a b : List Byte), a.length = b.length →
    (a < b ↔ beUint a < beUint b) := by
  intro a
  induction a with
  | nil =>
    intro b hb
    cases b with
    | nil => simp [beUint]
    | cons y ys => simp at hb
  | cons x xs ih =>
    intro b hb
    cases b with
    | nil => simp at hb
    | cons y ys =>
      have hl : xs.length = ys.length := by simpa using hb
      rw [lex_cons_iff, ih ys hl, beUint_cons, beUint_cons, hl]
      have h1 := beUint_lt xs
      have h2 := beUint_lt ys
      rw [hl] at h1
      generalize 256 ^ ys.length = N at *
      generalize beUint xs = A at *
      generalize beUint ys = B at *
      rw [Fin.lt_def, Fin.ext_iff]
      generalize x.val = u
      generalize y.val = v
      constructor
      · rintro (h | ⟨rfl, h⟩)
        · have := Nat.mul_le_mul_right N (show u + 1 ≤ v from h)
          linarith
        · omega
      · intro h
        rcases Nat.lt_trichotomy u v with h3 | h3 | h3
        · exact Or.inl h3
        · subst h3
          exact Or.inr ⟨rfl, by omega⟩
        · exfalso
          have := Nat.mul_le_mul_right N (show v + 1 ≤ u from h3)
          linarith

theorem bytesLess_eq_lex : ∀ (a b : List Byte), a.length = b.length →
    bytesLess a b = some (decide (a < b)) := by
  intro a
  induction a with
  | nil =>
    intro b hb
    cases b with
    | nil => simp [bytesLess]
    | cons y ys => simp at hb
  | cons x xs ih =>
    intro b hb
    cases b with
    | nil => simp at hb
    | cons y ys =>
      have hl : xs.length = ys.length := by simpa using hb
      unfold bytesLess
      by_cases h1 : x < y
      · simp [h1, lex_cons_iff]
      · by_cases h2 : x > y
        · have hne : x ≠ y := fun h => by subst h; exact h1 h2
          simp [h1, h2, lex_cons_iff, hne]
        · have heq : x = y := le_antisymm (not_lt.1 h2) (not_lt.1 h1)
          subst heq
          simp [ih ys hl, lex_cons_iff]

theorem macLess_eq_lex (a b : List Byte) (ha : a.length = 6) (hb : b.length = 6) :
    macLess a b = some (decide (a < b)) := by
  have hsa : slice a 0 6 = a := by
    simp [slice, ← ha]
  have hsb : slice b 0 6 = b := by
    simp [slice, ← hb]
  have hta : ∀ l : List Byte, l.length = 6 → beUint (([0, 0] ++ l).take 8) = beUint l := by
    intro l hl
    rw [List.take_of_length_le (by simp [hl])]
    show beUint (0 :: 0 :: l) = _
    rw [beUint_cons, beUint_cons]
    simp
  have hn : ¬ (a.length < 6 ∨ b.length < 6) := by omega
  simp only [macLess, hn, if_false, hsa, hsb, hta a ha, hta b hb]
  congr 1
  exact decide_eq_decide.2 (lex_iff_beUint a b (by omega)).symm

/-- C9. On 6-octet addresses `macLess`, which compares the addresses
zero-extended to big-endian 64-bit integers, agrees with `bytesLess` and is the
lexicographic order of unsigned octets; it is a strict total order:
irreflexive, for distinct addresses exactly one of `macLess a b` and
`macLess b a` holds, and it is transitive. -/
theorem macLess_is_lexicographic (a b c : Mathlib.Vector Byte 6) :
    macLess a.toList b.toList = bytesLess a.toList b.toList ∧
    macLess a.toList b.toList = some (decide (a.toList < b.toList)) ∧
    macLess a.toList a.toList = some false ∧
    (a ≠ b →
      (macLess a.toList b.toList = some true ∧ macLess b.toList a.toList = some false) ∨
      (macLess a.toList b.toList = some false ∧ macLess b.toList a.toList = some true)) ∧
    (macLess a.toList b.toList = some true → macLess b.toList c.toList = some true →
      macLess a.toList c.toList = some true) := by
  have hab := macLess_eq_lex a.toList b.toList a.toList_length b.toList_length
  have hba := macLess_eq_lex b.toList a.toList b.toList_length a.toList_length
  have hbc := macLess_eq_lex b.toList c.toList b.toList_length c.toList_length
  have hac := macLess_eq_lex a.toList c.toList a.toList_length c.toList_length
  have haa := macLess_eq_lex a.toList a.toList a.toList_length a.toList_length
  refine ⟨?_, hab, ?_, ?_, ?_⟩
  · rw [hab, bytesLess_eq_lex a.toList b.toList (by rw [a.toList_length, b.toList_length])]
  · rw [haa]
    simp
  · intro hne
    have hne2 : a.toList ≠ b.toList := fun h => hne (Mathlib.Vector.toList_injective h)
    rw [hab, hba]
    rcases lt_trichotomy a.toList b.toList with h | h | h
    · left
      simp [h, le_of_lt h]
    · exact absurd h hne2
    · right
      simp [h, le_of_lt h]
  · rw [hab, hbc, hac]
    intro h1 h2
    simp only [Option.some.injEq, decide_eq_true_eq] at h1 h2 ⊢
    exact lt_trans h1 h2

theorem macLess_is_lexicographic_witness :
    sampleSPA ≠ sampleAA ∧
    ((macLess sampleSPA.toList sampleAA.toList = some true ∧
        macLess sampleAA.toList sampleSPA.toList = some false) ∨
      (macLess sampleSPA.toList sampleAA.toList = some false ∧
        macLess sampleAA.toList sampleSPA.toList = some true)) :=
  ⟨by decide, (macLess_is_lexicographic sampleSPA sampleAA sampleAA).2.2.2.1 (by decide)⟩

/-! ## The pairwise transient key -/

theorem copyInto_at (pre rest src : List Byte) (lo hi : Nat) (hlo : pre.length = lo)
    (hhi : lo + src.length = hi) (h : src.length ≤ rest.length) :
    copyInto (pre ++ rest) lo hi src = pre ++ src ++ rest.drop src.length := by
  subst hlo
  subst hhi
  have h1 : (pre ++ rest).take pre.length = pre := by simp
  have h2 : slice (pre ++ rest) pre.length (pre.length + src.length) = rest.take src.length := by
    simp [slice]
  have h3 : (pre ++ rest).drop (pre.length + src.length) = rest.drop src.length := by
    rw [← List.drop_drop]
    simp
  have h4 : copySlice (rest.take src.length) src = src := by
    simp [copySlice, List.length_take, Nat.min_eq_left h]
  rw [copyInto, h1, h2, h3, h4]

theorem DerivePTK_block_eq (a b c d : List Byte) (ha : a.length = 6) (hb : b.length = 6)
    (hc : c.length = 32) (hd : d.length = 32) :
    copyInto (copyInto (copyInto (copyInto (zeroArr 76).toList 0 6 a) 6 12 b) 12 44 c) 44 76 d =
      a ++ b ++ c ++ d := by
  have hz : (zeroArr 76).toList = [] ++ List.replicate 76 (0 : Byte) := rfl
  rw [hz, copyInto_at [] _ a 0 6 rfl (by simp [ha]) (by simp [ha]), ha, List.drop_replicate,
    List.nil_append,
    copyInto_at a _ b 6 12 ha (by simp [hb]) (by simp [hb]), hb, List.drop_replicate,
    copyInto_at (a ++ b) _ c 12 44 (by simp [ha, hb]) (by simp [hc]) (by simp [hc]), hc,
    List.drop_replicate,
    copyInto_at (a ++ b ++ c) _ d 44 76 (by simp [ha, hb, hc]) (by simp [hd]) (by simp [hd]), hd,
    List.drop_replicate]
  simp

theorem lex_min_max (a b : List Byte) :
    (if decide (a < b) = true then a ++ b else b ++ a) = min a b ++ max a b := by
  by_cases h : a < b
  · simp [h, min_eq_left (le_of_lt h), max_eq_right (le_of_lt h)]
  · have h2 : b ≤ a := not_lt.1 h
    simp [h, min_eq_right h2, max_eq_left h2]

theorem DerivePTKData_eq (aa spa : Mathlib.Vector Byte 6) (aNonce sNonce : Mathlib.Vector Byte 32) :
    DerivePTKData aa spa aNonce sNonce =
      some (min aa.toList spa.toList ++ max aa.toList spa.toList ++
        (min aNonce.toList sNonce.toList ++ max aNonce.toList sNonce.toList)) := by
  have hm := macLess_eq_lex aa.toList spa.toList aa.toList_length spa.toList_length
  have hn := bytesLess_eq_lex aNonce.toList sNonce.toList
    (by rw [aNonce.toList_length, sNonce.toList_length])
  rw [← lex_min_max, ← lex_min_max]
  simp only [DerivePTKData, hm, hn]
  have e := fun a b c d ha hb hc hd => DerivePTK_block_eq a b c d ha hb hc hd
  by_cases h1 : aa.toList < spa.toList <;> by_cases h2 : aNonce.toList < sNonce.toList <;>
    simp only [h1, h2, decide_True, decide_False, if_true, if_false, Bool.false_eq_true] <;>
    rw [e _ _ _ _ (Mathlib.Vector.toList_length _) (Mathlib.Vector.toList_length _)
      (Mathlib.Vector.toList_length _) (Mathlib.Vector.toList_length _)] <;>
    simp only [List.append_assoc]

/-- C7. The block that `DerivePTK` passes to `prf512` has 76 octets; its octets
0..11 are the smaller of the two addresses followed by the larger, its octets
12..75 the smaller of the two nonces followed by the larger, smaller and larger
being taken in the lexicographic order of unsigned octets. -/
theorem DerivePTK_data_block (aa spa : Mathlib.Vector Byte 6)
    (aNonce sNonce : Mathlib.Vector Byte 32) :
    ∃ data : List Byte,
      DerivePTKData aa spa aNonce sNonce = some data ∧
      (∀ pmk, DerivePTK pmk aa spa aNonce sNonce = some (prf512 pmk pairwiseKeyExpansion data)) ∧
      data.length = 76 ∧
      data.take 12 = min aa.toList spa.toList ++ max aa.toList spa.toList ∧
      data.drop 12 = min aNonce.toList sNonce.toList ++ max aNonce.toList sNonce.toList := by
  have hlen : ∀ {n : Nat} (x y : Mathlib.Vector Byte n),
      (min x.toList y.toList ++ max x.toList y.toList).length = n + n := by
    intro n x y
    rw [← lex_min_max]
    split <;> simp
  refine ⟨_, DerivePTKData_eq aa spa aNonce sNonce, ?_, ?_, ?_, ?_⟩
  · intro pmk
    simp only [DerivePTK, DerivePTKData_eq]
  · rw [List.length_append, hlen, hlen]
  · rw [List.take_append_of_le_length (by rw [hlen]), List.take_of_length_le (by rw [hlen])]
  · rw [List.drop_append_of_le_length (by rw [hlen]), List.drop_of_length_le (by rw [hlen])]
    rfl

/-- C8. `DerivePTK` returns a key and is symmetric in its address pair and in
its nonce pair, for all arguments, equal addresses or equal nonces included. -/
theorem DerivePTK_symmetric (pmk : List Byte) (aa spa : Mathlib.Vector Byte 6)
    (aNonce sNonce : Mathlib.Vector Byte 32) :
    (DerivePTK pmk aa spa aNonce sNonce).isSome = true ∧
    DerivePTK pmk aa spa aNonce sNonce = DerivePTK pmk spa aa aNonce sNonce ∧
    DerivePTK pmk aa spa aNonce sNonce = DerivePTK pmk aa spa sNonce aNonce := by
  simp only [DerivePTK, DerivePTKData_eq, Option.isSome_some, true_and]
  constructor
  · rw [min_comm aa.toList, max_comm aa.toList]
  · rw [min_comm aNonce.toList, max_comm aNonce.toList]

/-! ## PRF-512 -/

theorem beBytes_length (n v : Nat) : (beBytes n v).length = n := by
  induction n generalizing v with
  | zero => rfl
  | succ n ih => simp [beBytes, ih]

theorem sha1Sum_length (msg : List Byte) : (sha1Sum msg).length = 20 := by
  simp [sha1Sum, beBytes_length]

theorem hmacSHA1_length (key msg : List Byte) : (hmacSHA1 key msg).length = 20 := by
  simp only [hmacSHA1, sha1Sum_length]

theorem prf512Iterations_eq : prf512Iterations = 4 := by
  unfold prf512Iterations PTKLength sha1Size
  rw [Nat.ceil_eq_iff (by norm_num)]
  norm_num

theorem prf512Loop_four (key pfx data : List Byte) :
    prf512Loop key pfx data 4 0 [] =
      (4, hmacSHA1 key (pfx ++ data ++ [0]) ++ hmacSHA1 key (pfx ++ data ++ [1]) ++
        hmacSHA1 key (pfx ++ data ++ [2]) ++ hmacSHA1 key (pfx ++ data ++ [3])) := by
  rw [prf512Loop, if_pos (by norm_num), prf512Loop, if_pos (by norm_num), prf512Loop,
    if_pos (by norm_num), prf512Loop, if_pos (by norm_num), prf512Loop, if_neg (by norm_num)]
  simp only [prf512Step, List.nil_append]
  rfl

/-- C10. For every key, label and data `prf512` returns exactly 64 octets, the
first 64 of `H(0) ++ H(1) ++ H(2) ++ H(3)` with
`H(i) = HMAC-SHA1(key, label ++ [0x00] ++ data ++ [i])` and a one-octet
counter; the iteration count is 4 and the loop leaves with counter 4 after
appending these four digests, each built from the same label and data. -/
theorem prf512_spec (key label data : List Byte) :
    (prf512 key label data).length = 64 ∧
    prf512 key label data =
      (hmacSHA1 key (label ++ [0x00] ++ data ++ [0]) ++
        hmacSHA1 key (label ++ [0x00] ++ data ++ [1]) ++
        hmacSHA1 key (label ++ [0x00] ++ data ++ [2]) ++
        hmacSHA1 key (label ++ [0x00] ++ data ++ [3])).take 64 ∧
    prf512Iterations = 4 ∧
    prf512Loop key (label ++ [0x00]) data prf512Iterations 0 [] =
      (4, hmacSHA1 key (label ++ [0x00] ++ data ++ [0]) ++
        hmacSHA1 key (label ++ [0x00] ++ data ++ [1]) ++
        hmacSHA1 key (label ++ [0x00] ++ data ++ [2]) ++
        hmacSHA1 key (label ++ [0x00] ++ data ++ [3])) := by
  have hp : prf512 key label data =
      (hmacSHA1 key (label ++ [0x00] ++ data ++ [0]) ++
        hmacSHA1 key (label ++ [0x00] ++ data ++ [1]) ++
        hmacSHA1 key (label ++ [0x00] ++ data ++ [2]) ++
        hmacSHA1 key (label ++ [0x00] ++ data ++ [3])).take 64 := by
    simp only [prf512, prf512Iterations_eq, prf512Loop_four, slice, PTKLength, List.drop_zero,
      Nat.sub_zero]
  refine ⟨?_, hp, prf512Iterations_eq, ?_⟩
  · rw [hp]
    simp [hmacSHA1_length]
  · rw [prf512Iterations_eq, prf512Loop_four]

/-! ## Verification of a passphrase -/

theorem nat_lor_eq_zero (a b : Nat) : a ||| b = 0 ↔ a = 0 ∧ b = 0 := by
  constructor
  · intro h
    constructor
    · apply Nat.eq_of_testBit_eq
      intro i
      have := congrArg (fun n => Nat.testBit n i) h
      simp only [Nat.testBit_or, Nat.zero_testBit, Bool.or_eq_false_iff] at this
      simp [this.1]
    · apply Nat.eq_of_testBit_eq
      intro i
      have := congrArg (fun n => Nat.testBit n i) h
      simp only [Nat.testBit_or, Nat.zero_testBit, Bool.or_eq_false_iff] at this
      simp [this.2]
  · rintro ⟨rfl, rfl⟩
    rfl

theorem ctc_foldl_eq_zero : ∀ (x y : List Byte) (acc : Nat), x.length = y.length →
    ((List.zip x y).foldl (fun v p => v ||| (p.1.val ^^^ p.2.val)) acc = 0 ↔
      acc = 0 ∧ x = y) := by
  intro x
  induction x with
  | nil =>
    intro y acc h
    cases y with
    | nil => simp
    | cons b bs => simp at h
  | cons a as ih =>
    intro y acc h
    cases y with
    | nil => simp at h
    | cons b bs =>
      have hl : as.length = bs.length := by simpa using h
      simp only [List.zip_cons_cons, List.foldl_cons]
      rw [ih bs _ hl, nat_lor_eq_zero, Nat.xor_eq_zero]
      constructor
      · rintro ⟨⟨h1, h2⟩, h3⟩
        exact ⟨h1, by rw [Fin.ext h2, h3]⟩
      · rintro ⟨h1, h2⟩
        injection h2 with h3 h4
        exact ⟨⟨h1, by rw [h3]⟩, h4⟩

theorem hmacEqual_iff (a b : List Byte) : hmacEqual a b = true ↔ a = b := by
  unfold hmacEqual constantTimeCompare
  by_cases hl : a.length = b.length
  · simp only [hl, ne_eq, not_true_eq_false, if_false]
    have := ctc_foldl_eq_zero a b 0 hl
    simp only [true_and] at this
    by_cases hv : (List.zip a b).foldl (fun v p => v ||| (p.1.val ^^^ p.2.val)) 0 = 0
    · have hab := this.1 hv
      subst hab
      simp [hv]
    · have hne : a ≠ b := fun h => hv (this.2 h)
      simp [hv, hne]
  · have hne : a ≠ b := fun h => hl (by rw [h])
    simp [hl, hne]

theorem prf512_length (key label data : List Byte) : (prf512 key label data).length = 64 := by
  simp only [prf512, prf512Iterations_eq, prf512Loop_four, slice, PTKLength, List.drop_zero,
    Nat.sub_zero]
  simp [hmacSHA1_length]

/-- C11. `VerifyPassphrase` returns a value, and it returns true exactly when
`mic` equals the first 16 octets of `HMAC-SHA1(KCK, frame)`, where KCK is the
first 16 octets of the key that `DerivePTK` derives from `DerivePMK`; in
particular it returns false whenever `mic` does not have exactly 16 octets. -/
theorem VerifyPassphrase_iff (passphrase ssid : List Byte) (aa spa : Mathlib.Vector Byte 6)
    (aNonce sNonce : Mathlib.Vector Byte 32) (frame mic : List Byte) :
    ∃ ptk : List Byte,
      DerivePTK (DerivePMK passphrase ssid) aa spa aNonce sNonce = some ptk ∧
      VerifyPassphrase passphrase ssid aa spa aNonce sNonce frame mic =
        some (decide (mic = (hmacSHA1 (ptk.take 16) frame).take 16)) ∧
      (mic.length ≠ 16 →
        VerifyPassphrase passphrase ssid aa spa aNonce sNonce frame mic = some false) := by
  obtain ⟨ptk, hptk⟩ : ∃ ptk, DerivePTK (DerivePMK passphrase ssid) aa spa aNonce sNonce =
      some ptk := by
    simp only [DerivePTK, DerivePTKData_eq]
    exact ⟨_, rfl⟩
  have hv : VerifyPassphrase passphrase ssid aa spa aNonce sNonce frame mic =
      some (decide (mic = (hmacSHA1 (ptk.take 16) frame).take 16)) := by
    simp only [VerifyPassphrase, VerifyMIC, hptk, ComputeMIC, slice, MICLength, List.drop_zero,
      Nat.sub_zero, Option.some.injEq]
    rw [Bool.eq_iff_iff, hmacEqual_iff]
    simp only [decide_eq_true_eq]
    exact eq_comm
  refine ⟨ptk, hptk, hv, ?_⟩
  intro hlen
  rw [hv]
  have hne : mic ≠ (hmacSHA1 (ptk.take 16) frame).take 16 := by
    intro h
    apply hlen
    rw [h]
    simp [hmacSHA1_length]
  simp [hne]

theorem VerifyPassphrase_iff_witness :
    ([0x33, 0x33] : List Byte).length ≠ 16 ∧
    VerifyPassphrase (stringBytes "password") (stringBytes "Network") sampleAA sampleSPA
      (zeroArr 32) (zeroArr 32) sampleM2 [0x33, 0x33] = some false :=
  ⟨by decide,
    (VerifyPassphrase_iff (stringBytes "password") (stringBytes "Network") sampleAA sampleSPA
      (zeroArr 32) (zeroArr 32) sampleM2 [0x33, 0x33]).choose_spec.2.2 (by decide)⟩

/-! ## The wordlist producer -/

theorem workerStep_frame (verify : List Byte → Bool) (s : CrackState) (i : Nat) :
    (workerStep verify s i).lines = s.lines ∧ (workerStep verify s i).sent = s.sent ∧
    (workerStep verify s i).producer = s.producer := by
  unfold workerStep
  split
  · exact ⟨rfl, rfl, rfl⟩
  · split
    · exact ⟨rfl, rfl, rfl⟩
    · split <;> exact ⟨rfl, rfl, rfl⟩
  · split <;> exact ⟨rfl, rfl, rfl⟩
  · split <;> exact ⟨rfl, rfl, rfl⟩
  · exact ⟨rfl, rfl, rfl⟩

theorem validLength_eq (word : List Byte) :
    validLength word = !decide (word.length < 8 ∨ word.length > 63) := by
  unfold validLength
  by_cases h : word.length < 8 ∨ word.length > 63
  · have : ¬ (8 ≤ word.length ∧ word.length ≤ 63) := by omega
    simp [h, this]
  · have : 8 ≤ word.length ∧ word.length ≤ 63 := by omega
    simp [h, this]

theorem drop_eq_cons_iff (lines : List (List Byte)) (k : Nat) (word : List Byte)
    (rest : List (List Byte)) (h : lines.drop k = word :: rest) :
    k < lines.length ∧ lines.drop (k + 1) = rest ∧
      lines.take (k + 1) = lines.take k ++ [word] := by
  have hk2 : k < lines.length := by
    by_contra hc
    rw [List.drop_eq_nil_of_le (by omega)] at h
    exact List.noConfusion h
  have h2 := List.drop_eq_getElem_cons hk2
  rw [h] at h2
  injection h2 with h3 h4
  refine ⟨hk2, h4.symm, ?_⟩
  rw [List.take_succ, List.getElem?_eq_getElem hk2, ← h3]
  rfl

theorem producerStep_inv (lines : List (List Byte)) (s : CrackState) (k : Nat)
    (h : ProducerInv lines s k) : ∃ k2, ProducerInv lines (producerStep s) k2 := by
  obtain ⟨hk, hs, hp⟩ := h
  obtain ⟨ls, producer, wordCh, capacity, closed, found, workers, ctxDone, sent, tested,
    received⟩ := s
  simp only at hs hp
  cases producer with
  | scanning =>
    simp only at hp
    simp only [pendingWord, List.append_nil] at hs
    cases ls with
    | nil =>
      refine ⟨k, hk, by simpa [producerStep, pendingWord] using hs, Or.inl ?_⟩
      have := congrArg List.length hp
      simp only [List.length_nil, List.length_drop] at this
      omega
    | cons word rest =>
      obtain ⟨hk2, hdrop, htake⟩ := drop_eq_cons_iff lines k word rest hp.symm
      cases ctxDone with
      | true => exact ⟨k, hk, by simpa [producerStep, pendingWord] using hs, trivial⟩
      | false =>
        cases found with
        | some w =>
          exact ⟨k, hk, by simpa [producerStep, pendingWord] using hs, Or.inr rfl⟩
        | none =>
          have hv := validLength_eq word
          by_cases hlen : word.length < 8 ∨ word.length > 63
          · simp only [hlen, decide_True, Bool.not_true] at hv
            refine ⟨k + 1, hk2, ?_, ?_⟩
            · simp only [producerStep, hlen, if_true, Bool.false_eq_true, if_false,
                Option.isSome_none, pendingWord, List.append_nil]
              rw [htake, List.filter_append, ← hs]
              simp [List.filter_cons, hv]
            · simp only [producerStep, hlen, if_true, Bool.false_eq_true, if_false,
                Option.isSome_none]
              exact hdrop.symm
          · simp only [hlen, decide_False, Bool.not_false] at hv
            refine ⟨k + 1, hk2, ?_, ?_⟩
            · simp only [producerStep, hlen, if_false, Bool.false_eq_true, Option.isSome_none,
                pendingWord]
              rw [htake, List.filter_append, ← hs]
              simp [List.filter_cons, hv]
            · simp only [producerStep, hlen, if_false, Bool.false_eq_true, Option.isSome_none]
              exact hdrop.symm
  | sending word =>
    simp only at hp
    simp only [pendingWord] at hs
    by_cases hc : wordCh.length < capacity
    · exact ⟨k, hk, by simpa [producerStep, pendingWord, hc] using hs,
        by simpa [producerStep, hc] using hp⟩
    · exact ⟨k, hk, by simpa [producerStep, pendingWord, hc] using hs,
        by simpa [producerStep, hc] using hp⟩
  | closing => exact ⟨k, hk, by simpa [producerStep, pendingWord] using hs, hp⟩
  | waiting =>
    simp only at hp
    simp only [pendingWord, List.append_nil] at hs
    by_cases hc : allExited workers = true
    · cases found with
      | some w => exact ⟨k, hk, by simpa [producerStep, pendingWord, hc] using hs,
          by simp [producerStep, hc]⟩
      | none =>
        refine ⟨k, hk, by simpa [producerStep, pendingWord, hc] using hs, ?_⟩
        simp only [producerStep, hc, if_true]
        intro _
        rcases hp with hp | hp
        · exact hp
        · exact absurd hp (by simp)
    · exact ⟨k, hk, by simpa [producerStep, pendingWord, hc] using hs,
        by simpa [producerStep, hc] using hp⟩
  | waitingCancelled =>
    simp only [pendingWord, List.append_nil] at hs
    by_cases hc : allExited workers = true
    · refine ⟨k, hk, by simpa [producerStep, pendingWord, hc] using hs, ?_⟩
      simp only [producerStep, hc, if_true]
      intro he
      exact absurd he (by decide)
    · exact ⟨k, hk, by simpa [producerStep, pendingWord, hc] using hs,
        by simp [producerStep, hc]⟩
  | returned r => exact ⟨k, hk, hs, hp⟩

theorem workerStep_found (verify : List Byte → Bool) (s : CrackState) (i : Nat)
    (h : s.found.isSome = true) : (workerStep verify s i).found.isSome = true := by
  unfold workerStep
  split
  · exact h
  · split
    · exact h
    · split <;> exact h
  · split <;> exact h
  · split
    · rfl
    · exact h
  · exact h

theorem workerStep_inv (verify : List Byte → Bool) (lines : List (List Byte)) (s : CrackState)
    (i k : Nat) (h : ProducerInv lines s k) : ProducerInv lines (workerStep verify s i) k := by
  obtain ⟨hk, hs, hp⟩ := h
  obtain ⟨h1, h2, h3⟩ := workerStep_frame verify s i
  refine ⟨hk, by rw [h2, h3]; exact hs, ?_⟩
  rw [h3, h1]
  have hf := workerStep_found verify s i
  revert hp
  cases s.producer with
  | scanning => exact id
  | sending w => exact id
  | closing => exact fun hp => hp.imp id hf
  | waiting => exact fun hp => hp.imp id hf
  | waitingCancelled => exact id
  | returned r => cases r <;> exact id

theorem crackStep_inv (verify : List Byte → Bool) (lines : List (List Byte)) (s : CrackState)
    (e : CrackEvent) (h : ∃ k, ProducerInv lines s k) :
    ∃ k, ProducerInv lines (crackStep verify s e) k := by
  obtain ⟨k, hk⟩ := h
  cases e with
  | cancel => exact ⟨k, hk⟩
  | producer => exact producerStep_inv lines s k hk
  | worker i => exact ⟨k, workerStep_inv verify lines s i k hk⟩

theorem crackRun_inv (verify : List Byte → Bool) (lines : List (List Byte))
    (schedule : List CrackEvent) : ∀ s : CrackState, (∃ k, ProducerInv lines s k) →
    ∃ k, ProducerInv lines (crackRun verify s schedule) k := by
  induction schedule with
  | nil => exact fun s h => h
  | cons e es ih => exact fun s h => ih _ (crackStep_inv verify lines s e h)

theorem crackInit_inv (lines : List (List Byte)) (workers : Nat) :
    ProducerInv lines (crackInit lines workers) 0 :=
  ⟨Nat.zero_le _, rfl, rfl⟩

/-! ## The preparation of `CrackWithWordlist` -/

theorem copySlice_replicate (raw : List Byte) :
    copySlice (List.replicate raw.length 0) raw = raw := by
  simp [copySlice]

theorem zeroMICLoop_length_aux : ∀ (n : Nat) (buf : List Byte) (i : Nat), 97 - i ≤ n →
    (zeroMICLoop buf i).length = buf.length := by
  intro n
  induction n with
  | zero =>
    intro buf i h
    rw [zeroMICLoop, if_neg (by omega)]
  | succ n ih =>
    intro buf i h
    rw [zeroMICLoop]
    split
    · rw [ih (buf.set i 0) (i + 1) (by omega)]
      simp
    · rfl

theorem zeroMICLoop_length (buf : List Byte) (i : Nat) :
    (zeroMICLoop buf i).length = buf.length :=
  zeroMICLoop_length_aux (97 - i) buf i (Nat.le_refl _)

theorem zeroMICLoop_getElem?_aux : ∀ (n : Nat) (buf : List Byte) (i j : Nat), 97 - i ≤ n →
    (zeroMICLoop buf i)[j]? =
      if i ≤ j ∧ j < 97 ∧ j < buf.length then some 0 else buf[j]? := by
  intro n
  induction n with
  | zero =>
    intro buf i j h
    rw [zeroMICLoop, if_neg (by omega), if_neg (by omega)]
  | succ n ih =>
    intro buf i j h
    rw [zeroMICLoop]
    split
    · rename_i hc
      rw [ih (buf.set i 0) (i + 1) j (by omega), List.length_set, List.getElem?_set]
      by_cases hij : i = j
      · subst hij
        have h1 : ¬ (i + 1 ≤ i ∧ i < 97 ∧ i < buf.length) := by omega
        have h2 : i ≤ i ∧ i < 97 ∧ i < buf.length := by omega
        simp [h1, h2, hc.2]
      · by_cases hj : i ≤ j ∧ j < 97 ∧ j < buf.length
        · have h1 : i + 1 ≤ j ∧ j < 97 ∧ j < buf.length := by omega
          simp [h1, hj]
        · have h1 : ¬ (i + 1 ≤ j ∧ j < 97 ∧ j < buf.length) := by omega
          simp [h1, hj, hij]
    · rename_i hc
      have h1 : ¬ (i ≤ j ∧ j < 97 ∧ j < buf.length) := by omega
      simp [h1]

theorem zeroMICLoop_getElem? (buf : List Byte) (i j : Nat) :
    (zeroMICLoop buf i)[j]? =
      if i ≤ j ∧ j < 97 ∧ j < buf.length then some 0 else buf[j]? :=
  zeroMICLoop_getElem?_aux (97 - i) buf i j (Nat.le_refl _)

theorem crackPrepare_ok (essid : List Byte) (hs : FourWayHandshake) (m2 : EAPOLKeyFrame)
    (raw : List Byte) (h1 : hs.Messages 1 = some m2) (h2 : hs.RawFrames 1 = some raw) :
    crackPrepare essid hs = Except.ok
      { essid := essid
        aa := copyArr (zeroArr 6) hs.BSSID.toList
        spa := copyArr (zeroArr 6) hs.ClientMAC.toList
        aNonce := ANonce hs
        sNonce := SNonce hs
        eapolForMIC := if raw.length ≥ 81 + 16 then zeroMICLoop raw 81 else raw
        expectedMIC := m2.MIC } := by
  simp only [crackPrepare, h1, h2, copySlice_replicate]

theorem crackPrepare_error (essid : List Byte) (hs : FourWayHandshake)
    (h : hs.Messages 1 = none ∨ hs.RawFrames 1 = none) :
    crackPrepare essid hs = Except.error ("incomplete handshake: missing M2") := by
  unfold crackPrepare
  rcases h with h | h
  · simp only [h]
  · rw [h]
    cases hs.Messages 1 <;> rfl

/-- The buffer that the preparation hands to the workers, for a raw M2 body of
at least 97 octets: the body with octets 81..96 set to zero; the expected MIC
is the MIC field of the parsed M2. -/
theorem crackPrepare_buffer (essid : List Byte) (hs : FourWayHandshake) (m2 : EAPOLKeyFrame)
    (raw : List Byte) (h1 : hs.Messages 1 = some m2) (h2 : hs.RawFrames 1 = some raw)
    (hl : 97 ≤ raw.length) :
    ∃ p, crackPrepare essid hs = Except.ok p ∧ p.expectedMIC = m2.MIC ∧
      p.eapolForMIC.length = raw.length ∧
      ∀ i, p.eapolForMIC[i]? = if 81 ≤ i ∧ i < 97 then some 0 else raw[i]? := by
  refine ⟨_, crackPrepare_ok essid hs m2 raw h1 h2, rfl, ?_, ?_⟩
  · have : raw.length ≥ 81 + 16 := hl
    simp only [this, if_true]
    exact zeroMICLoop_length raw 81
  · intro i
    have : raw.length ≥ 81 + 16 := hl
    simp only [this, if_true]
    rw [zeroMICLoop_getElem?]
    by_cases hi : 81 ≤ i ∧ i < 97
    · have h3 : 81 ≤ i ∧ i < 97 ∧ i < raw.length := by omega
      simp [hi, h3]
    · have h3 : ¬ (81 ≤ i ∧ i < 97 ∧ i < raw.length) := by omega
      simp [hi, h3]


set_option maxRecDepth 100000 in
/-- C12. The code at a capture in which the EAPOL-Key bytes of message 2 are the
payload of the EAPOL layer, the full EAPOL frame being the 4-octet header
followed by them: the raw M2 body has 107 octets; its octets 81..96, the ones
that the preparation zeroes, are `00 00 00 00` and twelve times `33`; the
expected MIC, taken from the parsed M2, is sixteen times `33`, which are the
octets 85..100 of the raw body. -/
theorem crackPrepare_expectedMIC_shifted :
    (match ScanCapFile (Except.ok [samplePacketM1, samplePacketM2Shifted]) sampleCracker.bssid with
      | Except.ok state =>
        (CompleteHandshakes state [hardwareAddrString sampleClient]).map (fun hs =>
          ((hs.RawFrames 1).map (fun raw => (raw.length, slice raw 81 97, slice raw 85 101)),
            (crackPrepare sampleCracker.essid hs).toOption.map (fun p => p.expectedMIC.toList)))
      | Except.error _ => []) =
      [(some (107, [0, 0, 0, 0] ++ List.replicate 12 0x33, List.replicate 16 0x33),
        some (List.replicate 16 0x33))] := by
  decide


theorem crackWithHandshake_error (nc : NativeCracker) (hs : FourWayHandshake)
    (wordlist : Except String (List (List Byte))) (workers : Nat) (schedule : List CrackEvent)
    (h : hs.Messages 1 = none ∨ hs.RawFrames 1 = none) :
    crackWithHandshake nc hs wordlist workers schedule =
      crackReturned (Except.error ("incomplete handshake: missing M2")) := by
  simp only [crackWithHandshake, crackPrepare_error nc.essid hs h]

theorem crackWithHandshake_short (nc : NativeCracker) (hs : FourWayHandshake)
    (workers : Nat) (schedule : List CrackEvent) (m2 : EAPOLKeyFrame) (raw : List Byte)
    (h1 : hs.Messages 1 = some m2) (h2 : hs.RawFrames 1 = some raw) (hl : raw.length < 97) :
    ∃ p, crackPrepare nc.essid hs = Except.ok p ∧ p.eapolForMIC = raw ∧
      p.expectedMIC = m2.MIC ∧
      ∀ lines : List (List Byte),
        crackWithHandshake nc hs (Except.ok lines) workers schedule =
          crackRun (crackVerify p) (crackInit lines workers) schedule := by
  have hp := crackPrepare_ok nc.essid hs m2 raw h1 h2
  have hs2 : ¬ raw.length ≥ 81 + 16 := by omega
  simp only [hs2, if_false] at hp
  refine ⟨_, hp, rfl, rfl, ?_⟩
  intro lines
  simp only [crackWithHandshake, hp]

theorem crackRun_append (verify : List Byte → Bool) (s : CrackState) (a b : List CrackEvent) :
    crackRun verify s (a ++ b) = crackRun verify (crackRun verify s a) b := by
  simp [crackRun, List.foldl_append]

set_option maxRecDepth 100000 in
/-- C15. The code at a capture with message 1 and message 2 between the sample
access point and the sample client: the handshake that `ScanCapFile` builds,
and the one that `checkEAPOL` builds from the same packets, has BSSID and
client MAC `00:00:00:00:00:00`, and `CrackWithWordlist` prepares the
derivation with AA and SPA both zero, neither being the address of the access
point or of the client. -/
theorem handshake_addresses_zero :
    (match ScanCapFile (Except.ok [samplePacketM1, samplePacketM2]) sampleCracker.bssid with
      | Except.ok state =>
        (CompleteHandshakes state [hardwareAddrString sampleClient]).map (fun hs =>
          (hs.BSSID, hs.ClientMAC,
            (crackPrepare sampleCracker.essid hs).toOption.map (fun p => (p.aa, p.spa))))
      | Except.error _ => []) =
      [(zeroArr 6, zeroArr 6, some (zeroArr 6, zeroArr 6))] ∧
    (trackedHandshake
        (feedPackets (OnHandshake NewCaptureWriter true) [samplePacketM1, samplePacketM2]).1
        (hardwareAddrString sampleClient)).BSSID = zeroArr 6 ∧
    (trackedHandshake
        (feedPackets (OnHandshake NewCaptureWriter true) [samplePacketM1, samplePacketM2]).1
        (hardwareAddrString sampleClient)).ClientMAC = zeroArr 6 ∧
    (trackedHandshake
        (feedPackets (OnHandshake NewCaptureWriter true) [samplePacketM1, samplePacketM2]).1
        (hardwareAddrString sampleClient)).Complete = true ∧
    sampleAA ≠ zeroArr 6 ∧ sampleSPA ≠ zeroArr 6 := by
  decide

/-! ## The target database -/

theorem mapGet_cons {α : Type} (k key : String) (v : α) (m : List (String × α)) :
    mapGet ((k, v) :: m) key = if key = k then some v else mapGet m key := by
  unfold mapGet
  rw [List.lookup_cons]
  by_cases h : key = k
  · simp [h]
  · have : (key == k) = false := by simpa using h
    simp [h, this]

theorem mapGet_eq_none_iff {α : Type} (m : List (String × α)) (key : String) :
    mapGet m key = none ↔ key ∉ m.map Prod.fst := by
  induction m with
  | nil => simp [mapGet]
  | cons e m ih =>
    obtain ⟨k, v⟩ := e
    rw [mapGet_cons]
    by_cases h : key = k
    · simp [h]
    · simp [h, ih]

theorem mapGet_map_ne {α : Type} (m : List (String × α)) (key key2 : String) (v : α)
    (h : key2 ≠ key) :
    mapGet (m.map (fun e => if e.1 = key then (key, v) else e)) key2 = mapGet m key2 := by
  induction m with
  | nil => rfl
  | cons e m ih =>
    obtain ⟨k, w⟩ := e
    simp only [List.map_cons]
    by_cases hk : k = key
    · subst hk
      simp only [if_true]
      rw [mapGet_cons, mapGet_cons, ih, if_neg h, if_neg h]
    · simp only [hk, if_false]
      rw [mapGet_cons, mapGet_cons, ih]

theorem mapGet_map_self {α : Type} (m : List (String × α)) (key : String) (v : α)
    (h : mapGet m key ≠ none) :
    mapGet (m.map (fun e => if e.1 = key then (key, v) else e)) key = some v := by
  induction m with
  | nil => exact absurd rfl h
  | cons e m ih =>
    obtain ⟨k, w⟩ := e
    simp only [List.map_cons]
    by_cases hk : k = key
    · subst hk
      simp only [if_true]
      rw [mapGet_cons]
      simp
    · simp only [hk, if_false]
      rw [mapGet_cons] at h ⊢
      have hk2 : ¬ key = k := fun x => hk x.symm
      simp only [hk2, if_false] at h ⊢
      exact ih h

theorem mapGet_append_singleton {α : Type} (m : List (String × α)) (k key : String) (v : α) :
    mapGet (m ++ [(k, v)]) key =
      match mapGet m key with
      | some w => some w
      | none => if key = k then some v else none := by
  induction m with
  | nil =>
    show mapGet [(k, v)] key = _
    rw [mapGet_cons]
    rfl
  | cons e m ih =>
    obtain ⟨k2, w⟩ := e
    show mapGet ((k2, w) :: (m ++ [(k, v)])) key = _
    rw [mapGet_cons, mapGet_cons, ih]
    by_cases h : key = k2
    · simp [h]
    · simp [h]

theorem mapGet_mapSet {α : Type} (m : List (String × α)) (key key2 : String) (v : α) :
    mapGet (mapSet m key v) key2 = if key2 = key then some v else mapGet m key2 := by
  unfold mapSet
  cases h : List.lookup key m with
  | none =>
    have h2 : mapGet m key = none := h
    simp only
    rw [mapGet_append_singleton]
    by_cases hk : key2 = key
    · subst hk
      simp [h2]
    · simp only [hk, if_false]
      cases mapGet m key2 <;> rfl
  | some w =>
    have h2 : mapGet m key ≠ none := by
      show List.lookup key m ≠ none
      rw [h]; simp
    simp only
    by_cases hk : key2 = key
    · subst hk
      simp only [if_true]
      exact mapGet_map_self m key2 v h2
    · simp only [hk, if_false]
      exact mapGet_map_ne m key key2 v hk

/-- The record of an access point already in the database after a call of
`UpdateTarget` on its BSSID. -/
theorem UpdateTarget_existing (db : TargetDB) (bssid essid : List Byte) (channel power : Int)
    (enc cipher : Int) (wps : Bool) (now : Nat → Time) (t : Target)
    (h : mapGet db.targets (hardwareAddrString bssid) = some t) :
    ∃ t2, mapGet (UpdateTarget db bssid essid channel power enc cipher wps now).1.targets
        (hardwareAddrString bssid) = some t2 ∧
      t2.Encryption = (if enc = EncOpen then t.Encryption else enc) ∧
      t2.Power = (if power = 0 then t.Power else power) ∧
      t2.Channel = (if channel = 0 then t.Channel else channel) ∧
      t2.ESSID = (if essid ≠ [] ∧ t.ESSID = [] then essid else t.ESSID) ∧
      t2.Hidden = (if essid ≠ [] ∧ t.ESSID = [] then false else t.Hidden) ∧
      t2.Clients = t.Clients := by
  by_cases h1 : essid ≠ [] ∧ t.ESSID = [] <;> by_cases h2 : channel = 0 <;>
    by_cases h3 : power = 0 <;> by_cases h4 : enc = EncOpen <;>
    by_cases h5 : cipher = CipherNone <;> cases wps <;>
    simp only [UpdateTarget, h, mapGet_mapSet, h1, h2, h3, h4, h5, if_true, if_false, ne_eq,
      not_true_eq_false, not_false_eq_true, and_self, Bool.false_eq_true] <;>
    exact ⟨_, rfl, rfl, rfl, rfl, rfl, rfl, rfl⟩

/-- C16 (amended): after `UpdateTarget` on the BSSID of an existing record, the
record's Encryption is the supplied one, except that a supplied Open leaves it
as it was. So the Encryption is not lower than before when the supplied one is
Open or is not lower than the recorded one, and a record at WPA2 that receives
Open stays WPA2. -/
theorem UpdateTarget_encryption (db : TargetDB) (bssid essid : List Byte) (channel power : Int)
    (enc cipher : Int) (wps : Bool) (now : Nat → Time) (t : Target)
    (h : mapGet db.targets (hardwareAddrString bssid) = some t) :
    ∃ t2, mapGet (UpdateTarget db bssid essid channel power enc cipher wps now).1.targets
        (hardwareAddrString bssid) = some t2 ∧
      t2.Encryption = (if enc = EncOpen then t.Encryption else enc) ∧
      (enc = EncOpen ∨ t.Encryption ≤ enc → t.Encryption ≤ t2.Encryption) ∧
      (t.Encryption = EncWPA2 → enc = EncOpen → t2.Encryption = EncWPA2) := by
  obtain ⟨t2, h1, h2, -⟩ := UpdateTarget_existing db bssid essid channel power enc cipher wps now t h
  refine ⟨t2, h1, h2, ?_, ?_⟩
  · rw [h2]
    rintro (he | he)
    · simp [he]
    · split
      · exact le_refl _
      · exact he
  · intro ht he
    rw [h2, if_pos he, ht]

set_option maxRecDepth 100000 in
/-- C16, witness: the sample record at WPA2 receives Open. -/
theorem UpdateTarget_encryption_witness :
    mapGet sampleTargetDB.targets (hardwareAddrString sampleBSSID) = some sampleTarget ∧
    ∃ t2, mapGet (UpdateTarget sampleTargetDB sampleBSSID [] 0 0 EncOpen CipherNone false
        (fun _ => 5)).1.targets (hardwareAddrString sampleBSSID) = some t2 ∧
      t2.Encryption = (if EncOpen = EncOpen then sampleTarget.Encryption else EncOpen) ∧
      (EncOpen = EncOpen ∨ sampleTarget.Encryption ≤ EncOpen →
        sampleTarget.Encryption ≤ t2.Encryption) ∧
      (sampleTarget.Encryption = EncWPA2 → EncOpen = EncOpen → t2.Encryption = EncWPA2) :=
  ⟨by decide, UpdateTarget_encryption sampleTargetDB sampleBSSID [] 0 0 EncOpen CipherNone false
    (fun _ => 5) sampleTarget (by decide)⟩

set_option maxRecDepth 100000 in
/-- C16, counterexample: the sample record at WPA2 receives WEP and is at WEP
after the call, which is lower in the order Open < WEP < WPA < WPA2 < WPA3. -/
theorem UpdateTarget_downgrades :
    (mapGet sampleTargetDB.targets (hardwareAddrString sampleBSSID)).map
        (fun t => t.Encryption) = some EncWPA2 ∧
    (mapGet (UpdateTarget sampleTargetDB sampleBSSID [] 6 (-50) EncWEP CipherWEP false
        (fun _ => 5)).1.targets (hardwareAddrString sampleBSSID)).map (fun t => t.Encryption) =
      some EncWEP ∧
    EncWEP < EncWPA2 := by
  decide

/-- C18 (amended): `UpdateTarget` on a BSSID already in the database assigns a
supplied power other than 0 and a supplied channel other than 0; a supplied 0
leaves the record's Power, respectively Channel, as it was. -/
theorem UpdateTarget_power_channel (db : TargetDB) (bssid essid : List Byte)
    (channel power : Int) (enc cipher : Int) (wps : Bool) (now : Nat → Time) (t : Target)
    (h : mapGet db.targets (hardwareAddrString bssid) = some t) :
    ∃ t2, mapGet (UpdateTarget db bssid essid channel power enc cipher wps now).1.targets
        (hardwareAddrString bssid) = some t2 ∧
      (power ≠ 0 → t2.Power = power) ∧ (power = 0 → t2.Power = t.Power) ∧
      (channel ≠ 0 → t2.Channel = channel) ∧ (channel = 0 → t2.Channel = t.Channel) := by
  obtain ⟨t2, h1, -, h3, h4, -⟩ :=
    UpdateTarget_existing db bssid essid channel power enc cipher wps now t h
  refine ⟨t2, h1, ?_, ?_, ?_, ?_⟩
  · intro hp; rw [h3, if_neg hp]
  · intro hp; rw [h3, if_pos hp]
  · intro hc; rw [h4, if_neg hc]
  · intro hc; rw [h4, if_pos hc]

set_option maxRecDepth 100000 in
/-- C18, witness: the sample record receives channel 11 and power 0. -/
theorem UpdateTarget_power_channel_witness :
    mapGet sampleTargetDB.targets (hardwareAddrString sampleBSSID) = some sampleTarget ∧
    ∃ t2, mapGet (UpdateTarget sampleTargetDB sampleBSSID [] 11 0 EncOpen CipherNone false
        (fun _ => 5)).1.targets (hardwareAddrString sampleBSSID) = some t2 ∧
      ((0 : Int) ≠ 0 → t2.Power = 0) ∧ ((0 : Int) = 0 → t2.Power = sampleTarget.Power) ∧
      ((11 : Int) ≠ 0 → t2.Channel = 11) ∧ ((11 : Int) = 0 → t2.Channel = sampleTarget.Channel) :=
  ⟨by decide, UpdateTarget_power_channel sampleTargetDB sampleBSSID [] 11 0 EncOpen CipherNone
    false (fun _ => 5) sampleTarget (by decide)⟩

set_option maxRecDepth 100000 in
/-- C18, counterexample: the sample record, at -50 dBm on channel 6, receives
power 0 and channel 0 and is at -50 dBm on channel 6 after the call. -/
theorem UpdateTarget_zero_not_assigned :
    (mapGet sampleTargetDB.targets (hardwareAddrString sampleBSSID)).map
        (fun t => (t.Power, t.Channel)) = some (-50, 6) ∧
    (mapGet (UpdateTarget sampleTargetDB sampleBSSID [] 0 0 EncWPA2 CipherCCMP false
        (fun _ => 5)).1.targets (hardwareAddrString sampleBSSID)).map
          (fun t => (t.Power, t.Channel)) = some (-50, 6) := by
  decide

theorem mapGet_mem {α : Type} (m : List (String × α)) (key : String) (v : α)
    (h : mapGet m key = some v) : (key, v) ∈ m := by
  induction m with
  | nil => cases h
  | cons e m ih =>
    obtain ⟨k, w⟩ := e
    rw [mapGet_cons] at h
    by_cases hk : key = k
    · rw [if_pos hk] at h
      injection h with h
      rw [hk, h]
      exact List.mem_cons_self _ _
    · rw [if_neg hk] at h
      exact List.mem_cons_of_mem _ (ih h)

theorem mapSet_forall {α : Type} (P : α → Prop) (m : List (String × α)) (key : String) (v : α)
    (hm : ∀ e ∈ m, P e.2) (hv : P v) : ∀ e ∈ mapSet m key v, P e.2 := by
  unfold mapSet
  intro e he
  split at he
  · obtain ⟨e0, he0, rfl⟩ := List.mem_map.1 he
    split
    · exact hv
    · exact hm e0 he0
  · rcases List.mem_append.1 he with he | he
    · exact hm e he
    · rw [List.mem_singleton.1 he]
      exact hv

theorem registerClient_targets (db : TargetDB) (clientMAC bssid : List Byte) (power : Int)
    (now : Nat → Time) : (registerClient db clientMAC bssid power now).1.targets = db.targets := by
  unfold registerClient
  simp only
  split <;> rfl

theorem associateClient_targets (db : TargetDB) (c : Nat) (clientKey : String)
    (bssid : List Byte) (power : Int) (now : Nat → Time) :
    (associateClient db c clientKey bssid power now).targets = db.targets ∨
    ∃ t, mapGet db.targets (hardwareAddrString bssid) = some t ∧
      (associateClient db c clientKey bssid power now).targets =
        mapSet db.targets (hardwareAddrString bssid) { t with Clients := t.Clients ++ [c] } := by
  unfold associateClient
  simp only
  split
  · exact Or.inl rfl
  · rename_i t ht
    split
    · exact Or.inl rfl
    · exact Or.inr ⟨t, ht, rfl⟩

theorem applyTargetOp_hidden (db : TargetDB) (op : TargetOp)
    (h : ∀ e ∈ db.targets, (e.2.Hidden = true ↔ e.2.ESSID = [])) :
    ∀ e ∈ (applyTargetOp db op).targets, (e.2.Hidden = true ↔ e.2.ESSID = []) := by
  cases op with
  | updateTarget bssid essid channel power enc cipher wps now =>
    show ∀ e ∈ (UpdateTarget db bssid essid channel power enc cipher wps now).1.targets, _
    cases hg : mapGet db.targets (hardwareAddrString bssid) with
    | none =>
      simp only [UpdateTarget, hg]
      refine mapSet_forall (fun t : Target => (t.Hidden = true ↔ t.ESSID = [])) _ _ _ h ?_
      simp
    | some t =>
      obtain ⟨t2, h1, -, -, -, h5, h6, -⟩ :=
        UpdateTarget_existing db bssid essid channel power enc cipher wps now t hg
      have ht := h _ (mapGet_mem _ _ _ hg)
      have ht2 : t2.Hidden = true ↔ t2.ESSID = [] := by
        rw [h5, h6]
        by_cases hc : essid ≠ [] ∧ t.ESSID = []
        · simp [hc, hc.1]
        · simp only [hc, if_false]
          exact ht
      have hset : (UpdateTarget db bssid essid channel power enc cipher wps now).1.targets =
          mapSet db.targets (hardwareAddrString bssid) t2 := by
        have h1b := h1
        simp only [UpdateTarget, hg, mapGet_mapSet, if_true, Option.some.injEq] at h1b ⊢
        rw [h1b]
      rw [hset]
      exact mapSet_forall (fun t : Target => (t.Hidden = true ↔ t.ESSID = [])) _ _ _ h ht2
  | updateClient clientMAC bssid power now =>
    show ∀ e ∈ (UpdateClient db clientMAC bssid power now).targets, _
    unfold UpdateClient
    simp only
    have hr := registerClient_targets db clientMAC bssid power now
    rcases associateClient_targets (registerClient db clientMAC bssid power now).1
      (registerClient db clientMAC bssid power now).2 (hardwareAddrString clientMAC) bssid power
      now with h1 | ⟨t, ht, h1⟩
    · rw [h1, hr]
      exact h
    · rw [h1, hr]
      rw [hr] at ht
      exact mapSet_forall (fun t : Target => (t.Hidden = true ↔ t.ESSID = [])) _ _ _ h
        (h _ (mapGet_mem _ _ _ ht))
  | incrementData bssid =>
    show ∀ e ∈ (IncrementData db bssid).targets, _
    unfold IncrementData
    simp only
    cases hg : mapGet db.targets (hardwareAddrString bssid) with
    | none => exact h
    | some t =>
      simp only
      exact mapSet_forall (fun t : Target => (t.Hidden = true ↔ t.ESSID = [])) _ _ _ h
        (h _ (mapGet_mem _ _ _ hg))

theorem applyTargetOps_hidden (ops : List TargetOp) : ∀ db : TargetDB,
    (∀ e ∈ db.targets, (e.2.Hidden = true ↔ e.2.ESSID = [])) →
    ∀ e ∈ (applyTargetOps db ops).targets, (e.2.Hidden = true ↔ e.2.ESSID = []) := by
  induction ops with
  | nil => exact fun db h => h
  | cons op ops ih => exact fun db h => ih _ (applyTargetOp_hidden db op h)

/-- C17: in every state of the target database reached from `NewTargetDB` by
calls of `UpdateTarget`, `UpdateClient` and `IncrementData`, each access-point
record has Hidden = true if and only if its ESSID is the empty string. -/
theorem Hidden_iff_ESSID_empty (ops : List TargetOp) (key : String) (t : Target)
    (h : mapGet (applyTargetOps NewTargetDB ops).targets key = some t) :
    t.Hidden = true ↔ t.ESSID = [] :=
  applyTargetOps_hidden ops NewTargetDB (fun e he => by cases he) _ (mapGet_mem _ _ _ h)

set_option maxRecDepth 100000 in
/-- C17, witness: the record of the sample access point. -/
theorem Hidden_iff_ESSID_empty_witness :
    mapGet (applyTargetOps NewTargetDB sampleTargetOps).targets
        (hardwareAddrString sampleBSSID) = some sampleTarget ∧
    (sampleTarget.Hidden = true ↔ sampleTarget.ESSID = []) :=
  ⟨by decide, Hidden_iff_ESSID_empty sampleTargetOps (hardwareAddrString sampleBSSID)
    sampleTarget (by decide)⟩

theorem heapGet_heapModify (heap : List Client) (q p : Nat) (f : Client → Client) :
    heapGet (heapModify heap q f) p =
      if q = p ∧ q < heap.length then f (heapGet heap q) else heapGet heap p := by
  unfold heapModify heapGet
  rw [List.getD_eq_getElem?_getD, List.getD_eq_getElem?_getD, List.getD_eq_getElem?_getD,
    List.getElem?_set]
  by_cases h1 : q = p
  · subst h1
    by_cases h2 : q < heap.length
    · simp [h2]
    · simp [h2, List.getElem?_eq_none (Nat.le_of_not_lt h2)]
  · simp [h1]

theorem heapGet_heapModify_BSSID (heap : List Client) (q p : Nat) (f : Client → Client)
    (hf : ∀ r, (f r).BSSID = r.BSSID ∧ (f r).MAC = r.MAC) :
    (heapGet (heapModify heap q f) p).BSSID = (heapGet heap p).BSSID ∧
    (heapGet (heapModify heap q f) p).MAC = (heapGet heap p).MAC := by
  rw [heapGet_heapModify]
  split
  · rename_i h
    rw [← h.1]
    exact hf _
  · exact ⟨rfl, rfl⟩

theorem updateListed_some (heap : List Client) (clientKey : String) (power : Int) (now : Time)
    (l : List Nat) (heap2 : List Client) (h : updateListed heap clientKey power now l = some heap2) :
    ∃ e ∈ l, hardwareAddrString (heapGet heap e).MAC = clientKey ∧
      heap2 = heapModify heap e
        (fun r => { r with Power := power, Packets := r.Packets + 1, LastSeen := now }) := by
  induction l with
  | nil => cases h
  | cons x xs ih =>
    unfold updateListed at h
    split at h
    · rename_i hx
      injection h with h
      exact ⟨x, List.mem_cons_self _ _, hx, h.symm⟩
    · obtain ⟨e, he, h1, h2⟩ := ih h
      exact ⟨e, List.mem_cons_of_mem _ he, h1, h2⟩

/-- C19 (amended): `UpdateClient(mac, b2, p)` for a client recorded under the
BSSID b1, with another key than b2, both access points known and the client in
the list of b1, leaves the client's record in place with its BSSID still b1,
leaves the client in the client list of b1, and the client list of b2 then
holds the client's record or an entry with the client's MAC. -/
theorem UpdateClient_other_BSSID (db : TargetDB) (clientMAC b1 b2 : List Byte) (power : Int)
    (now : Nat → Time) (c : Nat) (t1 t2 : Target)
    (hc : mapGet db.clients (hardwareAddrString clientMAC) = some c)
    (hrec : (heapGet db.heap c).BSSID = b1)
    (hne : hardwareAddrString b1 ≠ hardwareAddrString b2)
    (h1 : mapGet db.targets (hardwareAddrString b1) = some t1)
    (h2 : mapGet db.targets (hardwareAddrString b2) = some t2)
    (hin : c ∈ t1.Clients) :
    mapGet (UpdateClient db clientMAC b2 power now).clients (hardwareAddrString clientMAC) =
      some c ∧
    (heapGet (UpdateClient db clientMAC b2 power now).heap c).BSSID = b1 ∧
    (∃ t, mapGet (UpdateClient db clientMAC b2 power now).targets (hardwareAddrString b1) =
        some t ∧ c ∈ t.Clients) ∧
    ∃ t3, mapGet (UpdateClient db clientMAC b2 power now).targets (hardwareAddrString b2) =
        some t3 ∧
      ∃ e ∈ t3.Clients, e = c ∨
        hardwareAddrString (heapGet (UpdateClient db clientMAC b2 power now).heap e).MAC =
          hardwareAddrString clientMAC := by
  have hf : ∀ (p : Int) (n : Time) (r : Client),
      ({ r with Power := p, Packets := r.Packets + 1, LastSeen := n } : Client).BSSID = r.BSSID ∧
      ({ r with Power := p, Packets := r.Packets + 1, LastSeen := n } : Client).MAC = r.MAC :=
    fun _ _ _ => ⟨rfl, rfl⟩
  have hreg : registerClient db clientMAC b2 power now =
      ({ db with
          heap := heapModify db.heap c
            (fun r => { r with Power := power, Packets := r.Packets + 1, LastSeen := now 2 }) },
        c) := by
    simp only [registerClient, hc]
  unfold UpdateClient
  simp only [hreg]
  unfold associateClient
  simp only [h2]
  cases hu : updateListed (heapModify db.heap c
      (fun r => { r with Power := power, Packets := r.Packets + 1, LastSeen := now 2 }))
      (hardwareAddrString clientMAC) power (now 3) t2.Clients with
  | some heap2 =>
    obtain ⟨e, he, hmac, hheap⟩ := updateListed_some _ _ _ _ _ _ hu
    simp only
    refine ⟨hc, ?_, ⟨t1, h1, hin⟩, t2, h2, e, he, Or.inr ?_⟩
    · rw [hheap, (heapGet_heapModify_BSSID _ _ _ _ (hf _ _)).1,
        (heapGet_heapModify_BSSID _ _ _ _ (hf _ _)).1, hrec]
    · rw [hheap, (heapGet_heapModify_BSSID _ _ _ _ (hf _ _)).2]
      exact hmac
  | none =>
    simp only
    refine ⟨hc, ?_, ⟨t1, ?_, hin⟩, { t2 with Clients := t2.Clients ++ [c] }, ?_, c, ?_,
      Or.inl rfl⟩
    · rw [(heapGet_heapModify_BSSID _ _ _ _ (hf _ _)).1, hrec]
    · rw [mapGet_mapSet, if_neg hne, h1]
    · rw [mapGet_mapSet, if_pos rfl]
    · simp

set_option maxRecDepth 100000 in
/-- C19, witness: the sample client, recorded under the first sample access
point, is seen under the second. -/
theorem UpdateClient_other_BSSID_witness :
    (mapGet sampleAssociatedDB.clients (hardwareAddrString sampleClient) = some 0 ∧
      (heapGet sampleAssociatedDB.heap 0).BSSID = sampleBSSID ∧
      hardwareAddrString sampleBSSID ≠ hardwareAddrString sampleBSSID2 ∧
      mapGet sampleAssociatedDB.targets (hardwareAddrString sampleBSSID) =
        some sampleTargetAssociated ∧
      mapGet sampleAssociatedDB.targets (hardwareAddrString sampleBSSID2) = some sampleTarget2 ∧
      0 ∈ sampleTargetAssociated.Clients) ∧
    mapGet (UpdateClient sampleAssociatedDB sampleClient sampleBSSID2 (-65) (fun _ => 3)).clients
      (hardwareAddrString sampleClient) = some 0 ∧
    (heapGet (UpdateClient sampleAssociatedDB sampleClient sampleBSSID2 (-65)
      (fun _ => 3)).heap 0).BSSID = sampleBSSID ∧
    (∃ t, mapGet (UpdateClient sampleAssociatedDB sampleClient sampleBSSID2 (-65)
        (fun _ => 3)).targets (hardwareAddrString sampleBSSID) = some t ∧ 0 ∈ t.Clients) ∧
    ∃ t3, mapGet (UpdateClient sampleAssociatedDB sampleClient sampleBSSID2 (-65)
        (fun _ => 3)).targets (hardwareAddrString sampleBSSID2) = some t3 ∧
      ∃ e ∈ t3.Clients, e = 0 ∨
        hardwareAddrString (heapGet (UpdateClient sampleAssociatedDB sampleClient sampleBSSID2
          (-65) (fun _ => 3)).heap e).MAC = hardwareAddrString sampleClient :=
  ⟨⟨by decide, by decide, by decide, by decide, by decide, by decide⟩,
    UpdateClient_other_BSSID sampleAssociatedDB sampleClient sampleBSSID sampleBSSID2 (-65)
      (fun _ => 3) 0 sampleTargetAssociated sampleTarget2 (by decide) (by decide) (by decide)
      (by decide) (by decide) (by decide)⟩

set_option maxRecDepth 100000 in
/-- C19, counterexample: both sample access points are known and the sample
client is recorded under the first; after `UpdateClient` with the second, the
client's record still has the BSSID of the first, and the client is in the
client lists of both. -/
theorem UpdateClient_keeps_first_BSSID :
    mapGet sampleAssociatedDB.clients (hardwareAddrString sampleClient) = some 0 ∧
    (heapGet sampleAssociatedDB.heap 0).BSSID = sampleBSSID ∧
    sampleBSSID ≠ sampleBSSID2 ∧
    (mapGet sampleAssociatedDB.targets (hardwareAddrString sampleBSSID)).map
      (fun t => t.Clients) = some [0] ∧
    (mapGet sampleAssociatedDB.targets (hardwareAddrString sampleBSSID2)).map
      (fun t => t.Clients) = some [] ∧
    sampleRoamingDB = UpdateClient sampleAssociatedDB sampleClient sampleBSSID2 (-65)
      (fun _ => 3) ∧
    mapGet sampleRoamingDB.clients (hardwareAddrString sampleClient) = some 0 ∧
    (heapGet sampleRoamingDB.heap 0).BSSID = sampleBSSID ∧
    (heapGet sampleRoamingDB.heap 0).BSSID ≠ sampleBSSID2 ∧
    (mapGet sampleRoamingDB.targets (hardwareAddrString sampleBSSID)).map
      (fun t => t.Clients) = some [0] ∧
    (mapGet sampleRoamingDB.targets (hardwareAddrString sampleBSSID2)).map
      (fun t => t.Clients) = some [0] :=
  ⟨by decide, by decide, by decide, by decide, by decide, rfl, by decide, by decide, by decide,
    by decide, by decide⟩

theorem mapSet_keys_nodup {α : Type} (m : List (String × α)) (key : String) (v : α)
    (h : (m.map Prod.fst).Nodup) : ((mapSet m key v).map Prod.fst).Nodup := by
  unfold mapSet
  cases hl : List.lookup key m with
  | some w =>
    simp only
    have : (m.map (fun e => if e.1 = key then (key, v) else e)).map Prod.fst = m.map Prod.fst := by
      rw [List.map_map]
      apply List.map_congr_left
      intro e _
      show (if e.1 = key then (key, v) else e).1 = e.1
      split
      · rename_i he
        exact he.symm
      · rfl
    rw [this]
    exact h
  | none =>
    simp only
    have hn : key ∉ m.map Prod.fst := (mapGet_eq_none_iff m key).1 hl
    rw [List.map_append]
    refine List.Nodup.append h (List.nodup_singleton _) ?_
    intro x hx hx2
    rw [List.map_singleton, List.mem_singleton] at hx2
    have hx3 : x = key := hx2
    rw [hx3] at hx
    exact hn hx

theorem applyTargetOp_targets (db : TargetDB) (op : TargetOp) :
    (applyTargetOp db op).targets = db.targets ∨
    ∃ key t, (applyTargetOp db op).targets = mapSet db.targets key t := by
  cases op with
  | updateTarget bssid essid channel power enc cipher wps now =>
    right
    show ∃ key t, (UpdateTarget db bssid essid channel power enc cipher wps now).1.targets = _
    unfold UpdateTarget
    simp only
    split
    · exact ⟨_, _, rfl⟩
    · exact ⟨_, _, rfl⟩
  | updateClient clientMAC bssid power now =>
    show (UpdateClient db clientMAC bssid power now).targets = _ ∨ ∃ key t,
      (UpdateClient db clientMAC bssid power now).targets = _
    unfold UpdateClient
    simp only
    have hr := registerClient_targets db clientMAC bssid power now
    rcases associateClient_targets (registerClient db clientMAC bssid power now).1
      (registerClient db clientMAC bssid power now).2 (hardwareAddrString clientMAC) bssid power
      now with h1 | ⟨t, -, h1⟩
    · left
      rw [h1, hr]
    · right
      rw [h1, hr]
      exact ⟨_, _, rfl⟩
  | incrementData bssid =>
    show (IncrementData db bssid).targets = _ ∨ ∃ key t, (IncrementData db bssid).targets = _
    unfold IncrementData
    simp only
    split
    · exact Or.inr ⟨_, _, rfl⟩
    · exact Or.inl rfl

theorem applyTargetOps_keys_nodup (ops : List TargetOp) : ∀ db : TargetDB,
    (db.targets.map Prod.fst).Nodup → ((applyTargetOps db ops).targets.map Prod.fst).Nodup := by
  induction ops with
  | nil => exact fun db h => h
  | cons op ops ih =>
    intro db h
    refine ih _ ?_
    rcases applyTargetOp_targets db op with h1 | ⟨key, t, h1⟩
    · rw [h1]
      exact h
    · rw [h1]
      exact mapSet_keys_nodup _ _ _ h

theorem filterMap_mapGet_keys {α : Type} (m : List (String × α)) (h : (m.map Prod.fst).Nodup) :
    (m.map Prod.fst).filterMap (fun key => mapGet m key) = m.map Prod.snd := by
  induction m with
  | nil => rfl
  | cons e m ih =>
    obtain ⟨k, v⟩ := e
    rw [List.map_cons, List.nodup_cons] at h
    rw [List.map_cons, List.map_cons, List.filterMap_cons]
    have hk : mapGet ((k, v) :: m) k = some v := by
      rw [mapGet_cons, if_pos rfl]
    simp only [hk]
    congr 1
    rw [← ih h.2]
    apply List.filterMap_congr
    intro key hkey
    rw [mapGet_cons, if_neg]
    intro hc
    exact h.1 (hc ▸ hkey)

theorem Targets_perm_sorted (db : TargetDB) (order : List String)
    (hn : (db.targets.map Prod.fst).Nodup) (ho : order.Perm (db.targets.map Prod.fst)) :
    (Targets db order).Perm (db.targets.map Prod.snd) ∧
    List.Pairwise (fun a b : Target => b.Power ≤ a.Power) (Targets db order) := by
  unfold Targets
  simp only
  constructor
  · refine (List.perm_insertionSort _ _).trans ?_
    rw [← filterMap_mapGet_keys db.targets hn]
    exact ho.filterMap _
  · haveI : IsTotal Target (fun a b : Target => b.Power ≤ a.Power) :=
      ⟨fun a b => le_total b.Power a.Power⟩
    haveI : IsTrans Target (fun a b : Target => b.Power ≤ a.Power) :=
      ⟨fun a b c hab hbc => le_trans hbc hab⟩
    exact List.sorted_insertionSort (fun a b : Target => b.Power ≤ a.Power) _

/-- C20: for a database reached from `NewTargetDB` and any order in which the
map is visited, `Targets` returns a permutation of the stored records, of
length `Count`, along which Power is non-increasing. -/
theorem Targets_sorted_permutation (ops : List TargetOp) (order : List String)
    (ho : order.Perm ((applyTargetOps NewTargetDB ops).targets.map Prod.fst)) :
    (Targets (applyTargetOps NewTargetDB ops) order).Perm
      ((applyTargetOps NewTargetDB ops).targets.map Prod.snd) ∧
    ((Targets (applyTargetOps NewTargetDB ops) order).length : Int) =
      Count (applyTargetOps NewTargetDB ops) ∧
    List.Pairwise (fun a b : Target => b.Power ≤ a.Power)
      (Targets (applyTargetOps NewTargetDB ops) order) := by
  have hn := applyTargetOps_keys_nodup ops NewTargetDB List.nodup_nil
  obtain ⟨h1, h2⟩ := Targets_perm_sorted _ order hn ho
  refine ⟨h1, ?_, h2⟩
  rw [h1.length_eq, List.length_map]
  rfl

set_option maxRecDepth 100000 in
/-- C20, witness: the database of the two sample access points, visited in the
order opposite to that of their insertion. -/
theorem Targets_sorted_permutation_witness :
    [hardwareAddrString sampleBSSID2, hardwareAddrString sampleBSSID].Perm
      ((applyTargetOps NewTargetDB sampleAssociatedOps).targets.map Prod.fst) ∧
    (Targets (applyTargetOps NewTargetDB sampleAssociatedOps)
        [hardwareAddrString sampleBSSID2, hardwareAddrString sampleBSSID]).Perm
      ((applyTargetOps NewTargetDB sampleAssociatedOps).targets.map Prod.snd) ∧
    ((Targets (applyTargetOps NewTargetDB sampleAssociatedOps)
        [hardwareAddrString sampleBSSID2, hardwareAddrString sampleBSSID]).length : Int) =
      Count (applyTargetOps NewTargetDB sampleAssociatedOps) ∧
    List.Pairwise (fun a b : Target => b.Power ≤ a.Power)
      (Targets (applyTargetOps NewTargetDB sampleAssociatedOps)
        [hardwareAddrString sampleBSSID2, hardwareAddrString sampleBSSID]) :=
  ⟨by decide, Targets_sorted_permutation sampleAssociatedOps
    [hardwareAddrString sampleBSSID2, hardwareAddrString sampleBSSID] (by decide)⟩

/-! ## The scanner and the injector -/

/-- C21: `extractAddresses` follows the To-DS/From-DS table for every frame:
ToDS=1, FromDS=0 gives (BSSID, client) = (Addr1, Addr2); ToDS=0, FromDS=1
gives (Addr2, Addr1); ToDS=0, FromDS=0 gives (Addr3, Addr2); ToDS=1, FromDS=1
gives the empty pair, and the loop of `ScanCapFile` leaves its state as it is
on such a packet. -/
theorem extractAddresses_table (a1 a2 a3 : List Byte) (targetBSSID : String)
    (state : CaptureState) (key : Option (List Byte)) (eapol : Option EAPOLLayer) :
    extractAddresses { ToDS := true, FromDS := false, Address1 := a1, Address2 := a2,
                       Address3 := a3 } = (hardwareAddrString a1, hardwareAddrString a2) ∧
    extractAddresses { ToDS := false, FromDS := true, Address1 := a1, Address2 := a2,
                       Address3 := a3 } = (hardwareAddrString a2, hardwareAddrString a1) ∧
    extractAddresses { ToDS := false, FromDS := false, Address1 := a1, Address2 := a2,
                       Address3 := a3 } = (hardwareAddrString a3, hardwareAddrString a2) ∧
    extractAddresses { ToDS := true, FromDS := true, Address1 := a1, Address2 := a2,
                       Address3 := a3 } = ("", "") ∧
    scanCapPacket targetBSSID state
      { eapolKeyLayer := key
        dot11Layer := some { ToDS := true, FromDS := true, Address1 := a1, Address2 := a2,
                             Address3 := a3 }
        eapolLayer := eapol } = state := by
  refine ⟨rfl, rfl, rfl, rfl, ?_⟩
  cases key with
  | none => rfl
  | some d => simp [scanCapPacket, extractAddresses]

/-- A packet whose message number is Unknown leaves the tracker as it is. -/
theorem checkEAPOL_unknown (cw : CaptureWriter) (p : Packet)
    (h : packetMessage p = HandshakeMsgUnknown) : checkEAPOL cw p = (cw, none) := by
  unfold checkEAPOL
  unfold packetMessage at h
  cases hk : p.eapolKeyLayer with
  | none => rfl
  | some d =>
    rw [hk] at h
    simp only at h ⊢
    cases hd : p.dot11Layer with
    | none => rfl
    | some dot11 =>
      simp only
      cases hc : clientMACOf dot11 with
      | none => rfl
      | some c =>
        simp only
        split
        · rfl
        · cases hp : ParseEAPOLKeyFrame d with
          | error e => rfl
          | ok f =>
            rw [hp] at h
            simp only at h ⊢
            rw [if_pos h]

/-- A packet with fewer than 99 EAPOL-Key octets leaves the tracker as it is. -/
theorem checkEAPOL_short (cw : CaptureWriter) (p : Packet) (d : List Byte)
    (hk : p.eapolKeyLayer = some d) (hlen : d.length < 99) : checkEAPOL cw p = (cw, none) := by
  unfold checkEAPOL
  rw [hk]
  simp only
  cases hd : p.dot11Layer with
  | none => rfl
  | some dot11 =>
    simp only
    cases hc : clientMACOf dot11 with
    | none => rfl
    | some c =>
      simp only
      rw [if_pos hlen]

/-- C25: for every tracker state and every packet whose EAPOL-Key bytes are
shorter than 99 octets, or whose message number is Unknown, `checkEAPOL`
returns the tracker as it was (same handshake map, same `eapolCount`) and
launches no callback. -/
theorem checkEAPOL_garbled_dropped (cw : CaptureWriter) (p : Packet)
    (h : (∃ d, p.eapolKeyLayer = some d ∧ d.length < 99) ∨
      packetMessage p = HandshakeMsgUnknown) :
    checkEAPOL cw p = (cw, none) ∧
    (checkEAPOL cw p).1.handshakes = cw.handshakes ∧
    (checkEAPOL cw p).1.eapolCount = cw.eapolCount ∧
    (checkEAPOL cw p).2 = none := by
  have h1 : checkEAPOL cw p = (cw, none) := by
    rcases h with ⟨d, hk, hlen⟩ | h
    · exact checkEAPOL_short cw p d hk hlen
    · exact checkEAPOL_unknown cw p h
  rw [h1]
  exact ⟨rfl, rfl, rfl, rfl⟩

/-- C25, witness: a packet with an EAPOL-Key body of 50 octets. -/
theorem checkEAPOL_garbled_dropped_witness :
    ((∃ d, samplePacketGarbled.eapolKeyLayer = some d ∧ d.length < 99) ∨
      packetMessage samplePacketGarbled = HandshakeMsgUnknown) ∧
    checkEAPOL NewCaptureWriter samplePacketGarbled = (NewCaptureWriter, none) ∧
    (checkEAPOL NewCaptureWriter samplePacketGarbled).1.handshakes =
      NewCaptureWriter.handshakes ∧
    (checkEAPOL NewCaptureWriter samplePacketGarbled).1.eapolCount =
      NewCaptureWriter.eapolCount ∧
    (checkEAPOL NewCaptureWriter samplePacketGarbled).2 = none :=
  ⟨Or.inl ⟨_, rfl, by decide⟩,
    checkEAPOL_garbled_dropped NewCaptureWriter samplePacketGarbled
      (Or.inl ⟨_, rfl, by decide⟩)⟩

/-- What `parseRSN` reads of a body of at least 10 octets: octet 9 for the
cipher and, when there are 18, octet 17 for the encryption. -/
theorem parseRSN_of_octets (b0 b1 b2 b3 b4 b5 b6 b7 b8 b9 : Byte) (tail : List Byte) :
    parseRSN (b0 :: b1 :: b2 :: b3 :: b4 :: b5 :: b6 :: b7 :: b8 :: b9 :: tail) =
      (if 8 ≤ tail.length ∧ tail.getD 7 0 = 8 then EncWPA3 else EncWPA2,
        if b9 = 2 then CipherTKIP else CipherCCMP) := by
  have hs : slice (b0 :: b1 :: b2 :: b3 :: b4 :: b5 :: b6 :: b7 :: b8 :: b9 :: tail) 6 10 =
      [b6, b7, b8, b9] := by
    simp [slice]
  have hl : (b0 :: b1 :: b2 :: b3 :: b4 :: b5 :: b6 :: b7 :: b8 :: b9 :: tail).length =
      tail.length + 10 := by simp
  have ha : 8 ≤ tail.length →
      (slice (b0 :: b1 :: b2 :: b3 :: b4 :: b5 :: b6 :: b7 :: b8 :: b9 :: tail) 14 18).getD 3 0 =
        tail.getD 7 0 := by
    intro h
    simp only [slice, List.drop_succ_cons]
    rw [List.getD_eq_getElem?_getD, List.getD_eq_getElem?_getD, List.getElem?_take,
      List.getElem?_drop]
    simp
  unfold parseRSN
  rw [hl, hs]
  have h1 : ¬ tail.length + 10 < 10 := by omega
  have h2 : tail.length + 10 ≥ 10 := by omega
  simp only [h1, h2, if_true, if_false]
  by_cases h8 : 8 ≤ tail.length
  · have h3 : tail.length + 10 ≥ 18 := by omega
    simp only [h3, if_true, ha h8, h8, true_and]
    congr 1
    show (if b9 = 2 then CipherTKIP else if b9 = 4 then CipherCCMP else CipherCCMP) = _
    split <;> simp
  · have h3 : ¬ tail.length + 10 ≥ 18 := by omega
    simp only [h3, if_false, h8, false_and]
    congr 1
    show (if b9 = 2 then CipherTKIP else if b9 = 4 then CipherCCMP else CipherCCMP) = _
    split <;> simp

/-- The first twelve octets of a well-formed body with a pairwise suite. -/
theorem rsnBody_cons (version : Nat) (group first : RSNSuite) (more akm : List RSNSuite)
    (rest : List Byte) :
    rsnBody version group (first :: more) akm rest =
      Fin.ofNat (version % 256) :: Fin.ofNat (version / 256 % 256) ::
      group.oui0 :: group.oui1 :: group.oui2 :: group.suiteType ::
      Fin.ofNat ((more.length + 1) % 256) :: Fin.ofNat ((more.length + 1) / 256 % 256) ::
      first.oui0 :: first.oui1 ::
      (first.oui2 :: first.suiteType :: ((more.map suiteBytes).flatten ++
        (leUint16Bytes akm.length ++ ((akm.map suiteBytes).flatten ++ rest)))) := by
  simp [rsnBody, leUint16Bytes, suiteBytes]

set_option maxRecDepth 100000 in
/-- C22: on the well-formed body `sampleRSNTKIP`, whose first pairwise suite
has type octet 2 (TKIP), `parseRSN` returns the cipher CCMP; and on every
well-formed body with at least one pairwise suite the cipher returned is TKIP
exactly when the second OUI octet of the first pairwise suite (octet 9 of the
body) is 2, whatever the type octet of that suite (octet 11) is. -/
theorem parseRSN_cipher_ignores_suite_type :
    parseRSN sampleRSNTKIP = (EncWPA2, CipherCCMP) ∧
    ∀ (version : Nat) (group first : RSNSuite) (more akm : List RSNSuite) (rest : List Byte),
      (parseRSN (rsnBody version group (first :: more) akm rest)).2 =
        if first.oui1 = 2 then CipherTKIP else CipherCCMP := by
  refine ⟨by decide, ?_⟩
  intro version group first more akm rest
  rw [rsnBody_cons, parseRSN_of_octets]

/-- C23 (amended): for every well-formed RSN body with exactly one pairwise
suite and at least one AKM suite, `parseRSN` classifies the network as WPA3 if
the first AKM suite has type octet 8 and as WPA2 otherwise. -/
theorem parseRSN_first_AKM (version : Nat) (group pairwise first : RSNSuite)
    (more : List RSNSuite) (rest : List Byte) :
    (parseRSN (rsnBody version group [pairwise] (first :: more) rest)).1 =
      if first.suiteType = 8 then EncWPA3 else EncWPA2 := by
  rw [rsnBody_cons, parseRSN_of_octets]
  simp [leUint16Bytes, suiteBytes]

set_option maxRecDepth 100000 in
/-- C23, counterexample: a well-formed body with two pairwise suites and the
AKM suite SAE, and one with one pairwise suite and the AKM suites PSK and SAE,
are both classified as WPA2. -/
theorem parseRSN_misses_SAE :
    (parseRSN sampleRSNTwoPairwise).1 = EncWPA2 ∧
    (parseRSN sampleRSNTransition).1 = EncWPA2 := by
  decide

/-- C24: for every bssid and reason, the layers that `SendBroadcastDeauth`
serializes and hands to `WritePacketData` are those of a deauthentication
frame with the given reason whose Address1 is the bssid and whose Address2 is
the broadcast MAC: the broadcast address is the second address of the frame,
not the first. On the sample access point, with the sample serialization, the
octets transmitted start with the bssid. -/
theorem SendBroadcastDeauth_addr1_is_bssid
    (serializeLayers : DeauthLayers → Except String (List Byte))
    (writePacketData : List Byte → Option String) (bssid : List Byte) (reason : Nat) :
    (SendBroadcastDeauth serializeLayers writePacketData bssid reason =
      match serializeLayers
          { Address1 := bssid
            Address2 := broadcastMAC
            Address3 := bssid
            Type_ := Dot11Type.MgmtDeauthentication
            Reason := reason } with
      | Except.error err => ([], some ("serialize deauth frame: " ++ err))
      | Except.ok frame => ([frame], writePacketData frame)) ∧
    SendBroadcastDeauth sampleSerialize (fun _ => none) sampleBSSID 7 =
      ([sampleBSSID ++ broadcastMAC ++ sampleBSSID ++ [7, 0]], none) ∧
    sampleBSSID ≠ broadcastMAC := by
  refine ⟨?_, by decide, by decide⟩
  unfold SendBroadcastDeauth buildDeauthFrame broadcastMAC
  simp only
  generalize serializeLayers
      { Address1 := bssid
        Address2 := [0xff, 0xff, 0xff, 0xff, 0xff, 0xff]
        Address3 := bssid
        Type_ := Dot11Type.MgmtDeauthentication
        Reason := reason } = r
  cases r <;> rfl

/-- C27 (amended): `handleDataFrame` uses two rows of the To-DS/From-DS table.
For ToDS=1, FromDS=0 it takes (BSSID, client) = (Addr1, Addr2) and for ToDS=0,
FromDS=1 it takes (Addr2, Addr1), as `extractAddresses` does, and unless one
of the two is broadcast it increments the data count of the access point and
upserts the client under it; for ToDS=0, FromDS=0 and for ToDS=1, FromDS=1 it
leaves the database as it is. -/
theorem handleDataFrame_table (db : TargetDB) (a1 a2 a3 : List Byte) (power : Int)
    (now : Nat → Time) :
    (handleDataFrame db { ToDS := true, FromDS := false, Address1 := a1, Address2 := a2,
                          Address3 := a3 } power now =
      if isBroadcast a1 || isBroadcast a2 then db
      else UpdateClient (IncrementData db a1) a2 a1 power now) ∧
    (handleDataFrame db { ToDS := false, FromDS := true, Address1 := a1, Address2 := a2,
                          Address3 := a3 } power now =
      if isBroadcast a2 || isBroadcast a1 then db
      else UpdateClient (IncrementData db a2) a1 a2 power now) ∧
    handleDataFrame db { ToDS := false, FromDS := false, Address1 := a1, Address2 := a2,
                         Address3 := a3 } power now = db ∧
    handleDataFrame db { ToDS := true, FromDS := true, Address1 := a1, Address2 := a2,
                         Address3 := a3 } power now = db ∧
    (dataFrameAddresses { ToDS := true, FromDS := false, Address1 := a1, Address2 := a2,
                          Address3 := a3 }).map
        (fun p => (hardwareAddrString p.1, hardwareAddrString p.2)) =
      some (extractAddresses { ToDS := true, FromDS := false, Address1 := a1, Address2 := a2,
                               Address3 := a3 }) ∧
    (dataFrameAddresses { ToDS := false, FromDS := true, Address1 := a1, Address2 := a2,
                          Address3 := a3 }).map
        (fun p => (hardwareAddrString p.1, hardwareAddrString p.2)) =
      some (extractAddresses { ToDS := false, FromDS := true, Address1 := a1, Address2 := a2,
                               Address3 := a3 }) :=
  ⟨rfl, rfl, rfl, rfl, rfl, rfl⟩

set_option maxRecDepth 100000 in
/-- C27, counterexample: a data frame with ToDS=0 and FromDS=0 whose Addr3 is
the sample access point and whose Addr2 is the sample client, neither
broadcast: `extractAddresses` gives (Addr3, Addr2), and `handleDataFrame`
leaves the database as it is: the data count of the access point stays 0, its
client list empty, and the client is not recorded. -/
theorem handleDataFrame_ignores_no_DS :
    sampleDataFrame.ToDS = false ∧ sampleDataFrame.FromDS = false ∧
    isBroadcast sampleDataFrame.Address3 = false ∧
    isBroadcast sampleDataFrame.Address2 = false ∧
    extractAddresses sampleDataFrame =
      (hardwareAddrString sampleBSSID, hardwareAddrString sampleClient) ∧
    (mapGet sampleTargetDB.targets (hardwareAddrString sampleBSSID)).map
      (fun t => (t.DataCount, t.Clients)) = some (0, []) ∧
    handleDataFrame sampleTargetDB sampleDataFrame (-60) (fun _ => 2) = sampleTargetDB ∧
    (mapGet (handleDataFrame sampleTargetDB sampleDataFrame (-60) (fun _ => 2)).targets
      (hardwareAddrString sampleBSSID)).map (fun t => (t.DataCount, t.Clients)) =
        some (0, []) ∧
    mapGet (handleDataFrame sampleTargetDB sampleDataFrame (-60) (fun _ => 2)).clients
      (hardwareAddrString sampleClient) = none :=
  ⟨rfl, rfl, by decide, by decide, by decide, by decide, rfl, by decide, by decide⟩

set_option maxRecDepth 100000 in
/-- C30: with the sample access point known, after 1, 2 and 3 calls of
`UpdateClient` for the sample client under it, the client record's Packets is
1, 3 and 5: every call after the first raises it by 2. The client list of the
access point holds the client once. -/
theorem UpdateClient_counts_twice :
    (mapGet (sampleFramesDB 1).clients (hardwareAddrString sampleClient)).map
      (fun c => (heapGet (sampleFramesDB 1).heap c).Packets) = some 1 ∧
    (mapGet (sampleFramesDB 2).clients (hardwareAddrString sampleClient)).map
      (fun c => (heapGet (sampleFramesDB 2).heap c).Packets) = some 3 ∧
    (mapGet (sampleFramesDB 3).clients (hardwareAddrString sampleClient)).map
      (fun c => (heapGet (sampleFramesDB 3).heap c).Packets) = some 5 ∧
    (mapGet (sampleFramesDB 3).targets (hardwareAddrString sampleBSSID)).map
      (fun t => t.Clients) = some [0] ∧
    mapGet (sampleFramesDB 3).clients (hardwareAddrString sampleClient) = some 0 := by
  decide

/-! ## The classifier as a switch -/

/-- `MessageNumber` is the switch over its four clauses in source order. -/
theorem MessageNumber_eq_switch (f : EAPOLKeyFrame) :
    MessageNumber f = switchCases messageCases f := by
  unfold MessageNumber switchCases messageCases
  simp only [List.find?, caseMsg1, caseMsg2, caseMsg3, caseMsg4, hasACK, hasMIC, hasInstall,
    hasSecure]
  generalize (f.KeyInfo &&& EAPOLKeyInfoACK != 0) = a
  generalize (f.KeyInfo &&& EAPOLKeyInfoMIC != 0) = m
  generalize (f.KeyInfo &&& EAPOLKeyInfoInstall != 0) = i
  generalize (f.KeyInfo &&& EAPOLKeyInfoSecure != 0) = s
  generalize isNonceZero f.Nonce.toList = z
  cases a <;> cases m <;> cases i <;> cases s <;> cases z <;> rfl

/-- No frame satisfies two of the four case conditions. -/
theorem messageCases_disjoint (f : EAPOLKeyFrame) :
    ¬ (caseMsg1 f = true ∧ caseMsg2 f = true) ∧ ¬ (caseMsg1 f = true ∧ caseMsg3 f = true) ∧
    ¬ (caseMsg1 f = true ∧ caseMsg4 f = true) ∧ ¬ (caseMsg2 f = true ∧ caseMsg3 f = true) ∧
    ¬ (caseMsg2 f = true ∧ caseMsg4 f = true) ∧ ¬ (caseMsg3 f = true ∧ caseMsg4 f = true) := by
  unfold caseMsg1 caseMsg2 caseMsg3 caseMsg4
  generalize hasACK f = a
  generalize hasMIC f = m
  generalize hasInstall f = i
  generalize hasSecure f = s
  generalize isNonceZero f.Nonce.toList = z
  cases a <;> cases m <;> cases i <;> cases s <;> cases z <;> decide

/-- Two clauses whose conditions hold on a frame return the same value. -/
theorem messageCases_agree (f : EAPOLKeyFrame)
    (c1 c2 : (EAPOLKeyFrame → Bool) × HandshakeMessage)
    (h1 : c1 ∈ messageCases) (h2 : c2 ∈ messageCases) (t1 : c1.1 f = true)
    (t2 : c2.1 f = true) : c1.2 = c2.2 := by
  obtain ⟨d12, d13, d14, d23, d24, d34⟩ := messageCases_disjoint f
  simp only [messageCases, List.mem_cons, List.mem_singleton, List.not_mem_nil, or_false]
    at h1 h2
  rcases h1 with rfl | rfl | rfl | rfl <;> rcases h2 with rfl | rfl | rfl | rfl <;>
    simp only at t1 t2 <;> first | rfl | (exfalso; tauto)

/-- A switch whose satisfied clauses agree gives the same value in every
order of its clauses. -/
theorem switchCases_perm (f : EAPOLKeyFrame)
    (cs ds : List ((EAPOLKeyFrame → Bool) × HandshakeMessage)) (hp : cs.Perm ds)
    (hagree : ∀ c1 ∈ ds, ∀ c2 ∈ ds, c1.1 f = true → c2.1 f = true → c1.2 = c2.2) :
    switchCases cs f = switchCases ds f := by
  unfold switchCases
  cases hd : ds.find? (fun c => c.1 f) with
  | none =>
    have hnone : cs.find? (fun c => c.1 f) = none := by
      rw [List.find?_eq_none] at hd ⊢
      intro c hc
      exact hd c (hp.mem_iff.1 hc)
    rw [hnone]
  | some d =>
    have hdmem := List.mem_of_find?_eq_some hd
    have hdt := List.find?_some hd
    cases hc : cs.find? (fun c => c.1 f) with
    | none =>
      rw [List.find?_eq_none] at hc
      exact absurd hdt (hc d (hp.mem_iff.2 hdmem))
    | some c =>
      have hcmem := List.mem_of_find?_eq_some hc
      have hct := List.find?_some hc
      exact hagree c (hp.mem_iff.1 hcmem) d hdmem hct hdt

/-- C28: the four case conditions of `MessageNumber` are pairwise disjoint;
the switch gives the value of `MessageNumber` in whatever order its four
clauses are tried; each of M1, M2, M3, M4 is returned exactly when its
condition holds and Unknown exactly when none holds; and every frame maps to
one of M1, M2, M3, M4, Unknown. -/
theorem MessageNumber_deterministic_total (f : EAPOLKeyFrame)
    (cases : List ((EAPOLKeyFrame → Bool) × HandshakeMessage))
    (hp : cases.Perm messageCases) :
    (¬ (caseMsg1 f = true ∧ caseMsg2 f = true) ∧ ¬ (caseMsg1 f = true ∧ caseMsg3 f = true) ∧
      ¬ (caseMsg1 f = true ∧ caseMsg4 f = true) ∧ ¬ (caseMsg2 f = true ∧ caseMsg3 f = true) ∧
      ¬ (caseMsg2 f = true ∧ caseMsg4 f = true) ∧ ¬ (caseMsg3 f = true ∧ caseMsg4 f = true)) ∧
    switchCases cases f = MessageNumber f ∧
    (MessageNumber f = HandshakeMsg1 ↔ caseMsg1 f = true) ∧
    (MessageNumber f = HandshakeMsg2 ↔ caseMsg2 f = true) ∧
    (MessageNumber f = HandshakeMsg3 ↔ caseMsg3 f = true) ∧
    (MessageNumber f = HandshakeMsg4 ↔ caseMsg4 f = true) ∧
    (MessageNumber f = HandshakeMsgUnknown ↔
      caseMsg1 f = false ∧ caseMsg2 f = false ∧ caseMsg3 f = false ∧ caseMsg4 f = false) ∧
    MessageNumber f ∈
      [HandshakeMsg1, HandshakeMsg2, HandshakeMsg3, HandshakeMsg4, HandshakeMsgUnknown] := by
  refine ⟨messageCases_disjoint f, ?_, ?_⟩
  · rw [MessageNumber_eq_switch]
    exact switchCases_perm f cases messageCases hp
      (fun c1 h1 c2 h2 t1 t2 => messageCases_agree f c1 c2 h1 h2 t1 t2)
  · rw [MessageNumber_eq_switch]
    unfold switchCases messageCases
    simp only [List.find?, caseMsg1, caseMsg2, caseMsg3, caseMsg4]
    generalize hasACK f = a
    generalize hasMIC f = m
    generalize hasInstall f = i
    generalize hasSecure f = s
    generalize isNonceZero f.Nonce.toList = z
    cases a <;> cases m <;> cases i <;> cases s <;> cases z <;> decide

/-- C28, witness: the clauses tried in reverse order on the zero frame. -/
theorem MessageNumber_deterministic_total_witness :
    messageCases.reverse.Perm messageCases ∧
    (¬ (caseMsg1 zeroFrame = true ∧ caseMsg2 zeroFrame = true) ∧
      ¬ (caseMsg1 zeroFrame = true ∧ caseMsg3 zeroFrame = true) ∧
      ¬ (caseMsg1 zeroFrame = true ∧ caseMsg4 zeroFrame = true) ∧
      ¬ (caseMsg2 zeroFrame = true ∧ caseMsg3 zeroFrame = true) ∧
      ¬ (caseMsg2 zeroFrame = true ∧ caseMsg4 zeroFrame = true) ∧
      ¬ (caseMsg3 zeroFrame = true ∧ caseMsg4 zeroFrame = true)) ∧
    switchCases messageCases.reverse zeroFrame = MessageNumber zeroFrame ∧
    (MessageNumber zeroFrame = HandshakeMsg1 ↔ caseMsg1 zeroFrame = true) ∧
    (MessageNumber zeroFrame = HandshakeMsg2 ↔ caseMsg2 zeroFrame = true) ∧
    (MessageNumber zeroFrame = HandshakeMsg3 ↔ caseMsg3 zeroFrame = true) ∧
    (MessageNumber zeroFrame = HandshakeMsg4 ↔ caseMsg4 zeroFrame = true) ∧
    (MessageNumber zeroFrame = HandshakeMsgUnknown ↔
      caseMsg1 zeroFrame = false ∧ caseMsg2 zeroFrame = false ∧ caseMsg3 zeroFrame = false ∧
        caseMsg4 zeroFrame = false) ∧
    MessageNumber zeroFrame ∈
      [HandshakeMsg1, HandshakeMsg2, HandshakeMsg3, HandshakeMsg4, HandshakeMsgUnknown] :=
  ⟨List.reverse_perm _,
    MessageNumber_deterministic_total zeroFrame messageCases.reverse (List.reverse_perm _)⟩

/-- C29: after `AddMessage` has stored an M2 and an M3, and no M1, in a fresh
handshake, in either order, Complete is false: `checkComplete` tests M1 and M2
only, although its comment names M2+M3 as sufficient. -/
theorem M2_M3_not_complete (m2 m3 : EAPOLKeyFrame) (raw2 raw3 : List Byte) :
    ((AddMessage (AddMessage NewFourWayHandshake HandshakeMsg2 (some m2) raw2)
        HandshakeMsg3 (some m3) raw3).Messages 0 = none ∧
      (AddMessage (AddMessage NewFourWayHandshake HandshakeMsg2 (some m2) raw2)
        HandshakeMsg3 (some m3) raw3).Messages 1 = some m2 ∧
      (AddMessage (AddMessage NewFourWayHandshake HandshakeMsg2 (some m2) raw2)
        HandshakeMsg3 (some m3) raw3).Messages 2 = some m3 ∧
      (AddMessage (AddMessage NewFourWayHandshake HandshakeMsg2 (some m2) raw2)
        HandshakeMsg3 (some m3) raw3).Complete = false) ∧
    (AddMessage (AddMessage NewFourWayHandshake HandshakeMsg3 (some m3) raw3)
        HandshakeMsg2 (some m2) raw2).Complete = false := by
  simp [AddMessage_Complete, AddMessage_slots, HandshakeMsg2, HandshakeMsg3,
    NewFourWayHandshake]

/-! ## A run of `CrackWithWordlist` that does not return -/

/-- A state in which the producer stands at its send on a full channel and the
only worker has returned: no event changes where the producer and the worker
stand, nor the channel. -/
theorem crackStep_blocked (verify : List Byte → Bool) (s : CrackState) (word : List Byte)
    (ev : CrackEvent) (hp : s.producer = ProducerState.sending word)
    (hfull : ¬ s.wordCh.length < s.capacity) (hw : s.workers = [WorkerState.exited]) :
    (crackStep verify s ev).producer = ProducerState.sending word ∧
    ¬ (crackStep verify s ev).wordCh.length < (crackStep verify s ev).capacity ∧
    (crackStep verify s ev).workers = [WorkerState.exited] ∧
    (crackStep verify s ev).found = s.found := by
  cases ev with
  | cancel => exact ⟨hp, hfull, hw, rfl⟩
  | producer =>
    have h : producerStep s = s := by
      unfold producerStep
      rw [hp]
      simp only [hfull, if_false]
    have e : crackStep verify s CrackEvent.producer = s := h
    rw [e]
    exact ⟨hp, hfull, hw, rfl⟩
  | worker i =>
    have h : workerStep verify s i = s := by
      unfold workerStep
      rw [hw]
      cases i with
      | zero => rfl
      | succ n => rfl
    have e : crackStep verify s (CrackEvent.worker i) = s := h
    rw [e]
    exact ⟨hp, hfull, hw, rfl⟩

/-- A blocked state stays blocked along every schedule. -/
theorem crackRun_blocked (verify : List Byte → Bool) (word : List Byte)
    (schedule : List CrackEvent) : ∀ s : CrackState,
    s.producer = ProducerState.sending word → ¬ s.wordCh.length < s.capacity →
    s.workers = [WorkerState.exited] →
    (crackRun verify s schedule).producer = ProducerState.sending word ∧
    (crackRun verify s schedule).workers = [WorkerState.exited] ∧
    (crackRun verify s schedule).found = s.found := by
  induction schedule with
  | nil => exact fun s hp _ hw => ⟨hp, hw, rfl⟩
  | cons ev rest ih =>
    intro s hp hfull hw
    obtain ⟨h1, h2, h3, h4⟩ := crackStep_blocked verify s word ev hp hfull hw
    obtain ⟨k1, k2, k3⟩ := ih (crackStep verify s ev) h1 h2 h3
    exact ⟨k1, k2, k3.trans h4⟩

/-- The state that the sample schedule reaches on the sample wordlist when the
first line verifies. -/
theorem sampleBlockingRun (verify : List Byte → Bool) (h : verify samplePassword = true) :
    crackRun verify (crackInit sampleLongWordlist 1) sampleBlockingSchedule =
      { lines := []
        producer := ProducerState.sending sampleOtherWord
        wordCh := List.replicate 4 sampleOtherWord
        capacity := 4
        closed := false
        found := some samplePassword
        workers := [WorkerState.exited]
        ctxDone := false
        sent := samplePassword :: List.replicate 4 sampleOtherWord
        tested := [samplePassword]
        received := [samplePassword] } := by
  have h13 : crackRun verify (crackInit sampleLongWordlist 1) (sampleBlockingSchedule.take 13) =
      { lines := []
        producer := ProducerState.sending sampleOtherWord
        wordCh := List.replicate 4 sampleOtherWord
        capacity := 4
        closed := false
        found := none
        workers := [WorkerState.verifying samplePassword]
        ctxDone := false
        sent := samplePassword :: List.replicate 4 sampleOtherWord
        tested := []
        received := [samplePassword] } := by
    simp [sampleBlockingSchedule, crackRun, crackInit, sampleLongWordlist, crackStep,
      producerStep, workerStep, samplePassword, sampleOtherWord, List.replicate]
  have hs : sampleBlockingSchedule = sampleBlockingSchedule.take 13 ++ [CrackEvent.worker 0] :=
    rfl
  rw [hs, crackRun_append, h13]
  simp only [crackRun, List.foldl, crackStep, workerStep, List.get?, h, if_true]
  rfl

/-- C26: with one worker and the wordlist `sampleLongWordlist`, whose first
line verifies and is followed by five lines of valid length, the run along
`sampleBlockingSchedule` reaches a state that no continuation leaves: the
worker has published the first line and returned, the channel is full and the
producer stands at its send; along every continuation of the schedule, with or
without cancellation, the producer stays there and `CrackWithWordlist` does
not return. -/
theorem crack_blocks_after_match (verify : List Byte → Bool)
    (h : verify samplePassword = true) (schedule : List CrackEvent) :
    (crackRun verify (crackInit sampleLongWordlist 1)
      (sampleBlockingSchedule ++ schedule)).producer = ProducerState.sending sampleOtherWord ∧
    (crackRun verify (crackInit sampleLongWordlist 1)
      (sampleBlockingSchedule ++ schedule)).workers = [WorkerState.exited] ∧
    (crackRun verify (crackInit sampleLongWordlist 1)
      (sampleBlockingSchedule ++ schedule)).found = some samplePassword := by
  rw [crackRun_append, sampleBlockingRun verify h]
  exact crackRun_blocked verify sampleOtherWord schedule _ rfl (by decide) rfl

/-- C26, witness: the test that accepts "password" only, and a continuation in
which the producer is scheduled, the context is cancelled and the producer is
scheduled again. -/
theorem crack_blocks_after_match_witness :
    (fun w : List Byte => decide (w = samplePassword)) samplePassword = true ∧
    (crackRun (fun w : List Byte => decide (w = samplePassword))
      (crackInit sampleLongWordlist 1)
      (sampleBlockingSchedule ++ [CrackEvent.producer, CrackEvent.cancel,
        CrackEvent.producer])).producer = ProducerState.sending sampleOtherWord ∧
    (crackRun (fun w : List Byte => decide (w = samplePassword))
      (crackInit sampleLongWordlist 1)
      (sampleBlockingSchedule ++ [CrackEvent.producer, CrackEvent.cancel,
        CrackEvent.producer])).workers = [WorkerState.exited] ∧
    (crackRun (fun w : List Byte => decide (w = samplePassword))
      (crackInit sampleLongWordlist 1)
      (sampleBlockingSchedule ++ [CrackEvent.producer, CrackEvent.cancel,
        CrackEvent.producer])).found = some samplePassword :=
  ⟨by decide, crack_blocks_after_match (fun w : List Byte => decide (w = samplePassword))
    (by decide) [CrackEvent.producer, CrackEvent.cancel, CrackEvent.producer]⟩

/-! ## Packets as the decoder presents them -/

/-- Without the flag "encrypted key data" the EAPOL-Key layer has 95 octets,
fewer than the 99 that the tracker asks for. -/
theorem decodeEAPOLKey_plain (body c : List Byte) (h : hasEncryptedKeyData body = false)
    (hc : decodeEAPOLKey body = some c) : c.length < 99 := by
  unfold decodeEAPOLKey at hc
  simp only [h] at hc
  split at hc
  · cases hc
  · split at hc
    · cases hc
    · simp only [Bool.false_eq_true, if_false, Option.some.injEq] at hc
      rename_i h1 h2
      rw [← hc, slice_length _ _ _ (Nat.le_of_not_lt h1)]
      simp only [eapolKeyFrameLen]
      omega

/-- A packet without EAPOL-Key layer leaves the tracker as it is. -/
theorem checkEAPOL_no_key (cw : CaptureWriter) (p : Packet) (h : p.eapolKeyLayer = none) :
    checkEAPOL cw p = (cw, none) := by
  unfold checkEAPOL
  rw [h]

/-- A frame whose key data is not encrypted, presented as the decoder does,
leaves the tracker as it is. -/
theorem checkEAPOL_decoded_plain (cw : CaptureWriter) (dot11 : Option Dot11)
    (frame : List Byte) (h : hasEncryptedKeyData (frame.drop 4) = false) :
    checkEAPOL cw (decodePacket dot11 (some frame)) = (cw, none) := by
  cases hk : (decodePacket dot11 (some frame)).eapolKeyLayer with
  | none => exact checkEAPOL_no_key cw _ hk
  | some c =>
    refine checkEAPOL_short cw _ c hk ?_
    unfold decodePacket at hk
    simp only at hk
    split at hk
    · cases hk
    · simp only at hk
      split at hk
      · exact decodeEAPOLKey_plain _ c h hk
      · cases hk

theorem feedPackets_decoded_plain (frames : List (Option Dot11 × List Byte)) :
    ∀ cw : CaptureWriter, (∀ f ∈ frames, hasEncryptedKeyData (f.2.drop 4) = false) →
    feedPackets cw (frames.map (fun f => decodePacket f.1 (some f.2))) =
      (cw, frames.map (fun _ => none)) := by
  induction frames with
  | nil => exact fun cw _ => rfl
  | cons f fs ih =>
    intro cw h
    rw [List.map_cons, feedPackets_cons,
      checkEAPOL_decoded_plain cw f.1 f.2 (h f (List.mem_cons_self _ _)),
      ih cw (fun g hg => h g (List.mem_cons_of_mem _ hg))]
    rfl

theorem launchCount_none (n : List (Option Dot11 × List Byte)) :
    launchCount (n.map (fun _ => (none : Option FourWayHandshake))) = 0 := by
  induction n with
  | nil => rfl
  | cons f fs ih =>
    rw [List.map_cons, launchCount_cons, ih]
    rfl

/-- C3: for every tracker state and every sequence of EAPOL frames whose key
data is not encrypted, as in message 1 and message 2 of a handshake, fed to
`checkEAPOL` as the packet decoder presents them: every frame is dropped at the
length test, since its EAPOL-Key layer has 95 octets; the tracker stays as it
was, `eapolCount` is not raised and the callback is never launched, whether
or not the sequence contains an M1 and an M2. -/
theorem genuine_M1_M2_never_launch (cw : CaptureWriter)
    (frames : List (Option Dot11 × List Byte))
    (hplain : ∀ f ∈ frames, hasEncryptedKeyData (f.2.drop 4) = false) :
    feedPackets cw (frames.map (fun f => decodePacket f.1 (some f.2))) =
      (cw, frames.map (fun _ => none)) ∧
    launchCount (feedPackets cw (frames.map (fun f => decodePacket f.1 (some f.2)))).2 = 0 ∧
    (feedPackets cw (frames.map (fun f => decodePacket f.1 (some f.2)))).1.eapolCount =
      cw.eapolCount := by
  rw [feedPackets_decoded_plain frames cw hplain]
  exact ⟨rfl, launchCount_none frames, rfl⟩

set_option maxRecDepth 100000 in
/-- C3, witness: the sample message 1 and message 2, which `MessageNumber`
takes for M1 and M2 on the frame with its header, from the access point and
from the client, with a callback registered: no launch. -/
theorem genuine_M1_M2_never_launch_witness :
    (frameMessage sampleM1 = HandshakeMsg1 ∧ frameMessage sampleM2 = HandshakeMsg2 ∧
      (OnHandshake NewCaptureWriter true).onHandshake = true ∧
      ∀ f ∈ sampleGenuineCapture, hasEncryptedKeyData (f.2.drop 4) = false) ∧
    feedPackets (OnHandshake NewCaptureWriter true)
        (sampleGenuineCapture.map (fun f => decodePacket f.1 (some f.2))) =
      (OnHandshake NewCaptureWriter true, sampleGenuineCapture.map (fun _ => none)) ∧
    launchCount (feedPackets (OnHandshake NewCaptureWriter true)
      (sampleGenuineCapture.map (fun f => decodePacket f.1 (some f.2)))).2 = 0 ∧
    (feedPackets (OnHandshake NewCaptureWriter true)
      (sampleGenuineCapture.map (fun f => decodePacket f.1 (some f.2)))).1.eapolCount =
        (OnHandshake NewCaptureWriter true).eapolCount :=
  ⟨⟨by decide, by decide, rfl, by decide⟩,
    genuine_M1_M2_never_launch (OnHandshake NewCaptureWriter true) sampleGenuineCapture
      (by decide)⟩

/-! ## The handshake that `CrackWithWordlist` selects -/

/-- The raw bodies after a call of `AddMessage`. -/
theorem AddMessage_rawFrames (h : FourWayHandshake) (msg : Int)
    (frame : Option EAPOLKeyFrame) (raw : List Byte) (j : Fin 4) :
    (AddMessage h msg frame raw).RawFrames j =
      if 1 ≤ msg ∧ msg ≤ 4 ∧ (j.val : Int) = msg - 1 then some raw else h.RawFrames j := by
  unfold AddMessage
  by_cases hr : msg - 1 < 0 ∨ msg - 1 > 3
  · have : ¬ (1 ≤ msg ∧ msg ≤ 4 ∧ (j.val : Int) = msg - 1) := by omega
    simp only [hr, if_true, this, if_false]
  · have h1 : 1 ≤ msg ∧ msg ≤ 4 := by omega
    simp only [hr, if_false, h1, true_and]
    unfold checkComplete
    split <;>
    · simp only
      split
      · simp [copySlice_replicate]
      · rfl

theorem HandshakeInv_new : HandshakeInv NewFourWayHandshake :=
  ⟨fun h => (by cases h), fun j h => (by cases h)⟩

theorem HandshakeInv_AddMessage (hs : FourWayHandshake) (msg : Int) (frame : EAPOLKeyFrame)
    (raw : List Byte) (hraw : 103 ≤ raw.length) (h : HandshakeInv hs) :
    HandshakeInv (AddMessage hs msg (some frame) raw) := by
  obtain ⟨h1, h2⟩ := h
  constructor
  · intro hc
    rw [AddMessage_Complete] at hc
    simp only [Bool.or_eq_true, Bool.and_eq_true] at hc
    rcases hc with hc | hc
    · obtain ⟨a, b⟩ := h1 hc
      rw [AddMessage_slots, AddMessage_slots]
      constructor
      · split
        · rfl
        · exact a
      · split
        · rfl
        · exact b
    · exact ⟨hc.1.2, hc.2⟩
  · intro j hj
    rw [AddMessage_slots] at hj
    rw [AddMessage_rawFrames]
    split
    · exact ⟨raw, rfl, hraw⟩
    · rename_i hn
      rw [if_neg hn] at hj
      exact h2 j hj

/-- The EAPOL-Key layer is no longer than the octets it is decoded from. -/
theorem decodeEAPOLKey_le (body c : List Byte) (h : decodeEAPOLKey body = some c) :
    c.length ≤ body.length := by
  unfold decodeEAPOLKey at h
  simp only at h
  by_cases h1 : body.length < eapolKeyFrameLen
  · simp [h1] at h
  · by_cases h2 : body.length < eapolKeyFrameLen + beUint (slice body 93 95)
    · simp [h1, h2] at h
    · by_cases h3 : hasEncryptedKeyData body = true
      · simp only [h1, h2, h3, if_true, if_false, Option.some.injEq] at h
        rw [← h, slice_length _ _ _ (Nat.le_of_not_lt h2)]
        omega
      · simp only [h1, h2, h3, if_false, Bool.false_eq_true, Option.some.injEq] at h
        rw [← h, slice_length _ _ _ (Nat.le_of_not_lt h1)]
        omega

/-- In a decoded packet the EAPOL-Key layer lies in the payload of the EAPOL
layer, after the 4-octet header. -/
theorem decodePacket_layers (dot11 : Option Dot11) (eapol : Option (List Byte))
    (keyData : List Byte) (h : (decodePacket dot11 eapol).eapolKeyLayer = some keyData) :
    ∃ el, (decodePacket dot11 eapol).eapolLayer = some el ∧
      keyData.length + 4 ≤ (el.Contents ++ el.Payload).length := by
  unfold decodePacket at h ⊢
  cases eapol with
  | none => cases h
  | some data =>
    simp only at h ⊢
    by_cases hlen : data.length < 4
    · simp [hlen] at h
    · simp only [hlen, if_false] at h ⊢
      refine ⟨_, rfl, ?_⟩
      have hs4 : (slice data 0 4).length = 4 := slice_length _ _ _ (by omega)
      rw [List.length_append, hs4]
      by_cases h3 : data.getD 1 0 = 3
      · simp only [h3, if_true] at h
        have := decodeEAPOLKey_le _ _ h
        simp only
        omega
      · simp only [h3, if_false] at h
        cases h

theorem scanCapPacket_inv (targetBSSID : String) (state : CaptureState)
    (dot11 : Option Dot11) (eapol : Option (List Byte))
    (h : ∀ e ∈ state.Handshakes, HandshakeInv e.2) :
    ∀ e ∈ (scanCapPacket targetBSSID state (decodePacket dot11 eapol)).Handshakes,
      HandshakeInv e.2 := by
  have hl := decodePacket_layers dot11 eapol
  generalize decodePacket dot11 eapol = p at hl ⊢
  unfold scanCapPacket
  split
  · exact h
  · split
    · exact h
    · rename_i keyData hk
      obtain ⟨el, hel, hlen⟩ := hl keyData hk
      simp only
      split
      · exact h
      · split
        · exact h
        · split
          · exact h
          · rename_i h99
            split
            · exact h
            · split
              · exact h
              · rename_i f hf hu
                simp only
                refine mapSet_forall HandshakeInv _ _ _ h ?_
                have hraw : 103 ≤ (match p.eapolLayer with
                    | some eapol => eapol.Contents ++ eapol.Payload
                    | none => ([] : List Byte)).length := by
                  rw [hel]
                  simp only
                  omega
                refine HandshakeInv_AddMessage _ _ f _ hraw ?_
                split
                · rename_i hs hg
                  exact h _ (mapGet_mem _ _ _ hg)
                · exact HandshakeInv_new

theorem scanCapture_inv (targetBSSID : String)
    (raw : List (Option Dot11 × Option (List Byte))) : ∀ state : CaptureState,
    (∀ e ∈ state.Handshakes, HandshakeInv e.2) →
    ∀ e ∈ ((decodeCapture raw).foldl (scanCapPacket targetBSSID) state).Handshakes,
      HandshakeInv e.2 := by
  induction raw with
  | nil => exact fun state h => h
  | cons r rs ih =>
    intro state h
    exact ih _ (scanCapPacket_inv targetBSSID state r.1 r.2 h)

theorem CompleteHandshakes_mem (cs : CaptureState) (order : List String)
    (hs : FourWayHandshake) (h : hs ∈ CompleteHandshakes cs order) :
    hs.Complete = true ∧ ∃ key, (key, hs) ∈ cs.Handshakes := by
  unfold CompleteHandshakes at h
  obtain ⟨h1, h2⟩ := List.mem_filter.1 h
  obtain ⟨key, -, hk⟩ := List.mem_filterMap.1 h1
  exact ⟨h2, key, mapGet_mem _ _ _ hk⟩

/-- C13: for every capture, its packets as the decoder presents them, and
every run of `CrackWithWordlist` on it: when no handshake of the capture has
an M2, the call returns the error "no complete handshake found" without
handing a word to the workers or testing one; and in every case either it
returns so, or the handshake it selects has an M2 and a raw M2 body of at
least 103 octets. So whenever the selected handshake would have no M2 or a raw
M2 body shorter than 97 octets the call has aborted before any test: no run
selects such a handshake. -/
theorem CrackWithWordlist_aborts_without_M2 (nc : NativeCracker)
    (raw : List (Option Dot11 × Option (List Byte))) (order : List String)
    (wordlist : Except String (List (List Byte))) (workers : Nat)
    (schedule : List CrackEvent) (state : CaptureState)
    (hscan : ScanCapFile (Except.ok (decodeCapture raw)) nc.bssid = Except.ok state) :
    ((∀ e ∈ state.Handshakes, e.2.Messages 1 = none) →
      CrackWithWordlist nc (Except.ok (decodeCapture raw)) order wordlist workers schedule =
          crackReturned (Except.error ("no complete handshake found in " ++ nc.capFile)) ∧
        (CrackWithWordlist nc (Except.ok (decodeCapture raw)) order wordlist workers
          schedule).sent = [] ∧
        (CrackWithWordlist nc (Except.ok (decodeCapture raw)) order wordlist workers
          schedule).tested = []) ∧
    ((CompleteHandshakes state order = [] ∧
        CrackWithWordlist nc (Except.ok (decodeCapture raw)) order wordlist workers schedule =
          crackReturned (Except.error ("no complete handshake found in " ++ nc.capFile)) ∧
        (CrackWithWordlist nc (Except.ok (decodeCapture raw)) order wordlist workers
          schedule).sent = [] ∧
        (CrackWithWordlist nc (Except.ok (decodeCapture raw)) order wordlist workers
          schedule).tested = []) ∨
      ∃ hs rest m2 body, CompleteHandshakes state order = hs :: rest ∧
        hs.Messages 1 = some m2 ∧ hs.RawFrames 1 = some body ∧ 103 ≤ body.length ∧
        CrackWithWordlist nc (Except.ok (decodeCapture raw)) order wordlist workers schedule =
          crackWithHandshake nc hs wordlist workers schedule) := by
  have hinv := scanCapture_inv nc.bssid raw NewCaptureState (fun e he => (by cases he))
  have hstate : (decodeCapture raw).foldl (scanCapPacket nc.bssid) NewCaptureState = state := by
    simp only [ScanCapFile] at hscan
    injection hscan
  rw [hstate] at hinv
  have hnil : CompleteHandshakes state order = [] →
      CrackWithWordlist nc (Except.ok (decodeCapture raw)) order wordlist workers schedule =
        crackReturned (Except.error ("no complete handshake found in " ++ nc.capFile)) := by
    intro hc
    simp only [CrackWithWordlist, ScanCapFile, hstate, hc]
  have hcons : ∀ hs rest, CompleteHandshakes state order = hs :: rest →
      CrackWithWordlist nc (Except.ok (decodeCapture raw)) order wordlist workers schedule =
        crackWithHandshake nc hs wordlist workers schedule := by
    intro hs rest hc
    simp only [CrackWithWordlist, ScanCapFile, hstate, hc]
  have hsel : ∀ hs rest, CompleteHandshakes state order = hs :: rest →
      ∃ m2 body, hs.Messages 1 = some m2 ∧ hs.RawFrames 1 = some body ∧ 103 ≤ body.length ∧
        ∃ key, (key, hs) ∈ state.Handshakes := by
    intro hs rest hc
    have hmem : hs ∈ CompleteHandshakes state order := by
      rw [hc]
      exact List.mem_cons_self _ _
    obtain ⟨hcomplete, key, hkey⟩ := CompleteHandshakes_mem state order hs hmem
    obtain ⟨h1, h2⟩ := hinv _ hkey
    obtain ⟨-, hm2⟩ := h1 hcomplete
    obtain ⟨m2, hm2b⟩ := Option.isSome_iff_exists.1 hm2
    obtain ⟨body, hb, hlen⟩ := h2 1 hm2
    exact ⟨m2, body, hm2b, hb, hlen, key, hkey⟩
  constructor
  · intro hnone
    cases hc : CompleteHandshakes state order with
    | nil =>
      rw [hnil hc]
      exact ⟨rfl, rfl, rfl⟩
    | cons hs rest =>
      obtain ⟨m2, body, hm2, -, -, key, hkey⟩ := hsel hs rest hc
      have := hnone _ hkey
      rw [hm2] at this
      cases this
  · cases hc : CompleteHandshakes state order with
    | nil =>
      rw [hnil hc]
      exact Or.inl ⟨rfl, rfl, rfl, rfl⟩
    | cons hs rest =>
      obtain ⟨m2, body, hm2, hb, hlen, -⟩ := hsel hs rest hc
      exact Or.inr ⟨hs, rest, m2, body, rfl, hm2, hb, hlen, hcons hs rest hc⟩

set_option maxRecDepth 100000 in
/-- C13, witness: a capture with a frame that the tracker takes for a message
1 and no message 2: the tracker has a handshake for the client, without M2,
and the call aborts before any test. -/
theorem CrackWithWordlist_aborts_without_M2_witness :
    (ScanCapFile (Except.ok (decodeCapture sampleShiftedCaptureM1)) sampleCracker.bssid =
        Except.ok sampleStateM1 ∧
      (sampleStateM1.Handshakes.map (fun e => (e.1, (e.2.Messages 0).isSome))) =
        [(hardwareAddrString sampleClient, true)] ∧
      ∀ e ∈ sampleStateM1.Handshakes, e.2.Messages 1 = none) ∧
    CrackWithWordlist sampleCracker (Except.ok (decodeCapture sampleShiftedCaptureM1))
        [hardwareAddrString sampleClient] (Except.ok [sampleShortLine, samplePassword]) 1
        sampleSchedule =
      crackReturned (Except.error ("no complete handshake found in " ++ sampleCracker.capFile)) ∧
    (CrackWithWordlist sampleCracker (Except.ok (decodeCapture sampleShiftedCaptureM1))
      [hardwareAddrString sampleClient] (Except.ok [sampleShortLine, samplePassword]) 1
      sampleSchedule).sent = [] ∧
    (CrackWithWordlist sampleCracker (Except.ok (decodeCapture sampleShiftedCaptureM1))
      [hardwareAddrString sampleClient] (Except.ok [sampleShortLine, samplePassword]) 1
      sampleSchedule).tested = [] :=
  ⟨⟨rfl, by decide, by decide⟩,
    (CrackWithWordlist_aborts_without_M2 sampleCracker sampleShiftedCaptureM1
      [hardwareAddrString sampleClient] (Except.ok [sampleShortLine, samplePassword]) 1
      sampleSchedule sampleStateM1 rfl).1 (by decide)⟩

set_option maxRecDepth 100000 in
/-- On the capture with both frames the tracker builds a complete handshake
for the sample client, with an M2 and a raw M2 body of 103 octets. -/
theorem sampleShiftedCapture_complete :
    (match ScanCapFile (Except.ok (decodeCapture sampleShiftedCapture)) sampleCracker.bssid with
      | Except.ok state =>
        (CompleteHandshakes state [hardwareAddrString sampleClient]).map (fun hs =>
          ((hs.Messages 1).isSome, (hs.RawFrames 1).map List.length))
      | Except.error _ => []) = [(true, some 103)] := by
  decide

/-! ### The channel between the producer and the workers -/

theorem crackInit_channelInv (lines : List (List Byte)) (workers : Nat) :
    ChannelInv (crackInit lines workers) := by
  refine ⟨rfl, Nat.zero_le _, ?_, ?_, ?_, ?_⟩
  · simp [crackInit]
  · intro w hw
    have := List.eq_of_mem_replicate hw
    cases this
  · intro w hw
    have := List.eq_of_mem_replicate hw
    cases this
  · intro w hw
    cases hw

theorem producerStep_channelInv (s : CrackState) (h : ChannelInv s) :
    ChannelInv (producerStep s) := by
  obtain ⟨h1, h2, h3, h4, h5, h6⟩ := h
  obtain ⟨ls, producer, wordCh, capacity, closed, found, workers, ctxDone, sent, tested,
    received⟩ := s
  simp only at h1 h2 h3 h4 h5 h6
  cases producer with
  | scanning =>
    cases ls with
    | nil => exact ⟨h1, h2, h3, h4, h5, h6⟩
    | cons word rest =>
      simp only [producerStep]
      split
      · exact ⟨h1, h2, h3, h4, h5, h6⟩
      · split
        · exact ⟨h1, h2, h3, h4, h5, h6⟩
        · split <;> exact ⟨h1, h2, h3, h4, h5, h6⟩
  | sending word =>
    simp only [producerStep]
    split
    · rename_i hc
      refine ⟨?_, ?_, h3, h4, h5, h6⟩
      · show sent ++ [word] = received ++ (wordCh ++ [word])
        rw [h1, List.append_assoc]
      · show (wordCh ++ [word]).length ≤ capacity
        rw [List.length_append, List.length_singleton]
        exact hc
    · exact ⟨h1, h2, h3, h4, h5, h6⟩
  | closing => exact ⟨h1, h2, h3, h4, h5, h6⟩
  | waiting =>
    simp only [producerStep]
    split
    · split <;> exact ⟨h1, h2, h3, h4, h5, h6⟩
    · exact ⟨h1, h2, h3, h4, h5, h6⟩
  | waitingCancelled =>
    simp only [producerStep]
    split <;> exact ⟨h1, h2, h3, h4, h5, h6⟩
  | returned r => exact ⟨h1, h2, h3, h4, h5, h6⟩

theorem workers_set_inv (workers : List WorkerState) (i : Nat) (x : WorkerState)
    (received : List (List Byte))
    (h2 : ∀ w, WorkerState.loaded w ∈ workers → w ∈ received)
    (h3 : ∀ w, WorkerState.verifying w ∈ workers → w ∈ received)
    (hx2 : ∀ w, x = WorkerState.loaded w → w ∈ received)
    (hx3 : ∀ w, x = WorkerState.verifying w → w ∈ received) :
    (∀ w, WorkerState.loaded w ∈ workers.set i x → w ∈ received) ∧
    (∀ w, WorkerState.verifying w ∈ workers.set i x → w ∈ received) := by
  constructor
  · intro w hw
    rcases List.mem_or_eq_of_mem_set hw with hw | hw
    · exact h2 w hw
    · exact hx2 w hw.symm
  · intro w hw
    rcases List.mem_or_eq_of_mem_set hw with hw | hw
    · exact h3 w hw
    · exact hx3 w hw.symm

theorem workerStep_channelInv (verify : List Byte → Bool) (s : CrackState) (i : Nat)
    (h : ChannelInv s) : ChannelInv (workerStep verify s i) := by
  obtain ⟨h1, h2, h3, h4, h5, h6⟩ := h
  unfold workerStep
  split
  · exact ⟨h1, h2, h3, h4, h5, h6⟩
  · split
    · rename_i word rest hw
      rw [hw] at h1 h2
      obtain ⟨a, b⟩ := workers_set_inv s.workers i (WorkerState.loaded word)
        (s.received ++ [word])
        (fun w hw2 => List.mem_append_left _ (h4 w hw2))
        (fun w hw2 => List.mem_append_left _ (h5 w hw2))
        (fun w hw2 => by
          injection hw2 with hw2
          rw [← hw2]
          exact List.mem_append_right _ (List.mem_singleton_self _))
        (fun w hw2 => by cases hw2)
      refine ⟨?_, ?_, ?_, a, b, fun w hw2 => List.mem_append_left _ (h6 w hw2)⟩
      · show s.sent = (s.received ++ [word]) ++ rest
        rw [h1, List.append_assoc]
        rfl
      · show rest.length ≤ s.capacity
        rw [List.length_cons] at h2
        omega
      · show s.capacity = (s.workers.set i (WorkerState.loaded word)).length * 4
        rw [List.length_set]
        exact h3
    · split
      · obtain ⟨a, b⟩ := workers_set_inv s.workers i WorkerState.exited s.received h4 h5
          (fun w hw2 => by cases hw2) (fun w hw2 => by cases hw2)
        refine ⟨h1, h2, ?_, a, b, h6⟩
        show s.capacity = (s.workers.set i WorkerState.exited).length * 4
        rw [List.length_set]
        exact h3
      · exact ⟨h1, h2, h3, h4, h5, h6⟩
  · rename_i word hg
    have hmem : word ∈ s.received := h4 word (List.get?_mem hg)
    split
    · obtain ⟨a, b⟩ := workers_set_inv s.workers i WorkerState.exited s.received h4 h5
        (fun w hw2 => by cases hw2) (fun w hw2 => by cases hw2)
      refine ⟨h1, h2, ?_, a, b, h6⟩
      show s.capacity = (s.workers.set i WorkerState.exited).length * 4
      rw [List.length_set]
      exact h3
    · obtain ⟨a, b⟩ := workers_set_inv s.workers i (WorkerState.verifying word) s.received
        h4 h5 (fun w hw2 => by cases hw2)
        (fun w hw2 => by injection hw2 with hw2; rw [← hw2]; exact hmem)
      refine ⟨h1, h2, ?_, a, b, h6⟩
      show s.capacity = (s.workers.set i (WorkerState.verifying word)).length * 4
      rw [List.length_set]
      exact h3
  · rename_i word hg
    have hmem : word ∈ s.received := h5 word (List.get?_mem hg)
    have h6b : ∀ w ∈ s.tested ++ [word], w ∈ s.received := by
      intro w hw
      rcases List.mem_append.1 hw with hw | hw
      · exact h6 w hw
      · rw [List.mem_singleton.1 hw]; exact hmem
    split
    · obtain ⟨a, b⟩ := workers_set_inv s.workers i WorkerState.exited s.received h4 h5
        (fun w hw2 => by cases hw2) (fun w hw2 => by cases hw2)
      refine ⟨h1, h2, ?_, a, b, h6b⟩
      show s.capacity = (s.workers.set i WorkerState.exited).length * 4
      rw [List.length_set]
      exact h3
    · obtain ⟨a, b⟩ := workers_set_inv s.workers i WorkerState.receiving s.received h4 h5
        (fun w hw2 => by cases hw2) (fun w hw2 => by cases hw2)
      refine ⟨h1, h2, ?_, a, b, h6b⟩
      show s.capacity = (s.workers.set i WorkerState.receiving).length * 4
      rw [List.length_set]
      exact h3
  · exact ⟨h1, h2, h3, h4, h5, h6⟩

theorem crackRun_channelInv (verify : List Byte → Bool) (schedule : List CrackEvent) :
    ∀ s : CrackState, ChannelInv s → ChannelInv (crackRun verify s schedule) := by
  induction schedule with
  | nil => exact fun s h => h
  | cons e es ih =>
    intro s h
    refine ih _ ?_
    cases e with
    | cancel => exact h
    | producer => exact producerStep_channelInv s h
    | worker i => exact workerStep_channelInv verify s i h



theorem crackInit_drainInv (lines : List (List Byte)) (workers : Nat) :
    DrainInv (crackInit lines workers) := by
  refine ⟨fun h => (by cases h), ?_, fun h => (by cases h)⟩
  intro hw
  have := List.eq_of_mem_replicate hw
  cases this

theorem allExited_cons (w : WorkerState) (ws : List WorkerState)
    (h : allExited (w :: ws) = true) : WorkerState.exited ∈ w :: ws := by
  unfold allExited at h
  simp only [List.all_cons, Bool.and_eq_true, decide_eq_true_eq] at h
  rw [h.1]
  exact List.mem_cons_self _ _

theorem producerStep_drainInv (s : CrackState) (hc : ChannelInv s) (h : DrainInv s) :
    DrainInv (producerStep s) := by
  obtain ⟨-, c2, c3, -, -, -⟩ := hc
  obtain ⟨d1, d2, d3⟩ := h
  obtain ⟨ls, producer, wordCh, capacity, closed, found, workers, ctxDone, sent, tested,
    received⟩ := s
  simp only at c2 c3 d1 d2 d3
  cases producer with
  | scanning =>
    have hopen : ¬ closed = true := fun hcl => d1 hcl
    have d2b : WorkerState.exited ∈ workers → found.isSome = true := by
      intro hw
      rcases d2 hw with hf | ⟨hcl, -⟩
      · exact hf
      · exact absurd hcl hopen
    cases ls with
    | nil =>
      exact ⟨fun hcl => absurd hcl hopen, fun hw => Or.inl (d2b hw), fun hr => (by cases hr)⟩
    | cons word rest =>
      simp only [producerStep]
      split
      · exact ⟨fun _ => trivial, fun hw => Or.inl (d2b hw), fun hr => (by cases hr)⟩
      · split
        · exact ⟨fun hcl => absurd hcl hopen, fun hw => Or.inl (d2b hw),
            fun hr => (by cases hr)⟩
        · split
          · exact ⟨fun hcl => absurd hcl hopen, fun hw => Or.inl (d2b hw),
              fun hr => (by cases hr)⟩
          · exact ⟨fun hcl => absurd hcl hopen, fun hw => Or.inl (d2b hw),
              fun hr => (by cases hr)⟩
  | sending word =>
    have hopen : ¬ closed = true := fun hcl => d1 hcl
    have d2b : WorkerState.exited ∈ workers → found.isSome = true := by
      intro hw
      rcases d2 hw with hf | ⟨hcl, -⟩
      · exact hf
      · exact absurd hcl hopen
    simp only [producerStep]
    split
    · exact ⟨fun hcl => absurd hcl hopen, fun hw => Or.inl (d2b hw), fun hr => (by cases hr)⟩
    · exact ⟨fun hcl => absurd hcl hopen, fun hw => Or.inl (d2b hw), fun hr => (by cases hr)⟩
  | closing =>
    have hopen : ¬ closed = true := fun hcl => d1 hcl
    refine ⟨fun _ => trivial, ?_, fun hr => (by cases hr)⟩
    intro hw
    rcases d2 hw with hf | ⟨hcl, -⟩
    · exact Or.inl hf
    · exact absurd hcl hopen
  | waiting =>
    simp only [producerStep]
    split
    · rename_i hall
      cases found with
      | some word => exact ⟨fun _ => trivial, d2, fun hr => (by cases hr)⟩
      | none =>
        refine ⟨fun _ => trivial, d2, fun _ => ?_⟩
        show wordCh = []
        cases workers with
        | nil =>
          simp only [List.length_nil, Nat.zero_mul] at c3
          rw [c3] at c2
          exact List.eq_nil_of_length_eq_zero (Nat.le_zero.1 c2)
        | cons w ws =>
          rcases d2 (allExited_cons w ws hall) with hf | ⟨-, hw⟩
          · cases hf
          · exact hw
    · exact ⟨d1, d2, d3⟩
  | waitingCancelled =>
    simp only [producerStep]
    split
    · refine ⟨fun _ => trivial, d2, fun hr => ?_⟩
      injection hr with hr
      injection hr with hr
      exact absurd hr (by decide)
    · exact ⟨d1, d2, d3⟩
  | returned r => exact ⟨d1, d2, d3⟩

theorem exited_mem_set (workers : List WorkerState) (i : Nat) (x : WorkerState)
    (hx : x ≠ WorkerState.exited) (h : WorkerState.exited ∈ workers.set i x) :
    WorkerState.exited ∈ workers := by
  rcases List.mem_or_eq_of_mem_set h with h | h
  · exact h
  · exact absurd h.symm hx

theorem workerStep_drainInv (verify : List Byte → Bool) (s : CrackState) (i : Nat)
    (h : DrainInv s) : DrainInv (workerStep verify s i) := by
  obtain ⟨d1, d2, d3⟩ := h
  unfold workerStep
  split
  · exact ⟨d1, d2, d3⟩
  · split
    · rename_i word rest hw
      refine ⟨d1, ?_, ?_⟩
      · intro hm
        have hm2 := exited_mem_set s.workers i _ (by simp) hm
        rcases d2 hm2 with hf | ⟨-, he⟩
        · exact Or.inl hf
        · rw [hw] at he
          cases he
      · intro hr
        have he := d3 hr
        rw [hw] at he
        cases he
    · split
      · rename_i hw hcl
        exact ⟨d1, fun _ => Or.inr ⟨hcl, hw⟩, d3⟩
      · exact ⟨d1, d2, d3⟩
  · split
    · rename_i hf
      exact ⟨d1, fun _ => Or.inl hf, d3⟩
    · exact ⟨d1, fun hm => d2 (exited_mem_set s.workers i _ (by simp) hm), d3⟩
  · split
    · exact ⟨d1, fun _ => Or.inl rfl, d3⟩
    · exact ⟨d1, fun hm => d2 (exited_mem_set s.workers i _ (by simp) hm), d3⟩
  · exact ⟨d1, d2, d3⟩

theorem crackRun_drainInv (verify : List Byte → Bool) (schedule : List CrackEvent) :
    ∀ s : CrackState, ChannelInv s → DrainInv s →
      DrainInv (crackRun verify s schedule) := by
  induction schedule with
  | nil => exact fun s _ h => h
  | cons e es ih =>
    intro s hc h
    cases e with
    | cancel => exact ih _ hc h
    | producer => exact ih _ (producerStep_channelInv s hc) (producerStep_drainInv s hc h)
    | worker i =>
      exact ih _ (workerStep_channelInv verify s i hc) (workerStep_drainInv verify s i h)


/-- C14 (amended): in every run of the concurrent phase, whatever the schedule
and the outcome of the tests: the words that the producer has put into the
channel are an initial segment of the wordlist's lines of 8 to 63 octets, in
file order; they are the words that the workers have taken from the channel
followed by those that wait in it; each has 8 to 63 octets; every word tested
was taken from the channel by a worker and has such a length, so no empty,
shorter or longer line is tested; and when the call returns "key not found"
the workers have received every line of 8 to 63 octets of the wordlist. -/
theorem producer_hands_initial_segment (verify : List Byte → Bool) (lines : List (List Byte))
    (workers : Nat) (schedule : List CrackEvent) :
    List.IsPrefix (crackRun verify (crackInit lines workers) schedule).sent
      (lines.filter (fun w => decide (8 ≤ w.length ∧ w.length ≤ 63))) ∧
    (crackRun verify (crackInit lines workers) schedule).sent =
      (crackRun verify (crackInit lines workers) schedule).received ++
        (crackRun verify (crackInit lines workers) schedule).wordCh ∧
    (∀ w ∈ (crackRun verify (crackInit lines workers) schedule).sent,
      8 ≤ w.length ∧ w.length ≤ 63) ∧
    (∀ w ∈ (crackRun verify (crackInit lines workers) schedule).tested,
      w ∈ (crackRun verify (crackInit lines workers) schedule).received ∧
        8 ≤ w.length ∧ w.length ≤ 63) ∧
    ((crackRun verify (crackInit lines workers) schedule).producer =
        ProducerState.returned (Except.error keyNotFound) →
      (crackRun verify (crackInit lines workers) schedule).received =
        lines.filter (fun w => decide (8 ≤ w.length ∧ w.length ≤ 63))) := by
  obtain ⟨k, hk, hs, hp⟩ := crackRun_inv verify lines schedule (crackInit lines workers)
    ⟨0, crackInit_inv lines workers⟩
  have hc := crackRun_channelInv verify schedule (crackInit lines workers)
    (crackInit_channelInv lines workers)
  obtain ⟨-, -, d3⟩ := crackRun_drainInv verify schedule (crackInit lines workers)
    (crackInit_channelInv lines workers) (crackInit_drainInv lines workers)
  obtain ⟨c1, -, -, -, -, c6⟩ := hc
  have hv : validLength = fun w => decide (8 ≤ w.length ∧ w.length ≤ 63) := rfl
  rw [hv] at hs
  have hpre : List.IsPrefix (crackRun verify (crackInit lines workers) schedule).sent
      (lines.filter (fun w => decide (8 ≤ w.length ∧ w.length ≤ 63))) := by
    have h1 : List.IsPrefix (crackRun verify (crackInit lines workers) schedule).sent
        ((lines.take k).filter (fun w => decide (8 ≤ w.length ∧ w.length ≤ 63))) := by
      rw [← hs]
      exact List.prefix_append _ _
    exact List.IsPrefix.trans h1 (List.IsPrefix.filter _ (List.take_prefix k lines))
  have hvalid : ∀ w ∈ (crackRun verify (crackInit lines workers) schedule).sent,
      8 ≤ w.length ∧ w.length ≤ 63 := by
    intro w hw
    have hw2 := hpre.subset hw
    simpa using (List.mem_filter.1 hw2).2
  refine ⟨hpre, c1, hvalid, ?_, ?_⟩
  · intro w hw
    have hr := c6 w hw
    refine ⟨hr, hvalid w ?_⟩
    rw [c1]
    exact List.mem_append_left _ hr
  · intro hret
    have hw := d3 hret
    rw [hret] at hp hs
    have hk2 : k = lines.length := hp rfl
    rw [hk2, List.take_length] at hs
    rw [hw, List.append_nil] at c1
    rw [← c1]
    simpa [pendingWord] using hs

/-- C14, witness: the wordlist "short", "password" with a test that fails: the
call returns "key not found" and the worker has received and tested
"password" only. -/
theorem producer_hands_initial_segment_witness :
    (crackRun (fun _ => false) (crackInit [sampleShortLine, samplePassword] 1)
        sampleSchedule).producer = ProducerState.returned (Except.error keyNotFound) ∧
    (crackRun (fun _ => false) (crackInit [sampleShortLine, samplePassword] 1)
        sampleSchedule).received =
      [sampleShortLine, samplePassword].filter
        (fun w => decide (8 ≤ w.length ∧ w.length ≤ 63)) ∧
    (crackRun (fun _ => false) (crackInit [sampleShortLine, samplePassword] 1)
        sampleSchedule).tested = [samplePassword] :=
  ⟨rfl, (producer_hands_initial_segment (fun _ => false) [sampleShortLine, samplePassword] 1
    sampleSchedule).2.2.2.2 rfl, rfl⟩

/-- The run along `sampleFoundSchedule` when the first line verifies. -/
theorem sampleFoundRun (verify : List Byte → Bool) (h : verify samplePassword = true) :
    crackRun verify (crackInit sampleTwoWords 1) sampleFoundSchedule =
      { lines := []
        producer := ProducerState.returned (Except.ok samplePassword)
        wordCh := []
        capacity := 4
        closed := true
        found := some samplePassword
        workers := [WorkerState.exited]
        ctxDone := false
        sent := [samplePassword]
        tested := [samplePassword]
        received := [samplePassword] } := by
  have hl : samplePassword.length = 8 := rfl
  simp [sampleFoundSchedule, crackRun, crackInit, sampleTwoWords, crackStep, producerStep,
    workerStep, allExited, h, hl]

/-- C14, counterexample: with one worker and the wordlist "password",
"12345678", for every test that accepts "password" the run along
`sampleFoundSchedule` returns "password", and the second line, of 8 octets,
has not been handed to the workers: the producer left its loop when it found
a word published. -/
theorem producer_stops_after_match :
    sampleOtherWord ∈ sampleTwoWords ∧
    (8 ≤ sampleOtherWord.length ∧ sampleOtherWord.length ≤ 63) ∧
    ∀ verify : List Byte → Bool, verify samplePassword = true →
      (crackRun verify (crackInit sampleTwoWords 1) sampleFoundSchedule).producer =
        ProducerState.returned (Except.ok samplePassword) ∧
      (crackRun verify (crackInit sampleTwoWords 1) sampleFoundSchedule).sent =
        [samplePassword] ∧
      (crackRun verify (crackInit sampleTwoWords 1) sampleFoundSchedule).received =
        [samplePassword] ∧
      (crackRun verify (crackInit sampleTwoWords 1) sampleFoundSchedule).wordCh = [] ∧
      (crackRun verify (crackInit sampleTwoWords 1) sampleFoundSchedule).tested =
        [samplePassword] ∧
      sampleOtherWord ∉
        (crackRun verify (crackInit sampleTwoWords 1) sampleFoundSchedule).sent := by
  refine ⟨by decide, by decide, ?_⟩
  intro verify h
  rw [sampleFoundRun verify h]
  exact ⟨rfl, rfl, rfl, rfl, rfl, by decide⟩

end Wifi
